import Mathlib

/-!
# Verification of the datastore engine (`dropbox/datastore.py`)

This file is a shallow embedding, in Lean 4, of the client-side datastore
engine found in `datastore.py`: the value model, the change log with its
inversion algorithm, the table/record store with incremental size
accounting, snapshot/delta application, the transaction retry loop and the
role-based access-control entry points.  Python dictionaries are embedded
as association lists (`alookup`/`aset`/`adel` mirror `d[k]`, `d[k] = v`,
`del d[k]`; Python dict equality is order-insensitive, so restoration
theorems are stated via lookups).  Python exceptions are embedded as
`Except Err`; an embedded operation that raises returns `Except.error` and
the caller keeps its previous state (none of the properties proved below
depend on partially-mutated state after an exception).  `None` used as a
field value is embedded as `Value.vnone`, matching `dict.get` returning
`None` for both a missing key and a stored `None`.
-/

namespace Datastore

/-- Python float values as transmitted by the engine: finite doubles are
embedded as rationals, with the three special values `inf`, `-inf`, `nan`
(`INF_VALUE`, `NINF_VALUE`, `NAN_VALUE` in the source) kept symbolic. -/
inductive PFloat where
  | fin (q : ℚ)
  | inf
  | ninf
  | nan
  deriving DecidableEq, Repr

/-- Atomic field values: `bool`, `int`/`long`, `float`, text strings
(after the UTF-8 normalisation in `_typecheck_atom`), `Date` (a finite
timestamp) and `Bytes` (a byte string, embedded as a list of bytes). -/
inductive Atom where
  | aBool (b : Bool)
  | aInt (n : ℤ)
  | aFloat (f : PFloat)
  | aStr (s : String)
  | aDate (t : ℚ)
  | aBytes (bs : List Nat)
  deriving DecidableEq, Repr

/-- A field value: Python `None`, an atom, or a tuple of atoms (list
fields are stored as tuples, replaced wholesale on each mutation).
`vnone` is the embedding of the Python `None` object so that
`dict.get(k)` (which returns `None` both for a missing key and for a
stored `None`) can be embedded faithfully; legal datastore states never
store `vnone` in a record. -/
inductive Value where
  | vnone
  | atom (a : Atom)
  | vlist (l : List Atom)
  deriving DecidableEq, Repr

/-- Python truthiness of a field value (`if old_value:` in
`Record.update`): `False`, `0`, `0.0`, the empty string, the empty tuple,
empty `Bytes` and `None` are falsy; `Date` has no `__bool__`/`__len__`
and is always truthy; `nan` and the infinities are truthy. -/
def pyTruthy : Value → Bool
  | .vnone => false
  | .atom (.aBool b) => b
  | .atom (.aInt n) => n ≠ 0
  | .atom (.aFloat (.fin q)) => q ≠ 0
  | .atom (.aFloat _) => true
  | .atom (.aStr s) => s ≠ ""
  | .atom (.aDate _) => true
  | .atom (.aBytes bs) => ¬bs.isEmpty
  | .vlist l => ¬l.isEmpty

/-- Numeric view of an atom for Python `==`: booleans compare equal to
their numeric values (`False == 0`, `True == 1.0`), integers compare
equal to floats of the same magnitude. -/
def numView : Atom → Option PFloat
  | .aBool b => some (.fin (if b then 1 else 0))
  | .aInt n => some (.fin (n : ℚ))
  | .aFloat f => some f
  | _ => none

/-- Python `==` on two float values: `nan` is not equal to anything,
including itself. -/
def pyEqFloat : PFloat → PFloat → Bool
  | .fin p, .fin q => p = q
  | .inf, .inf => true
  | .ninf, .ninf => true
  | _, _ => false

/-- Python `==` on two atoms, as used by `Table.query`: numeric values
(bools included) compare by value; strings, timestamps and byte strings
compare within their own kind; everything else is unequal. -/
def pyEqAtom (a b : Atom) : Bool :=
  match numView a, numView b with
  | some x, some y => pyEqFloat x y
  | _, _ =>
    match a, b with
    | .aStr s, .aStr t => s = t
    | .aDate s, .aDate t => s = t
    | .aBytes s, .aBytes t => s = t
    | _, _ => false

/-- Python `==` on two field values: tuples compare element-wise. -/
def pyEqValue : Value → Value → Bool
  | .vnone, .vnone => true
  | .atom a, .atom b => pyEqAtom a b
  | .vlist l, .vlist m =>
    l.length = m.length && (List.zip l m).all fun p => pyEqAtom p.1 p.2
  | _, _ => false

/-- The Python runtime type of a value, for the type test in
`Table.query` (`type(rfv) is type(value)`). `int` and `long` are merged:
the query test never distinguishes them because both belong to the
numeric set `set((int, long, float))`. -/
inductive PyType where
  | noneT | boolT | intT | floatT | strT | dateT | bytesT | tupleT
  deriving DecidableEq, Repr

/-- `type(v)` for a field value. -/
def pyTypeOf : Value → PyType
  | .vnone => .noneT
  | .atom (.aBool _) => .boolT
  | .atom (.aInt _) => .intT
  | .atom (.aFloat _) => .floatT
  | .atom (.aStr _) => .strT
  | .atom (.aDate _) => .dateT
  | .atom (.aBytes _) => .bytesT
  | .vlist _ => .tupleT

/-- Membership of a runtime type in `set((int, long, float))`, the
numeric-type set of `Table.query`. -/
def isNumericType : PyType → Bool
  | .intT => true
  | .floatT => true
  | _ => false

/-! ## Association lists: the embedding of Python dictionaries

`alookup` is `d.get(k)`, `aset` is `d[k] = v` (replacing in place for an
existing key, appending for a new one, as CPython insertion order does),
`adel` is `del d[k]` minus the `KeyError` (callers check presence),
`akeys` the key list. -/

/-- `d.get(k)`. -/
def alookup {α : Type} : List (String × α) → String → Option α
  | [], _ => none
  | (k, v) :: rest, key => if k = key then some v else alookup rest key

/-- `d[k] = v`: replace in place, else append. -/
def aset {α : Type} : List (String × α) → String → α → List (String × α)
  | [], key, v => [(key, v)]
  | (k, w) :: rest, key, v =>
    if k = key then (k, v) :: rest else (k, w) :: aset rest key v

/-- `del d[k]` (first occurrence; unique under `NodupKeys`). -/
def adel {α : Type} : List (String × α) → String → List (String × α)
  | [], _ => []
  | (k, w) :: rest, key =>
    if k = key then rest else (k, w) :: adel rest key

/-- The keys of an association list. -/
def akeys {α : Type} (l : List (String × α)) : List String := l.map Prod.fst

/-- The keys are pairwise distinct (true of every Python dict). -/
def nodupKeys {α : Type} (l : List (String × α)) : Prop := (akeys l).Nodup

instance {α : Type} (l : List (String × α)) : Decidable (nodupKeys l) :=
  inferInstanceAs (Decidable (akeys l).Nodup)

/-- Sum of a function over the values of an association list. -/
def asum {α : Type} (l : List (String × α)) (f : α → ℤ) : ℤ :=
  (l.map fun p => f p.2).sum

theorem alookup_eq_none {α : Type} (l : List (String × α)) (key : String) :
    alookup l key = none ↔ key ∉ akeys l := by
  induction l with
  | nil => simp [alookup, akeys]
  | cons p rest ih =>
    obtain ⟨k, v⟩ := p
    by_cases h : k = key
    · subst h
      simp [alookup, akeys]
    · simp only [alookup, if_neg h, akeys, List.map_cons, List.mem_cons]
      rw [ih]
      simp only [akeys]
      constructor
      · intro hh hor
        rcases hor with hor | hor
        · exact h hor.symm
        · exact hh hor
      · intro hh hm
        exact hh (Or.inr hm)

theorem alookup_aset_self {α : Type} (l : List (String × α)) (key : String) (v : α) :
    alookup (aset l key v) key = some v := by
  induction l with
  | nil => simp [aset, alookup]
  | cons p rest ih =>
    obtain ⟨k, w⟩ := p
    by_cases h : k = key <;> simp [aset, alookup, h, ih]

theorem alookup_aset_ne {α : Type} (l : List (String × α)) (key key' : String) (v : α)
    (h : key ≠ key') : alookup (aset l key v) key' = alookup l key' := by
  induction l with
  | nil => simp [aset, alookup, h, Ne.symm h]
  | cons p rest ih =>
    obtain ⟨k, w⟩ := p
    by_cases hk : k = key
    · subst hk
      simp [aset, alookup, h, Ne.symm h, ih]
    · by_cases hk' : k = key' <;>
        simp [aset, alookup, hk, hk', h, Ne.symm h, ih]

theorem mem_akeys_aset {α : Type} (l : List (String × α)) (key k' : String) (v : α) :
    k' ∈ akeys (aset l key v) ↔ k' = key ∨ k' ∈ akeys l := by
  induction l with
  | nil => simp [aset, akeys]
  | cons p rest ih =>
    obtain ⟨k, w⟩ := p
    by_cases hk : k = key
    · subst hk
      simp [aset, akeys]
    · simp only [aset, if_neg hk, akeys, List.map_cons, List.mem_cons] at ih ⊢
      rw [ih]
      tauto

theorem nodupKeys_aset {α : Type} (l : List (String × α)) (key : String) (v : α)
    (h : nodupKeys l) : nodupKeys (aset l key v) := by
  induction l with
  | nil => simp [aset, nodupKeys, akeys]
  | cons p rest ih =>
    obtain ⟨k, w⟩ := p
    simp only [nodupKeys, akeys, List.map_cons, List.nodup_cons] at h
    by_cases hk : k = key
    · subst hk
      simpa [aset, nodupKeys, akeys] using h
    · have hrest := ih h.2
      simp only [aset, if_neg hk, nodupKeys, akeys, List.map_cons, List.nodup_cons]
      refine ⟨?_, hrest⟩
      intro hmem
      rcases (mem_akeys_aset rest key k v).mp hmem with he | hm
      · exact hk he
      · exact h.1 (by simpa [akeys] using hm)

theorem alookup_adel_self {α : Type} (l : List (String × α)) (key : String)
    (h : nodupKeys l) : alookup (adel l key) key = none := by
  induction l with
  | nil => simp [adel, alookup]
  | cons p rest ih =>
    obtain ⟨k, w⟩ := p
    simp only [nodupKeys, akeys, List.map_cons, List.nodup_cons] at h
    by_cases hk : k = key
    · subst hk
      simp only [adel, if_pos rfl]
      rw [alookup_eq_none]
      simpa [akeys] using h.1
    · simp only [adel, if_neg hk, alookup, if_neg hk]
      exact ih h.2

theorem alookup_adel_ne {α : Type} (l : List (String × α)) (key key' : String)
    (h : key ≠ key') : alookup (adel l key) key' = alookup l key' := by
  induction l with
  | nil => simp [adel]
  | cons p rest ih =>
    obtain ⟨k, w⟩ := p
    by_cases hk : k = key
    · subst hk
      simp [adel, alookup, h, Ne.symm h]
    · by_cases hk' : k = key' <;>
        simp [adel, alookup, hk, hk', h, Ne.symm h, ih]

theorem mem_akeys_adel {α : Type} (l : List (String × α)) (key k' : String) :
    k' ∈ akeys (adel l key) → k' ∈ akeys l := by
  induction l with
  | nil => simp [adel]
  | cons p rest ih =>
    obtain ⟨k, w⟩ := p
    by_cases hk : k = key
    · subst hk
      simp only [adel, if_pos rfl, akeys, List.map_cons, List.mem_cons]
      exact fun hm => Or.inr hm
    · simp only [adel, if_neg hk, akeys, List.map_cons, List.mem_cons] at ih ⊢
      rintro (he | hm)
      · exact Or.inl he
      · exact Or.inr (ih hm)

theorem nodupKeys_adel {α : Type} (l : List (String × α)) (key : String)
    (h : nodupKeys l) : nodupKeys (adel l key) := by
  induction l with
  | nil => simp [adel, h]
  | cons p rest ih =>
    obtain ⟨k, w⟩ := p
    simp only [nodupKeys, akeys, List.map_cons, List.nodup_cons] at h
    by_cases hk : k = key
    · subst hk
      simpa [adel, nodupKeys] using h.2
    · simp only [adel, if_neg hk, nodupKeys, akeys, List.map_cons, List.nodup_cons]
      exact ⟨fun hm => h.1 (mem_akeys_adel rest key k hm), ih h.2⟩

/-! ## Size accounting (`_compute_*_size`, the `BASE_*` constants) -/

/-- `Datastore.BASE_DATASTORE_SIZE`. -/
def BASE_DATASTORE_SIZE : ℤ := 1000

/-- `Datastore.BASE_DELTA_SIZE`. -/
def BASE_DELTA_SIZE : ℤ := 100

/-- `Datastore.BASE_CHANGE_SIZE`. -/
def BASE_CHANGE_SIZE : ℤ := 100

/-- `Record.BASE_RECORD_SIZE`. -/
def BASE_RECORD_SIZE : ℤ := 100

/-- `Record.BASE_FIELD_SIZE`. -/
def BASE_FIELD_SIZE : ℤ := 100

/-- `List.BASE_ITEM_SIZE`. -/
def BASE_ITEM_SIZE : ℤ := 20

/-- `_compute_atom_size`: strings contribute their UTF-8 byte length,
byte strings their length; booleans, numbers and timestamps are free. -/
def compute_atom_size : Atom → ℤ
  | .aBool _ => 0
  | .aInt _ => 0
  | .aFloat _ => 0
  | .aDate _ => 0
  | .aStr s => (s.utf8ByteSize : ℤ)
  | .aBytes bs => (bs.length : ℤ)

/-- `_compute_list_size`: a per-item base cost plus each item's size. -/
def compute_list_size (l : List Atom) : ℤ :=
  (l.length : ℤ) * BASE_ITEM_SIZE + (l.map compute_atom_size).sum

/-- `_compute_value_size` (`_compute_atom_size(None)` is 0). -/
def compute_value_size : Value → ℤ
  | .vnone => 0
  | .atom a => compute_atom_size a
  | .vlist l => compute_list_size l

/-- `_compute_field_size`: 0 for `None`, else the field base size plus
the value size. -/
def compute_field_size : Value → ℤ
  | .vnone => 0
  | v => BASE_FIELD_SIZE + compute_value_size v

/-- The embedding of a Python dict mapping field names to values
(a record's field map, a change's `data` for an insert, or its `undo`). -/
abbrev Fields := List (String × Value)

/-- `_compute_record_size_for_fields`. -/
def compute_record_size_for_fields (f : Fields) : ℤ :=
  BASE_RECORD_SIZE + asum f compute_field_size

/-- `dict.get(k)`: `None` for a missing key (`Value.vnone` embeds the
Python `None` object). -/
def pyGet (f : Fields) (k : String) : Value := (alookup f k).getD .vnone

/-! ## Identifier validation (`_VALID_ID_RE`)

Valid table/record/field IDs are 1-64 characters from
`a-z A-Z 0-9 _ - / . + =`; reserved IDs are a colon followed by 1-63
characters from that set. -/

/-- Membership in the `_VALID_ID_RE` character class. -/
def is_valid_id_char (c : Char) : Bool :=
  (('a' ≤ c && c ≤ 'z') || ('A' ≤ c && c ≤ 'Z') || ('0' ≤ c && c ≤ '9') ||
   c = '_' || c = '-' || c = '/' || c = '.' || c = '+' || c = '=')

/-- `Table.is_valid_id` / `Record.is_valid_id` / `Record.is_valid_field`
(they all use `_VALID_ID_RE`). -/
def is_valid_id (s : String) : Bool :=
  match s.data with
  | ':' :: rest =>
    decide (1 ≤ rest.length) && decide (rest.length ≤ 63) && rest.all is_valid_id_char
  | cs =>
    decide (1 ≤ cs.length) && decide (cs.length ≤ 64) && cs.all is_valid_id_char

/-! ## The change log (`_Change`, field ops, `_list_move`) -/

/-- The per-field operations of an `UPDATE` change: `'P'`, `'D'`,
`'LC'`, `'LP'`, `'LI'`, `'LD'`, `'LM'` in the source.  Indices staged by
the engine are resolved non-negative indices, embedded as `Nat`. -/
inductive FieldOp where
  | ValuePut (v : Value)
  | ValueDelete
  | ListCreate
  | ListPut (index : Nat) (v : Atom)
  | ListInsert (index : Nat) (v : Atom)
  | ListDelete (index : Nat)
  | ListMove (index : Nat) (newindex : Nat)
  deriving DecidableEq, Repr

/-- `_is_listop`. -/
def is_listop : FieldOp → Bool
  | .ValuePut _ => false
  | .ValueDelete => false
  | _ => true

/-- `_get_op_value`: the value carried by a `P`, `LP` or `LI` op. -/
def get_op_value : FieldOp → Option Value
  | .ValuePut v => some v
  | .ListPut _ v => some (.atom v)
  | .ListInsert _ v => some (.atom v)
  | _ => none

/-- `_list_move(old, index, newindex)`: remove the item at `index` and
re-insert it at `newindex`, written with the same four slices as the
source (Python slices with non-negative bounds are `take`/`drop`). -/
def list_move {α : Type} (old : List α) (index newindex : Nat) : List α :=
  if index ≤ newindex then
    old.take index ++ (old.drop (index + 1)).take (newindex - index) ++
      (old.drop index).take 1 ++ old.drop (newindex + 1)
  else
    old.take newindex ++ (old.drop index).take 1 ++
      (old.drop newindex).take (index - newindex) ++ old.drop (index + 1)

/-- The `op` tag of a `_Change` (`'I'`, `'U'`, `'D'`). -/
inductive ChangeOp where
  | INSERT | UPDATE | DELETE
  deriving DecidableEq, Repr

/-- `_Change.REVERSED_OPS`. -/
def reversed_op : ChangeOp → ChangeOp
  | .INSERT => .DELETE
  | .UPDATE => .UPDATE
  | .DELETE => .INSERT

/-- What a change's `data` or `undo` slot can hold: `None`, a dict of
field values (insert data, delete/update undo), or a dict of field ops
(update data). -/
inductive CSlot where
  | noneS
  | fieldsS (f : Fields)
  | opsS (o : List (String × FieldOp))
  deriving DecidableEq, Repr

/-- `_Change`: an op tag, a table ID, a record ID, wire data and the
local-only undo information. -/
structure Change where
  op : ChangeOp
  tid : String
  recordid : String
  data : CSlot
  undo : CSlot
  deriving DecidableEq, Repr

/-- `_Change.size()`: the change base size, plus for inserts a field
base size and value size per field, and for updates a field base size
plus the op's value size (if any) per op.  (Delete changes contribute
only the base size.) -/
def Change.size (c : Change) : ℤ :=
  BASE_CHANGE_SIZE +
    match c.op, c.data with
    | .INSERT, .fieldsS f => asum f fun v => BASE_FIELD_SIZE + compute_value_size v
    | .UPDATE, .opsS o =>
      (o.map fun p =>
        BASE_FIELD_SIZE + ((get_op_value p.2).map compute_value_size).getD 0).sum
    | _, _ => 0

/-! ## Errors

The Python exceptions raised by the engine.  `assertionError` stands for
a failing `assert` statement. -/

inductive Err where
  | typeError (msg : String)
  | valueError (msg : String)
  | keyError
  | indexError
  | attributeError
  | assertionError
  | datastoreError (msg : String)
  | datastoreNotFoundError (msg : String)
  | datastoreConflictError (msg : String)
  | datastorePermissionError (msg : String)
  deriving DecidableEq, Repr

/-- `_Change._invert_listop`: given the pre-mutation `undo` dict and a
list op, produce the inverse op and the op's own after-state.  The
`assert` statements of the source are embedded as error results. -/
def invert_listop (undo : Fields) (name : String) (op : FieldOp) :
    Except Err (FieldOp × Value) := do
  let before ← match alookup undo name with
    | some v => Except.ok v
    | none => Except.error Err.keyError
  match op with
  | .ListCreate => Except.ok (.ValueDelete, .vlist [])
  | _ =>
    match before with
    | .vlist bl =>
      match op with
      | .ListPut index v =>
        match bl.get? index with
        | some old => Except.ok (.ListPut index old,
            .vlist (bl.take index ++ [v] ++ bl.drop (index + 1)))
        | none => Except.error Err.assertionError
      | .ListInsert index v =>
        if index ≤ bl.length then
          Except.ok (.ListDelete index, .vlist (bl.take index ++ [v] ++ bl.drop index))
        else Except.error Err.assertionError
      | .ListDelete index =>
        match bl.get? index with
        | some old =>
          Except.ok (.ListInsert index old, .vlist (bl.take index ++ bl.drop (index + 1)))
        | none => Except.error Err.assertionError
      | .ListMove index newindex =>
        if index < bl.length && newindex < bl.length then
          Except.ok (.ListMove newindex index, .vlist (list_move bl index newindex))
        else Except.error Err.assertionError
      | _ => Except.error Err.assertionError
    | _ => Except.error Err.assertionError

/-! ## The roles and their constants -/

/-- `Datastore.OWNER`. -/
def OWNER : String := "owner"

/-- `Datastore.EDITOR`. -/
def EDITOR : String := "editor"

/-- `Datastore.VIEWER`. -/
def VIEWER : String := "viewer"

/-- `Datastore.NONE`. -/
def NONE : String := "none"

/-- `ROLE_OWNER`. -/
def ROLE_OWNER : ℤ := 3000

/-- `ROLE_EDITOR`. -/
def ROLE_EDITOR : ℤ := 2000

/-- `ROLE_VIEWER`. -/
def ROLE_VIEWER : ℤ := 1000

/-- `ROLE_NONE`. -/
def ROLE_NONE : ℤ := 0

/-- The truncation in `_make_role`: unknown numeric role codes are
truncated down to the nearest known role. -/
def role_from_int (n : ℤ) : String :=
  if n ≥ ROLE_OWNER then OWNER
  else if n ≥ ROLE_EDITOR then EDITOR
  else if n ≥ ROLE_VIEWER then VIEWER
  else NONE

/-- `_make_role(irole)`: `None` defaults to owner (backward
compatibility); integers (and booleans, which satisfy
`isinstance(x, int)` in Python) are truncated; anything else is a
`TypeError`. -/
def make_role (irole : Value) : Except Err String :=
  match irole with
  | .vnone => Except.ok OWNER
  | .atom (.aInt n) => Except.ok (role_from_int n)
  | .atom (.aBool b) => Except.ok (role_from_int (if b then 1 else 0))
  | _ => Except.error (Err.typeError "irole must be an integer")

/-- `_parse_role(role, owner_ok)`.  Role arguments are strings in this
embedding, so the `TypeError` branch for non-string arguments is
unreachable. -/
def parse_role (role : String) (owner_ok : Bool) : Except Err ℤ :=
  if role = OWNER && owner_ok then Except.ok ROLE_OWNER
  else if role = EDITOR then Except.ok ROLE_EDITOR
  else if role = VIEWER then Except.ok ROLE_VIEWER
  else if role = NONE then Except.ok ROLE_NONE
  else Except.error (Err.valueError "invalid role")

/-- An ACL principal: `TEAM`, `PUBLIC`, or `User(uid)` with a positive
uid (embedded as `uid + 1` over `Nat`). -/
inductive Principal where
  | team
  | public
  | user (n : Nat)
  deriving DecidableEq, Repr

/-- `Principal.key`: `'team'`, `'public'`, or `'u<uid>'`. -/
def Principal.key : Principal → String
  | .team => "team"
  | .public => "public"
  | .user n => "u" ++ toString (n + 1)

/-! ## The datastore state

`Datastore` object state: `_id`, `_role`, `_rev`, `_tables` (each table
holding `_records` and `_record_sizes`), `_changes`,
`_record_count`, `_size`, `_pending_changes_size`.  The manager and
handle (network-facing fields) are not modelled. -/

/-- A `Table`: `_records` and the parallel `_record_sizes` cache. -/
structure TableM where
  records : List (String × Fields)
  record_sizes : List (String × ℤ)
  deriving DecidableEq, Repr

/-- A `Datastore`. -/
structure DS where
  id : String
  role : String
  rev : ℤ
  tables : List (String × TableM)
  changes : List Change
  record_count : ℤ
  size : ℤ
  pending_changes_size : ℤ
  deriving DecidableEq, Repr

/-- A freshly constructed `Datastore` (`Datastore.__init__`). -/
def initDS (id role : String) : DS :=
  { id := id, role := role, rev := 0, tables := [], changes := [],
    record_count := 0, size := BASE_DATASTORE_SIZE, pending_changes_size := 0 }

/-- `Datastore.is_shareable()`: `self._id.startswith('.')`, written on
the character list so that it evaluates by kernel reduction. -/
def is_shareable (ds : DS) : Bool :=
  match ds.id.data with
  | '.' :: _ => true
  | _ => false

/-- `Datastore.is_writable()`. -/
def is_writable (ds : DS) : Bool := ds.role ≠ VIEWER

/-- `Datastore.get_effective_role()`. -/
def get_effective_role (ds : DS) : String :=
  if is_shareable ds then ds.role else OWNER

/-- `Datastore._check_edit_permission()`. -/
def check_edit_permission (ds : DS) : Except Err Unit :=
  if is_shareable ds && ¬(ds.role = OWNER || ds.role = EDITOR) then
    Except.error (Err.datastorePermissionError "This datastore is read-only")
  else Except.ok ()

/-- `Datastore._check_shareable()`. -/
def check_shareable (ds : DS) : Except Err Unit :=
  if ¬is_shareable ds then
    Except.error (Err.datastoreError "Access control is only supported for shareable datastores")
  else Except.ok ()

/-- `Datastore.get_record_count()`. -/
def get_record_count (ds : DS) : ℤ := ds.record_count

/-- `Datastore.get_size()`. -/
def get_size (ds : DS) : ℤ := ds.size

/-- `Datastore.get_pending_changes_size()`: zero when the pending queue
is empty, else the delta base size plus the accumulated change sizes. -/
def get_pending_changes_size (ds : DS) : ℤ :=
  if ¬ds.changes.isEmpty then BASE_DELTA_SIZE + ds.pending_changes_size else 0

/-- `Datastore._add_pending_change(change)`. -/
def add_pending_change (ds : DS) (change : Change) : DS :=
  { ds with changes := ds.changes ++ [change],
            pending_changes_size := ds.pending_changes_size + change.size }

/-- `Datastore.get_table(tid)`: return the table (creating an empty one
after validating the ID), together with the possibly-extended datastore. -/
def get_table (ds : DS) (tid : String) : Except Err (DS × TableM) :=
  match alookup ds.tables tid with
  | some t => Except.ok (ds, t)
  | none =>
    if is_valid_id tid then
      Except.ok ({ ds with tables := ds.tables ++ [(tid, ⟨[], []⟩)] },
                 (⟨[], []⟩ : TableM))
    else Except.error (Err.valueError "Invalid table ID")

/-- `Table._get_record_size(recordid)`: the cached record size, 0 for an
absent record; the source asserts that a record with fields always has a
cached size. -/
def get_record_size (t : TableM) (recordid : String) : Except Err ℤ :=
  match alookup t.record_sizes recordid with
  | none =>
    if alookup t.records recordid = none then Except.ok 0
    else Except.error Err.assertionError
  | some s =>
    if s = 0 then
      if alookup t.records recordid = none then Except.ok 0
      else Except.error Err.assertionError
    else Except.ok s

/-- `Table._update_record_fields(recordid, fields, change_in_size)`:
update the record's fields (`none` deletes the record), its cached size,
the datastore size and the record count.  The two `assert` statements on
sizes are embedded as error results.  (If the new cached size is nonzero
the source stores `fields` as-is; storing `None` there is a corrupt
state that this embedding rejects.) -/
def update_record_fields (ds : DS) (tid recordid : String) (fields : Option Fields)
    (change_in_size : ℤ) : Except Err DS := do
  let t ← match alookup ds.tables tid with
    | some t => Except.ok t
    | none => Except.error Err.keyError
  let curr0 ← get_record_size t recordid
  let is_new := curr0 = 0
  let curr := curr0 + change_in_size
  if curr < 0 then Except.error Err.assertionError
  else if ds.size + change_in_size < BASE_DATASTORE_SIZE then Except.error Err.assertionError
  else if curr ≠ 0 then
    match fields with
    | some f =>
      Except.ok { ds with
        tables := aset ds.tables tid
          ⟨aset t.records recordid f, aset t.record_sizes recordid curr⟩,
        record_count := ds.record_count + (if is_new then 1 else 0),
        size := ds.size + change_in_size }
    | none => Except.error Err.assertionError
  else
    if alookup t.record_sizes recordid = none then Except.error Err.keyError
    else if alookup t.records recordid = none then Except.error Err.keyError
    else
      Except.ok { ds with
        tables := aset ds.tables tid
          ⟨adel t.records recordid, adel t.record_sizes recordid⟩,
        record_count := ds.record_count - 1,
        size := ds.size + change_in_size }

/-! ## Change inversion (`_Change.invert`) -/

/-- The per-op loop of `_Change.invert` for an `UPDATE` change: given
the change's `undo` dict, invert each op, producing the new `data` and
new `undo` dicts in iteration order. -/
def invert_update_ops (u : Fields) :
    List (String × FieldOp) → Except Err (List (String × FieldOp) × Fields)
  | [] => Except.ok ([], [])
  | (name, op) :: rest => do
    let (d1, u1) ←
      if is_listop op then do
        let (invop, after) ← invert_listop u name op
        Except.ok ((name, invop), (name, after))
      else
        match op with
        | .ValuePut after_v =>
          let before := pyGet u name
          if before = .vnone then
            Except.ok ((name, FieldOp.ValueDelete), (name, after_v))
          else
            Except.ok ((name, FieldOp.ValuePut before), (name, after_v))
        | .ValueDelete =>
          Except.ok ((name, FieldOp.ValuePut (pyGet u name)), (name, Value.vnone))
        | _ => Except.error Err.assertionError
    let (drest, urest) ← invert_update_ops u rest
    Except.ok (d1 :: drest, u1 :: urest)

/-- `_Change.invert()`: an `UPDATE` inverts op-by-op using the undo
dict; an `INSERT` or `DELETE` swaps in the reversed op tag with `data`
and `undo` exchanged. -/
def Change.invert (c : Change) : Except Err Change :=
  match c.op with
  | .UPDATE =>
    match c.data, c.undo with
    | .opsS o, .fieldsS u =>
      match invert_update_ops u o with
      | .ok (newdata, newundo) =>
        Except.ok ⟨.UPDATE, c.tid, c.recordid, .opsS newdata, .fieldsS newundo⟩
      | .error e => Except.error e
    | .opsS _, _ => Except.error Err.attributeError
    | _, _ => Except.error Err.assertionError
  | op => Except.ok ⟨reversed_op op, c.tid, c.recordid, c.undo, c.data⟩

/-! ## Applying changes (`Datastore._apply_change`, `_apply_listop`) -/

/-- `Datastore._apply_listop(oldval, val)`: apply a list op to the old
field value.  The source indexes with Python slices, which clamp, so no
bounds are checked here; the `assert isinstance(oldval, tuple)` is an
error result. -/
def apply_listop (oldval : Value) (op : FieldOp) : Except Err Value :=
  match op with
  | .ListCreate =>
    if oldval = .vnone || oldval = .vlist [] then Except.ok (.vlist [])
    else Except.error Err.assertionError
  | _ =>
    match oldval with
    | .vlist old =>
      match op with
      | .ListPut index v =>
        Except.ok (.vlist (old.take index ++ [v] ++ old.drop (index + 1)))
      | .ListInsert index v =>
        Except.ok (.vlist (old.take index ++ [v] ++ old.drop index))
      | .ListDelete index =>
        Except.ok (.vlist (old.take index ++ old.drop (index + 1)))
      | .ListMove index newindex =>
        Except.ok (.vlist (list_move old index newindex))
      | _ => Except.error Err.assertionError
    | _ => Except.error Err.assertionError

/-- The per-field loop of `_apply_change` for an `UPDATE`: thread the
(copied) field dict and the `old_size`/`new_size` accumulators through
the ops.  In the source the `ValueDelete` guard `if field in data` is
vacuously true (`field` ranges over `data`), so the deletion runs
unconditionally and raises `KeyError` for an absent field. -/
def apply_update_ops :
    Fields → List (String × FieldOp) → Except Err (Fields × ℤ × ℤ)
  | fields, [] => Except.ok (fields, 0, 0)
  | fields, (field, val) :: rest => do
    let old_value := pyGet fields field
    let osz := if old_value ≠ .vnone then compute_field_size old_value else 0
    match val with
    | .ValuePut v => do
      let (f, o, n) ← apply_update_ops (aset fields field v) rest
      Except.ok (f, osz + o, compute_field_size v + n)
    | .ValueDelete =>
      if alookup fields field = none then Except.error Err.keyError
      else do
        let (f, o, n) ← apply_update_ops (adel fields field) rest
        Except.ok (f, osz + o, n)
    | _ => do
      let nl ← apply_listop (pyGet fields field) val
      let (f, o, n) ← apply_update_ops (aset fields field nl) rest
      Except.ok (f, osz + o, compute_field_size nl + n)

/-- `Datastore._apply_change(change)`: apply a change to the local
store, returning the updated datastore and the `(tid, recordid)` pair.
(The source also records undo data into server-received changes; that
write is never read afterwards and is not modelled.) -/
def apply_change (ds : DS) (change : Change) : Except Err (DS × String × String) := do
  let tid := change.tid
  let recordid := change.recordid
  let (ds1, t) ← get_table ds tid
  match change.op with
  | .INSERT =>
    match change.data with
    | .fieldsS data =>
      if (alookup t.records recordid).isSome then Except.error Err.assertionError
      else do
        let ds2 ← update_record_fields ds1 tid recordid (some data)
          (compute_record_size_for_fields data)
        Except.ok (ds2, tid, recordid)
    | _ => Except.error Err.attributeError
  | .DELETE =>
    match alookup t.records recordid with
    | none => Except.error Err.attributeError
    | some old_fields => do
      let ds2 ← update_record_fields ds1 tid recordid none
        (-(compute_record_size_for_fields old_fields))
      Except.ok (ds2, tid, recordid)
  | .UPDATE =>
    match change.data with
    | .opsS data =>
      match alookup t.records recordid with
      | none => Except.error Err.keyError
      | some fields0 => do
        let (fields, old_size, new_size) ← apply_update_ops fields0 data
        let ds2 ← update_record_fields ds1 tid recordid (some fields)
          (new_size - old_size)
        Except.ok (ds2, tid, recordid)
    | _ => Except.error Err.attributeError

/-! ## Rollback (`Datastore.rollback`) -/

/-- The loop of `rollback()`: pop the most recent pending change, invert
it, apply the inverse, repeat.  The pending list is consumed from the
end (`self._changes.pop()`), so the loop runs over the reversed list. -/
def rollback_loop : DS → List Change → Except Err DS
  | ds, [] => Except.ok ds
  | ds, ch :: rest => do
    let inv ← ch.invert
    let (ds1, _, _) ← apply_change ds inv
    rollback_loop ds1 rest

/-- `Datastore.rollback()`. -/
def rollback (ds : DS) : Except Err DS :=
  rollback_loop { ds with changes := [] } ds.changes.reverse

/-! ## Table mutations (`Table._insert_with_id`, `get_or_insert`,
`Record.update`, `Record.delete_record`, `Record.get_or_create_list`)

The entry points below take the datastore plus the table ID, standing
for a method call on the `Table`/`Record` handle obtained from
`Datastore.get_table`.  Values in this embedding are already members of
the closed value type, so `_typecheck_value` reduces to the explicit
`None` checks of the source (the Python-2 `str` to `unicode`
normalisation is the identity here). -/

/-- The field-validation loop of `_insert_with_id`: check each field
name, reject `None` values, and accumulate the value sizes. -/
def validate_insert_fields : Fields → Except Err ℤ
  | [] => Except.ok 0
  | (field, value) :: rest => do
    if ¬is_valid_id field then Except.error (Err.valueError "Invalid field name")
    else if value = .vnone then
      Except.error (Err.typeError "Cannot set field to None in insert")
    else do
      let s ← validate_insert_fields rest
      Except.ok (compute_field_size value + s)

/-- `Table._insert_with_id(recordid, fields)`.  Keyword arguments cannot
repeat a name, so dicts with duplicate keys are rejected up front (that
precondition is enforced by Python syntax, not by the source body). -/
def insert_with_id (ds : DS) (tid recordid : String) (fields : Fields) :
    Except Err DS := do
  check_edit_permission ds
  if ¬nodupKeys fields then Except.error (Err.typeError "duplicate field") else do
  let value_size ← validate_insert_fields fields
  let change : Change := ⟨.INSERT, tid, recordid, .fieldsS fields, .noneS⟩
  let ds1 := add_pending_change ds change
  update_record_fields ds1 tid recordid (some fields) (BASE_RECORD_SIZE + value_size)

/-- `Table.get_or_insert(recordid, **fields)` (via `Table.get`, which
validates the record ID only when the record is absent). -/
def table_get_or_insert (ds : DS) (tid recordid : String) (fields : Fields) :
    Except Err DS := do
  let (ds1, t) ← get_table ds tid
  if (alookup t.records recordid).isSome then Except.ok ds1
  else if ¬is_valid_id recordid then Except.error (Err.valueError "Invalid record ID")
  else insert_with_id ds1 tid recordid fields

/-- The field loop of `Record.update`: thread the (copied) field dict
and build the `data` ops, the `undo` dict and the size accumulators.  A
`None` value deletes the field — but only when the current value is
truthy (`if old_value:` in the source). -/
def record_update_loop :
    Fields → Fields → Except Err (Fields × List (String × FieldOp) × Fields × ℤ × ℤ)
  | fields, [] => Except.ok (fields, [], [], 0, 0)
  | fields, (field, value) :: rest => do
    if ¬is_valid_id field then Except.error (Err.valueError "Invalid field name")
    else if value = .vnone then
      let old_value := pyGet fields field
      if pyTruthy old_value then do
        let (f, d, u, o, n) ← record_update_loop (adel fields field) rest
        Except.ok (f, (field, FieldOp.ValueDelete) :: d, (field, old_value) :: u,
                   compute_field_size old_value + o, n)
      else
        record_update_loop fields rest
    else do
      let old_value := pyGet fields field
      let (f, d, u, o, n) ← record_update_loop (aset fields field value) rest
      Except.ok (f, (field, FieldOp.ValuePut value) :: d, (field, old_value) :: u,
                 compute_field_size old_value + o, compute_field_size value + n)

/-- `Record.update(**kwds)`: one `UPDATE` change covering all staged
ops, applied locally through `_update_record_fields`; if no op was
staged the record is left untouched and no change is added. -/
def record_update (ds : DS) (tid recordid : String) (kwds : Fields) : Except Err DS := do
  check_edit_permission ds
  let (ds1, t) ← get_table ds tid
  match alookup t.records recordid with
  | none => Except.error (Err.datastoreError "Cannot update a deleted record")
  | some fields0 =>
    if ¬nodupKeys kwds then Except.error (Err.typeError "duplicate field") else do
    let (fields, data, undo, old_size, new_size) ← record_update_loop fields0 kwds
    if data.isEmpty then Except.ok ds1
    else do
      let change : Change := ⟨.UPDATE, tid, recordid, .opsS data, .fieldsS undo⟩
      let ds2 := add_pending_change ds1 change
      update_record_fields ds2 tid recordid (some fields) (new_size - old_size)

/-- `Record.set(field, value)` is `update(**{field: value})`. -/
def record_set (ds : DS) (tid recordid field : String) (value : Value) : Except Err DS :=
  record_update ds tid recordid [(field, value)]

/-- `Record.delete_record()`: a no-op for an already-deleted record,
otherwise stage a `DELETE` change carrying the fields as undo and remove
the record. -/
def delete_record (ds : DS) (tid recordid : String) : Except Err DS := do
  check_edit_permission ds
  let (ds1, t) ← get_table ds tid
  match alookup t.records recordid with
  | none => Except.ok ds1
  | some fields => do
    let change : Change := ⟨.DELETE, tid, recordid, .noneS, .fieldsS fields⟩
    let ds2 := add_pending_change ds1 change
    let sz ← get_record_size t recordid
    update_record_fields ds2 tid recordid none (-sz)

/-- `Record.get_or_create_list(field)`: return the existing list field,
or set the field to an empty list via a `ListCreate` op. -/
def get_or_create_list (ds : DS) (tid recordid field : String) : Except Err DS := do
  let (ds1, t) ← get_table ds tid
  match alookup t.records recordid with
  | none => Except.error (Err.datastoreError "Cannot update a deleted record")
  | some fields =>
    match pyGet fields field with
    | .vlist _ => Except.ok ds1
    | .atom _ => Except.error (Err.typeError "Field already exists but is not a list")
    | .vnone =>
      if ¬is_valid_id field then Except.error (Err.valueError "Invalid field name")
      else do
        check_edit_permission ds1
        let change : Change := ⟨.UPDATE, tid, recordid, .opsS [(field, .ListCreate)],
                                .fieldsS [(field, .vnone)]⟩
        let ds2 := add_pending_change ds1 change
        update_record_fields ds2 tid recordid (some (aset fields field (.vlist [])))
          BASE_FIELD_SIZE

/-! ## List mutations (`List.__setitem__`, `__delitem__`, `insert`,
`append`, `move`)

A `List` handle is bound to `(table, recordid, field)`; `_check`
re-derives the current tuple on each access.  Index arguments are
Python integers, embedded as `ℤ`. -/

/-- `List._check()`: the current tuple value of the bound field; fails
for a deleted record or a non-list field. -/
def list_check (ds : DS) (tid recordid field : String) : Except Err (List Atom) := do
  let (_, t) ← get_table ds tid
  match alookup t.records recordid with
  | none => Except.error (Err.typeError "Cannot use a List referring to a deleted record")
  | some fields =>
    match pyGet fields field with
    | .vlist l => Except.ok l
    | _ => Except.error (Err.typeError "Cannot use a List referring to a non-list field")

/-- `List._update(v, op)`: stage one `UPDATE` change with a single list
op (undo holds the whole previous tuple) and store the new tuple. -/
def list_update (ds : DS) (tid recordid field : String) (v : List Atom) (op : FieldOp) :
    Except Err DS := do
  check_edit_permission ds
  let (ds1, t) ← get_table ds tid
  match alookup t.records recordid with
  | none => Except.error Err.keyError
  | some fields =>
    let old_v := pyGet fields field
    let change : Change := ⟨.UPDATE, tid, recordid, .opsS [(field, op)],
                            .fieldsS [(field, old_v)]⟩
    let ds2 := add_pending_change ds1 change
    update_record_fields ds2 tid recordid (some (aset fields field (.vlist v)))
      (compute_value_size (.vlist v) - compute_value_size old_v)

/-- `List.__setitem__(index, value)`: negative indices get the length
added; a resolved index outside `[0, len)` raises `IndexError`. -/
def List_setitem (ds : DS) (tid recordid field : String) (index : ℤ) (value : Atom) :
    Except Err DS := do
  let v ← list_check ds tid recordid field
  let n : ℤ := v.length
  let index := if index < 0 then index + n else index
  if ¬(0 ≤ index ∧ index < n) then Except.error Err.indexError
  else
    let i := index.toNat
    list_update ds tid recordid field (v.take i ++ [value] ++ v.drop (i + 1))
      (.ListPut i value)

/-- `List.__delitem__(index)`. -/
def List_delitem (ds : DS) (tid recordid field : String) (index : ℤ) :
    Except Err DS := do
  let v ← list_check ds tid recordid field
  let n : ℤ := v.length
  let index := if index < 0 then index + n else index
  if ¬(0 ≤ index ∧ index < n) then Except.error Err.indexError
  else
    let i := index.toNat
    list_update ds tid recordid field (v.take i ++ v.drop (i + 1)) (.ListDelete i)

/-- `List.insert(index, value)`: negative indices get the length added
and are then clamped below at 0; indices above the length are clamped to
the length.  No `IndexError` is ever raised. -/
def List_insert (ds : DS) (tid recordid field : String) (index : ℤ) (value : Atom) :
    Except Err DS := do
  let v ← list_check ds tid recordid field
  let n : ℤ := v.length
  let index :=
    if index < 0 then (if index + n < 0 then 0 else index + n)
    else (if index > n then n else index)
  let i := index.toNat
  list_update ds tid recordid field (v.take i ++ [value] ++ v.drop i)
    (.ListInsert i value)

/-- `List.append(value)`. -/
def List_append (ds : DS) (tid recordid field : String) (value : Atom) :
    Except Err DS := do
  let v ← list_check ds tid recordid field
  list_update ds tid recordid field (v ++ [value]) (.ListInsert v.length value)

/-- `List.move(index, newindex)`: both indices are negative-resolved and
bounds-checked before the move. -/
def List_move (ds : DS) (tid recordid field : String) (index newindex : ℤ) :
    Except Err DS := do
  let v ← list_check ds tid recordid field
  let n : ℤ := v.length
  let index := if index < 0 then index + n else index
  if ¬(0 ≤ index ∧ index < n) then Except.error Err.indexError
  else
    let newindex := if newindex < 0 then newindex + n else newindex
    if ¬(0 ≤ newindex ∧ newindex < n) then Except.error Err.indexError
    else
      list_update ds tid recordid field (list_move v index.toNat newindex.toNat)
        (.ListMove index.toNat newindex.toNat)

/-! ## Queries (`Table.query`) -/

/-- The filter-building loop of `Table.query`: validate each field name
and typecheck each value (rejecting `None`). -/
def validate_query_kwds : List (String × Value) → Except Err (List (String × Value))
  | [] => Except.ok []
  | (field, value) :: rest => do
    if ¬is_valid_id field then Except.error (Err.valueError "Invalid field name")
    else if value = .vnone then
      Except.error (Err.typeError "Type NoneType is not an acceptable value type")
    else do
      let f ← validate_query_kwds rest
      Except.ok ((field, value) :: f)

/-- The per-record filter of `Table.query`: every `(field, value)` pair
must be present, compare equal under Python `==`, and have identical
runtime types unless both types are numeric. -/
def query_filter_ok (fields : Fields) (filter : List (String × Value)) : Bool :=
  filter.all fun p =>
    match alookup fields p.1 with
    | none => false
    | some rfv =>
      pyEqValue rfv p.2 &&
      (pyTypeOf rfv = pyTypeOf p.2 ||
       (isNumericType (pyTypeOf rfv) && isNumericType (pyTypeOf p.2)))

/-- `Table.query(**kwds)`: the matching record IDs (the source returns
the corresponding set of `Record` handles). -/
def query (ds : DS) (tid : String) (kwds : List (String × Value)) :
    Except Err (List String) := do
  let (_, t) ← get_table ds tid
  let filter ← validate_query_kwds kwds
  Except.ok ((t.records.filter fun p => query_filter_ok p.2 filter).map Prod.fst)

/-! ## Deltas and snapshots (`Datastore.apply_deltas`,
`Datastore.apply_snapshot`)

A delta is a server-confirmed `{rev, changes}` pair; its changes are
embedded post-`_Change.from_json` (decoded data, no undo).  A snapshot
row is `{tid, rowid, data}` with the data post-`_value_from_json`. -/

/-- A delta: a revision and the changes that produced it. -/
structure Delta where
  rev : ℤ
  changes : List Change
  deriving DecidableEq, Repr

/-- The inner loop of `apply_deltas` over one delta's changes,
accumulating the set of `(tid, recordid)` pairs touched. -/
def apply_changes_list :
    DS → List (String × String) → List Change →
    Except Err (DS × List (String × String))
  | ds, acc, [] => Except.ok (ds, acc)
  | ds, acc, c :: rest => do
    let (ds1, tid, recordid) ← apply_change ds c
    let acc1 := if (tid, recordid) ∈ acc then acc else acc ++ [(tid, recordid)]
    apply_changes_list ds1 acc1 rest

/-- The delta loop of `apply_deltas`: skip deltas older than the current
revision, fail on any other revision mismatch, and bump the revision to
`rev + 1` after applying a delta's changes. -/
def apply_deltas_loop :
    DS → List (String × String) → List Delta →
    Except Err (DS × List (String × String))
  | ds, acc, [] => Except.ok (ds, acc)
  | ds, acc, delta :: rest =>
    if delta.rev < ds.rev then apply_deltas_loop ds acc rest
    else if delta.rev ≠ ds.rev then
      Except.error (Err.datastoreError "Revision out of sequence")
    else
      match apply_changes_list ds acc delta.changes with
      | .error e => Except.error e
      | .ok (ds1, acc1) => apply_deltas_loop { ds1 with rev := delta.rev + 1 } acc1 rest

/-- `Datastore.apply_deltas(deltas)`: rejected outright with pending
changes; `None` deltas are a no-op.  Returns the updated datastore and
the raw set of changed `(tid, recordid)` pairs (the source additionally
groups them into `Record` handles per table). -/
def apply_deltas (ds : DS) (deltas : Option (List Delta)) :
    Except Err (DS × List (String × String)) :=
  if ¬ds.changes.isEmpty then
    Except.error (Err.datastoreError "Cannot call apply_deltas with pending changes")
  else
    match deltas with
    | none => Except.ok (ds, [])
    | some ls => apply_deltas_loop ds [] ls

/-- A snapshot row (`{tid, rowid, data}`). -/
structure Row where
  tid : String
  rowid : String
  data : Fields
  deriving DecidableEq, Repr

/-- The row loop of `apply_snapshot`. -/
def apply_snapshot_rows : DS → List Row → Except Err DS
  | ds, [] => Except.ok ds
  | ds, row :: rest => do
    let (ds1, _) ← get_table ds row.tid
    let ds2 ← update_record_fields ds1 row.tid row.rowid (some row.data)
      (compute_record_size_for_fields row.data)
    apply_snapshot_rows ds2 rest

/-- `Datastore.apply_snapshot(rev, snapshot)`: the source resets
`_rev`, `_tables` and `_changes` and then loads the rows — but it does
not reset `_record_count`, `_size` or `_pending_changes_size`. -/
def apply_snapshot (ds : DS) (rev : ℤ) (snapshot : List Row) : Except Err DS := do
  let ds1 := { ds with rev := 0, tables := [], changes := [] }
  let ds2 ← apply_snapshot_rows ds1 snapshot
  Except.ok { ds2 with rev := rev }

/-! ## Access control (`Datastore.get_role`, `set_role`, `delete_role`,
`list_roles`)

The write entry points are embedded in state-threading style
(`DS × Option Err`): when an exception is raised partway, the returned
state is the state at the moment of the raise (Python keeps partial
mutations).  The only mutation ever performed before a raise in these
paths is the creation of an empty `:acl` table entry by `get_table`. -/

/-- `Datastore.get_role(principal)`: the role explicitly set in the ACL
(`Table.get` validates the key only when the record is absent). -/
def get_role (ds : DS) (p : Principal) : Except Err String := do
  check_shareable ds
  let (_, acl) ← get_table ds ":acl"
  match alookup acl.records p.key with
  | some fields => make_role (pyGet fields "role")
  | none =>
    if ¬is_valid_id p.key then Except.error (Err.valueError "Invalid record ID")
    else Except.ok NONE

/-- `id.startswith('u') and id[1:].isdigit()` in `list_roles`. -/
def is_user_key (s : String) : Bool :=
  match s.data with
  | 'u' :: rest => ¬rest.isEmpty && rest.all Char.isDigit
  | _ => false

/-- The record loop of `list_roles`: keep `team`, `public` and
`u<digits>` records, decode each one's role. -/
def list_roles_loop : List (String × Fields) → Except Err (List (String × String))
  | [] => Except.ok []
  | (id, fields) :: rest => do
    if id = "team" || id = "public" || is_user_key id then do
      let role ← make_role (pyGet fields "role")
      let acc ← list_roles_loop rest
      Except.ok ((id, role) :: acc)
    else
      list_roles_loop rest

/-- `Datastore.list_roles()`: the full ACL, keyed by principal key. -/
def list_roles (ds : DS) : Except Err (List (String × String)) := do
  check_shareable ds
  let (_, acl) ← get_table ds ":acl"
  list_roles_loop acl.records

/-- `Datastore.delete_role(principal)` (state-threading). -/
def delete_role (ds : DS) (p : Principal) : DS × Option Err :=
  if ¬is_shareable ds then
    (ds, some (Err.datastoreError "Access control is only supported for shareable datastores"))
  else
    match get_table ds ":acl" with
    | .error e => (ds, some e)
    | .ok (ds1, acl) =>
      match alookup acl.records p.key with
      | none =>
        if ¬is_valid_id p.key then (ds1, some (Err.valueError "Invalid record ID"))
        else (ds1, none)
      | some _ =>
        match delete_record ds1 ":acl" p.key with
        | .ok ds2 => (ds2, none)
        | .error e => (ds1, some e)

/-- `Datastore.set_role(principal, role)` (state-threading): `'none'`
delegates to `delete_role`; otherwise the role is parsed with
`owner_ok=False` and the ACL record inserted or updated. -/
def set_role (ds : DS) (p : Principal) (role : String) : DS × Option Err :=
  if role = NONE then delete_role ds p
  else if ¬is_shareable ds then
    (ds, some (Err.datastoreError "Access control is only supported for shareable datastores"))
  else
    match parse_role role false with
    | .error e => (ds, some e)
    | .ok irole =>
      match get_table ds ":acl" with
      | .error e => (ds, some e)
      | .ok (ds1, acl) =>
        match alookup acl.records p.key with
        | none =>
          match table_get_or_insert ds1 ":acl" p.key [("role", .atom (.aInt irole))] with
          | .ok ds2 => (ds2, none)
          | .error e => (ds1, some e)
        | some _ =>
          match record_update ds1 ":acl" p.key [("role", .atom (.aInt irole))] with
          | .ok ds2 => (ds2, none)
          | .error e => (ds1, some e)

/-! ## The transaction retry loop (`Datastore.transaction`)

The loop's interactions with the callback, `commit()`, `rollback()` and
`load_deltas()` are embedded as a trace over an oracle `b` giving, for
each try `i`, whether the callback raises and how the commit attempt
ends.  The trace records the order of the four operations; the
datastore-state effects of each operation are covered by the other
definitions in this file. -/

/-- How one try of the loop behaves: whether the callback raises, how
`commit()` ends if reached, and the callback's return value. -/
structure TryBehavior where
  callbackRaises : Bool
  commit : Bool × Bool
  ret : Nat

/-- The commit outcome of a try: `commitConflict` means `commit()`
raised `DatastoreConflictError`, `commitError` any other exception, and
otherwise it returned normally. -/
def commitConflict (tb : TryBehavior) : Bool := tb.commit.1

/-- See `commitConflict`. -/
def commitError (tb : TryBehavior) : Bool := ¬tb.commit.1 && tb.commit.2

/-- The operations whose ordering the transaction loop promises. -/
inductive TxEvent where
  | callbackEv | commitEv | rollbackEv | loadDeltasEv
  deriving DecidableEq, Repr

/-- The outcome of `transaction`. -/
inductive TxRes where
  | value (v : Nat)
  | callbackRaised
  | commitRaised
  | gaveUp (msg : String)
  deriving DecidableEq, Repr

/-- The failure message after running out of tries: a specific hint for
`max_tries == 1`, a count otherwise. -/
def out_of_tries_msg (max_tries : Nat) : String :=
  if max_tries = 1 then "Failed to commit; set max_tries to a value > 1 to retry"
  else "Failed to commit " ++ toString max_tries ++ " times in a row"

/-- The `for _ in range(max_tries)` loop body of `transaction`: call the
callback (rollback and re-raise on failure); commit (on conflict,
rollback then `load_deltas()` then loop; on any other failure, rollback
and re-raise; on success return the callback's value). -/
def transaction_loop (b : Nat → TryBehavior) : Nat → Nat → List TxEvent × Option TxRes
  | _, 0 => ([], none)
  | i, fuel + 1 =>
    if (b i).callbackRaises then
      ([.callbackEv, .rollbackEv], some .callbackRaised)
    else if commitConflict (b i) then
      let (tr, r) := transaction_loop b (i + 1) fuel
      ([.callbackEv, .commitEv, .rollbackEv, .loadDeltasEv] ++ tr, r)
    else if commitError (b i) then
      ([.callbackEv, .commitEv, .rollbackEv], some .commitRaised)
    else
      ([.callbackEv, .commitEv], some (.value (b i).ret))

/-- `Datastore.transaction(callback, max_tries)`: guards
(`max_tries >= 1`, no pending changes), then the retry loop, then the
out-of-tries error. -/
def transaction (max_tries : Nat) (hasPending : Bool) (b : Nat → TryBehavior) :
    Except Err (List TxEvent × TxRes) :=
  if max_tries < 1 then Except.error (Err.valueError "max_tries must be >= 1")
  else if hasPending then
    Except.error (Err.datastoreError "There should be no pending changes")
  else
    match transaction_loop b 0 max_tries with
    | (tr, some r) => Except.ok (tr, r)
    | (tr, none) => Except.ok (tr, .gaveUp (out_of_tries_msg max_tries))

/-! ## Helper lemmas: fields untouched by the store operations -/

@[simp]
theorem except_bind_ok {ε α β : Type} (a : α) (f : α → Except ε β) :
    (Except.ok a >>= f) = f a := rfl

@[simp]
theorem except_bind_error {ε α β : Type} (e : ε) (f : α → Except ε β) :
    ((Except.error e : Except ε α) >>= f) = Except.error e := rfl

@[simp]
theorem except_pure {ε α : Type} (a : α) : (pure a : Except ε α) = Except.ok a := rfl

/-- The datastore fields not touched by `_apply_change` and its callees:
id, role, revision, pending queue, pending size. -/
def storeSig (ds : DS) : String × String × ℤ × List Change × ℤ :=
  (ds.id, ds.role, ds.rev, ds.changes, ds.pending_changes_size)

theorem storeSig_get_table {ds : DS} {tid : String} {ds1 : DS} {t : TableM}
    (h : get_table ds tid = Except.ok (ds1, t)) : storeSig ds1 = storeSig ds := by
  unfold get_table at h
  cases hl : alookup ds.tables tid with
  | some u => rw [hl] at h; cases h; rfl
  | none =>
    rw [hl] at h
    by_cases hv : is_valid_id tid
    · rw [if_pos hv] at h
      cases h
      rfl
    · rw [if_neg hv] at h
      cases h

theorem storeSig_update_record_fields {ds : DS} {tid rid : String} {f : Option Fields}
    {d : ℤ} {ds1 : DS} (h : update_record_fields ds tid rid f d = Except.ok ds1) :
    storeSig ds1 = storeSig ds := by
  unfold update_record_fields at h
  cases hl : alookup ds.tables tid with
  | none => rw [hl] at h; cases h
  | some t =>
    rw [hl] at h
    simp only [except_bind_ok] at h
    cases hs : get_record_size t rid with
    | error e => rw [hs] at h; cases h
    | ok curr0 =>
      rw [hs] at h
      simp only [except_bind_ok] at h
      split at h
      · cases h
      · split at h
        · cases h
        · split at h
          · split at h
            · cases h; rfl
            · cases h
          · split at h
            · cases h
            · split at h
              · cases h
              · cases h; rfl

theorem except_bind_eq_ok {ε α β : Type} {e : Except ε α} {f : α → Except ε β} {b : β}
    (h : (e >>= f) = Except.ok b) : ∃ a, e = Except.ok a ∧ f a = Except.ok b := by
  cases e with
  | error x => cases h
  | ok a => exact ⟨a, rfl, h⟩

theorem storeSig_apply_change {ds : DS} {c : Change} {ds1 : DS} {tid rid : String}
    (h : apply_change ds c = Except.ok (ds1, tid, rid)) : storeSig ds1 = storeSig ds := by
  simp only [apply_change] at h
  cases hg : get_table ds c.tid with
  | error e => rw [hg] at h; cases h
  | ok p =>
    obtain ⟨dsa, t⟩ := p
    rw [hg] at h
    have hga := storeSig_get_table hg
    simp only [except_bind_ok] at h
    iterate 8 (all_goals try split at h)
    all_goals
      first
      | cases h
      | (obtain ⟨ds2, hu, hok⟩ := except_bind_eq_ok h
         cases hok
         exact (storeSig_update_record_fields hu).trans hga)
      | (obtain ⟨tr, ha2, hok⟩ := except_bind_eq_ok h
         obtain ⟨ds2, hu, hok2⟩ := except_bind_eq_ok hok
         cases hok2
         exact (storeSig_update_record_fields hu).trans hga)

theorem storeSig_apply_changes_list {cs : List Change} :
    ∀ {ds : DS} {acc : List (String × String)} {ds1 : DS} {acc1 : List (String × String)},
    apply_changes_list ds acc cs = Except.ok (ds1, acc1) → storeSig ds1 = storeSig ds := by
  induction cs with
  | nil =>
    intro ds acc ds1 acc1 h
    unfold apply_changes_list at h
    cases h
    rfl
  | cons c rest ih =>
    intro ds acc ds1 acc1 h
    unfold apply_changes_list at h
    cases ha : apply_change ds c with
    | error e => rw [ha] at h; cases h
    | ok triple =>
      obtain ⟨dsa, tid, rid⟩ := triple
      rw [ha] at h
      simp only [except_bind_ok] at h
      rw [ih h, storeSig_apply_change ha]

/-! ## C3: revision discipline of `apply_deltas` -/

/-- The number of deltas of a list that are *new* at revision `r`: a
delta with `rev < r` at its processing point is skipped, any other delta
is applied and advances the revision by one. -/
def new_deltas_count : ℤ → List Delta → ℕ
  | _, [] => 0
  | r, d :: rest =>
    if d.rev < r then new_deltas_count r rest
    else 1 + new_deltas_count (r + 1) rest

theorem apply_deltas_loop_rev {ls : List Delta} :
    ∀ {ds : DS} {acc : List (String × String)} {ds1 : DS} {acc1 : List (String × String)},
    apply_deltas_loop ds acc ls = Except.ok (ds1, acc1) →
    ds1.rev = ds.rev + new_deltas_count ds.rev ls := by
  induction ls with
  | nil =>
    intro ds acc ds1 acc1 h
    unfold apply_deltas_loop at h
    cases h
    simp [new_deltas_count]
  | cons d rest ih =>
    intro ds acc ds1 acc1 h
    unfold apply_deltas_loop at h
    by_cases h1 : d.rev < ds.rev
    · rw [if_pos h1] at h
      rw [ih h]
      simp [new_deltas_count, h1]
    · rw [if_neg h1] at h
      by_cases h2 : d.rev ≠ ds.rev
      · rw [if_pos h2] at h
        cases h
      · rw [if_neg h2] at h
        push_neg at h2
        cases hc : apply_changes_list ds acc d.changes with
        | error e => rw [hc] at h; cases h
        | ok p =>
          obtain ⟨dsa, acca⟩ := p
          rw [hc] at h
          have hrev := ih h
          simp only at hrev
          rw [hrev]
          simp only [new_deltas_count, h2, lt_self_iff_false, if_false]
          push_cast
          ring

/-- C3: with no pending changes, `apply_deltas` silently skips any delta
whose revision is below the current revision, raises the
out-of-sequence `DatastoreError` on any other revision mismatch (never
skipping it), and on success has advanced the revision by exactly the
number of new deltas applied. -/
theorem C3_apply_deltas_revision_discipline (ds : DS) (ls : List Delta)
    (hpend : ds.changes = []) :
    (∀ (acc : List (String × String)) (d : Delta) (rest : List Delta), d.rev < ds.rev →
        apply_deltas_loop ds acc (d :: rest) = apply_deltas_loop ds acc rest) ∧
    (∀ (acc : List (String × String)) (d : Delta) (rest : List Delta),
        ¬d.rev < ds.rev → d.rev ≠ ds.rev →
        apply_deltas_loop ds acc (d :: rest) =
          Except.error (Err.datastoreError "Revision out of sequence")) ∧
    (∀ (ds1 : DS) (recs : List (String × String)),
        apply_deltas ds (some ls) = Except.ok (ds1, recs) →
        ds1.rev = ds.rev + new_deltas_count ds.rev ls) := by
  refine ⟨?_, ?_, ?_⟩
  · intro acc d rest hlt
    conv_lhs => rw [apply_deltas_loop]
    rw [if_pos hlt]
  · intro acc d rest hge hne
    conv_lhs => rw [apply_deltas_loop]
    rw [if_neg hge, if_pos hne]
  · intro ds1 recs h
    unfold apply_deltas at h
    rw [hpend] at h
    simp only [List.isEmpty_nil, not_true_eq_false, if_false] at h
    exact apply_deltas_loop_rev h

/-- Witness for C3 at a concrete datastore and delta list. -/
theorem C3_witness :
    ({ initDS "x" OWNER with rev := 1 } : DS).changes = [] ∧
    ((∀ (acc : List (String × String)) (d : Delta) (rest : List Delta),
        d.rev < ({ initDS "x" OWNER with rev := 1 } : DS).rev →
        apply_deltas_loop { initDS "x" OWNER with rev := 1 } acc (d :: rest) =
          apply_deltas_loop { initDS "x" OWNER with rev := 1 } acc rest) ∧
    (∀ (acc : List (String × String)) (d : Delta) (rest : List Delta),
        ¬d.rev < ({ initDS "x" OWNER with rev := 1 } : DS).rev →
        d.rev ≠ ({ initDS "x" OWNER with rev := 1 } : DS).rev →
        apply_deltas_loop { initDS "x" OWNER with rev := 1 } acc (d :: rest) =
          Except.error (Err.datastoreError "Revision out of sequence")) ∧
    (∀ (ds1 : DS) (recs : List (String × String)),
        apply_deltas { initDS "x" OWNER with rev := 1 } (some [⟨1, []⟩]) =
          Except.ok (ds1, recs) →
        ds1.rev = ({ initDS "x" OWNER with rev := 1 } : DS).rev +
          new_deltas_count ({ initDS "x" OWNER with rev := 1 } : DS).rev [⟨1, []⟩])) :=
  ⟨rfl, C3_apply_deltas_revision_discipline { initDS "x" OWNER with rev := 1 } [⟨1, []⟩] rfl⟩

/-! ## C10: `set_role` never assigns the owner role -/

/-- C10: on a shareable, writable datastore, `set_role(principal,
'owner')` raises `ValueError` with the datastore state (and hence the
pending queue) unchanged; `_parse_role` with `owner_ok=False` accepts
exactly `'editor'`, `'viewer'` and `'none'`; and the role `'none'`
delegates to `delete_role`. -/
theorem C10_set_role_owner_rejected (ds : DS) (p : Principal)
    (hsh : is_shareable ds = true) (hw : is_writable ds = true) :
    set_role ds p OWNER = (ds, some (Err.valueError "invalid role")) ∧
    (∀ role : String, (parse_role role false).isOk = true ↔
        (role = EDITOR ∨ role = VIEWER ∨ role = NONE)) ∧
    set_role ds p NONE = delete_role ds p := by
  refine ⟨?_, ?_, ?_⟩
  · unfold set_role
    rw [if_neg (by decide : ¬(OWNER = NONE))]
    rw [hsh]
    have hp : parse_role OWNER false = Except.error (Err.valueError "invalid role") := by
      unfold parse_role
      rw [if_neg (by decide), if_neg (by decide), if_neg (by decide), if_neg (by decide)]
    rw [hp]
    simp
  · intro role
    unfold parse_role
    by_cases h1 : role = EDITOR
    · simp [h1, EDITOR, OWNER, Except.isOk, Except.toBool]
    · by_cases h2 : role = VIEWER
      · simp [h1, h2, VIEWER, OWNER, EDITOR, Except.isOk, Except.toBool]
      · by_cases h3 : role = NONE
        · simp [h1, h2, h3, NONE, OWNER, EDITOR, VIEWER, Except.isOk, Except.toBool]
        · have h0 : ¬(role = OWNER ∧ False) := by simp
          simp [h1, h2, h3, Except.isOk, Except.toBool]
  · unfold set_role
    rw [if_pos rfl]

/-- Witness for C10 at a concrete shareable, writable datastore. -/
theorem C10_witness :
    is_shareable (initDS ".shardata" EDITOR) = true ∧
    is_writable (initDS ".shardata" EDITOR) = true ∧
    (set_role (initDS ".shardata" EDITOR) Principal.team OWNER =
        (initDS ".shardata" EDITOR, some (Err.valueError "invalid role")) ∧
      (∀ role : String, (parse_role role false).isOk = true ↔
          (role = EDITOR ∨ role = VIEWER ∨ role = NONE)) ∧
      set_role (initDS ".shardata" EDITOR) Principal.team NONE =
        delete_role (initDS ".shardata" EDITOR) Principal.team) :=
  ⟨by decide, by decide,
   C10_set_role_owner_rejected (initDS ".shardata" EDITOR) Principal.team
     (by decide) (by decide)⟩

/-! ## Error classification helpers -/

deriving instance DecidableEq for Except

theorem except_bind_eq_error {ε α β : Type} {e1 : Except ε α} {f : α → Except ε β}
    {err : ε} (h : (e1 >>= f) = Except.error err) :
    e1 = Except.error err ∨ ∃ a, e1 = Except.ok a ∧ f a = Except.error err := by
  cases e1 with
  | error x =>
    left
    have : x = err := by
      simpa using h
    rw [this]
  | ok a => exact Or.inr ⟨a, rfl, h⟩

theorem check_edit_permission_error {ds : DS} {e : Err}
    (h : check_edit_permission ds = Except.error e) :
    e = Err.datastorePermissionError "This datastore is read-only" := by
  unfold check_edit_permission at h
  split at h
  · injection h with h2
    exact h2.symm
  · cases h

theorem get_table_error {ds : DS} {tid : String} {e : Err}
    (h : get_table ds tid = Except.error e) : e = Err.valueError "Invalid table ID" := by
  unfold get_table at h
  split at h
  · cases h
  · split at h
    · cases h
    · injection h with h2
      exact h2.symm

theorem get_record_size_error {t : TableM} {rid : String} {e : Err}
    (h : get_record_size t rid = Except.error e) : e = Err.assertionError := by
  unfold get_record_size at h
  iterate 4 (all_goals try split at h)
  all_goals try cases h
  all_goals first
  | (injection h with h2; exact h2.symm)
  | rfl

theorem update_record_fields_error {ds : DS} {tid rid : String} {f : Option Fields}
    {d : ℤ} {e : Err} (h : update_record_fields ds tid rid f d = Except.error e) :
    e = Err.keyError ∨ e = Err.assertionError := by
  unfold update_record_fields at h
  cases hl : alookup ds.tables tid with
  | none =>
    rw [hl] at h
    injection h with h2
    exact Or.inl h2.symm
  | some t =>
    rw [hl] at h
    simp only [except_bind_ok] at h
    rcases except_bind_eq_error h with h1 | ⟨curr0, hc, h1⟩
    · exact Or.inr (get_record_size_error h1)
    · by_cases c1 : curr0 + d < 0
      · rw [if_pos c1] at h1
        injection h1 with h2
        subst h2
        simp
      · rw [if_neg c1] at h1
        by_cases c2 : ds.size + d < BASE_DATASTORE_SIZE
        · rw [if_pos c2] at h1
          injection h1 with h2
          subst h2
          simp
        · rw [if_neg c2] at h1
          by_cases c3 : curr0 + d ≠ 0
          · rw [if_pos c3] at h1
            cases f with
            | some ff => cases h1
            | none =>
              injection h1 with h2
              subst h2
              simp
          · rw [if_neg c3] at h1
            by_cases c4 : alookup t.record_sizes rid = none
            · rw [if_pos c4] at h1
              injection h1 with h2
              subst h2
              simp
            · rw [if_neg c4] at h1
              by_cases c5 : alookup t.records rid = none
              · rw [if_pos c5] at h1
                injection h1 with h2
                subst h2
                simp
              · rw [if_neg c5] at h1
                cases h1

theorem list_update_error_ne_index {ds : DS} {tid rid field : String}
    {v : List Atom} {op : FieldOp} {e : Err}
    (h : list_update ds tid rid field v op = Except.error e) : e ≠ Err.indexError := by
  unfold list_update at h
  rcases except_bind_eq_error h with h1 | ⟨u, hc, h1⟩
  · rw [check_edit_permission_error h1]
    intro hx
    cases hx
  · rcases except_bind_eq_error h1 with h2 | ⟨p, hg, h2⟩
    · rw [get_table_error h2]
      intro hx
      cases hx
    · obtain ⟨ds1, t⟩ := p
      dsimp only at h2
      cases hr : alookup t.records rid with
      | none =>
        rw [hr] at h2
        injection h2 with h3
        subst h3
        intro hx
        cases hx
      | some fields =>
        rw [hr] at h2
        have h2a : update_record_fields
            (add_pending_change ds1
              ⟨.UPDATE, tid, rid, .opsS [(field, op)], .fieldsS [(field, pyGet fields field)]⟩)
            tid rid (some (aset fields field (Value.vlist v)))
            (compute_value_size (Value.vlist v) - compute_value_size (pyGet fields field)) =
            Except.error e := h2
        rcases update_record_fields_error h2a with h3 | h3 <;>
          (rw [h3]; intro hx; cases hx)

/-! ## C7: index handling of the mutating `List` methods -/

/-- The stored value of a field, read through the table and record maps. -/
def get_field_value (ds : DS) (tid rid field : String) : Option Value :=
  match alookup ds.tables tid with
  | none => none
  | some t =>
    match alookup t.records rid with
    | none => none
    | some fields => alookup fields field

theorem list_check_of_field {ds : DS} {tid rid field : String} {l : List Atom}
    (hf : get_field_value ds tid rid field = some (.vlist l)) :
    list_check ds tid rid field = Except.ok l := by
  unfold get_field_value at hf
  cases ht : alookup ds.tables tid with
  | none => rw [ht] at hf; cases hf
  | some t =>
    rw [ht] at hf
    dsimp only at hf
    cases hr : alookup t.records rid with
    | none => rw [hr] at hf; cases hf
    | some fields =>
      rw [hr] at hf
      dsimp only at hf
      have hgt : get_table ds tid = Except.ok (ds, t) := by
        unfold get_table
        rw [ht]
      unfold list_check
      rw [hgt]
      simp only [except_bind_ok]
      rw [hr]
      simp [pyGet, hf]

/-- C7 (amended): on a live list field of length `n`, every mutating
`List` method resolves a negative index by adding `n`; `__setitem__`,
`__delitem__` and `move` raise `IndexError` exactly when a resolved
index falls outside `[0, n)`; but `insert` never raises — it clamps the
resolved index into `[0, n]` (and `append` takes no index and never
raises either). -/
theorem C7_list_index_semantics (ds : DS) (tid rid field : String) (l : List Atom)
    (i : ℤ) (a : Atom)
    (hf : get_field_value ds tid rid field = some (.vlist l)) :
    (List_setitem ds tid rid field i a = Except.error Err.indexError ↔
      ¬(0 ≤ (if i < 0 then i + l.length else i) ∧
        (if i < 0 then i + l.length else i) < (l.length : ℤ))) ∧
    (List_delitem ds tid rid field i = Except.error Err.indexError ↔
      ¬(0 ≤ (if i < 0 then i + l.length else i) ∧
        (if i < 0 then i + l.length else i) < (l.length : ℤ))) ∧
    (∀ j : ℤ, List_move ds tid rid field i j = Except.error Err.indexError ↔
      (¬(0 ≤ (if i < 0 then i + l.length else i) ∧
          (if i < 0 then i + l.length else i) < (l.length : ℤ)) ∨
       ¬(0 ≤ (if j < 0 then j + l.length else j) ∧
          (if j < 0 then j + l.length else j) < (l.length : ℤ)))) ∧
    (List_insert ds tid rid field i a ≠ Except.error Err.indexError) ∧
    (List_insert ds tid rid field i a =
      List_insert ds tid rid field
        (max 0 (min (if i < 0 then i + l.length else i) (l.length : ℤ))) a) ∧
    (List_append ds tid rid field a ≠ Except.error Err.indexError) := by
  have hchk := list_check_of_field hf
  refine ⟨?_, ?_, ?_, ?_, ?_, ?_⟩
  · unfold List_setitem
    rw [hchk]
    simp only [except_bind_ok]
    by_cases hir : 0 ≤ (if i < 0 then i + (l.length : ℤ) else i) ∧
        (if i < 0 then i + (l.length : ℤ) else i) < (l.length : ℤ)
    · rw [if_neg (not_not_intro hir)]
      constructor
      · intro h
        exact absurd rfl (list_update_error_ne_index h)
      · intro h
        exact absurd hir h
    · rw [if_pos hir]
      simp [hir]
  · unfold List_delitem
    rw [hchk]
    simp only [except_bind_ok]
    by_cases hir : 0 ≤ (if i < 0 then i + (l.length : ℤ) else i) ∧
        (if i < 0 then i + (l.length : ℤ) else i) < (l.length : ℤ)
    · rw [if_neg (not_not_intro hir)]
      constructor
      · intro h
        exact absurd rfl (list_update_error_ne_index h)
      · intro h
        exact absurd hir h
    · rw [if_pos hir]
      simp [hir]
  · intro j
    unfold List_move
    rw [hchk]
    simp only [except_bind_ok]
    by_cases hir : 0 ≤ (if i < 0 then i + (l.length : ℤ) else i) ∧
        (if i < 0 then i + (l.length : ℤ) else i) < (l.length : ℤ)
    · rw [if_neg (not_not_intro hir)]
      by_cases hjr : 0 ≤ (if j < 0 then j + (l.length : ℤ) else j) ∧
          (if j < 0 then j + (l.length : ℤ) else j) < (l.length : ℤ)
      · rw [if_neg (not_not_intro hjr)]
        constructor
        · intro h
          exact absurd rfl (list_update_error_ne_index h)
        · intro h
          rcases h with h | h
          · exact absurd hir h
          · exact absurd hjr h
      · rw [if_pos hjr]
        simp [hir, hjr]
    · rw [if_pos hir]
      simp [hir]
  · unfold List_insert
    rw [hchk]
    simp only [except_bind_ok]
    intro h
    exact absurd rfl (list_update_error_ne_index h)
  · unfold List_insert
    rw [hchk]
    simp only [except_bind_ok]
    have harith :
        (if max 0 (min (if i < 0 then i + (l.length : ℤ) else i) (l.length : ℤ)) < 0 then
          (if max 0 (min (if i < 0 then i + (l.length : ℤ) else i) (l.length : ℤ)) +
              (l.length : ℤ) < 0 then 0
           else max 0 (min (if i < 0 then i + (l.length : ℤ) else i) (l.length : ℤ)) +
              (l.length : ℤ))
         else
          (if max 0 (min (if i < 0 then i + (l.length : ℤ) else i) (l.length : ℤ)) >
              (l.length : ℤ) then (l.length : ℤ)
           else max 0 (min (if i < 0 then i + (l.length : ℤ) else i) (l.length : ℤ)))) =
        (if i < 0 then (if i + (l.length : ℤ) < 0 then 0 else i + (l.length : ℤ))
         else (if i > (l.length : ℤ) then (l.length : ℤ) else i)) := by
      split <;> split <;> omega
    rw [harith]
  · unfold List_append
    rw [hchk]
    simp only [except_bind_ok]
    intro h
    exact absurd rfl (list_update_error_ne_index h)

/-- A concrete private, writable datastore holding one record
`t1/r1` whose field `x` is the list `["a"]` (all cached sizes
consistent). -/
def dsListExample : DS :=
  { id := "t", role := OWNER, rev := 0,
    tables := [("t1", ⟨[("r1", [("x", .vlist [.aStr "a"])])], [("r1", 221)]⟩)],
    changes := [], record_count := 1, size := 1221, pending_changes_size := 0 }

/-- Counterexample to C7 as stated: on the length-1 list `["a"]`,
`List.insert` at index 5 — resolved index 5, outside `[0, 1]` — does
not raise an index-out-of-range error; it clamps to the end and appends,
leaving `["a", "b"]`. -/
theorem C7_counterexample :
    (List_insert dsListExample "t1" "r1" "x" 5 (.aStr "b")).toOption.map
        (fun d => get_field_value d "t1" "r1" "x") =
      some (some (.vlist [.aStr "a", .aStr "b"])) := by
  decide

/-- Witness for C7 at the concrete datastore, with a negative index. -/
theorem C7_witness :
    get_field_value dsListExample "t1" "r1" "x" = some (.vlist [.aStr "a"]) ∧
    ((List_setitem dsListExample "t1" "r1" "x" (-3) (.aStr "b") =
        Except.error Err.indexError ↔
      ¬(0 ≤ (if (-3 : ℤ) < 0 then (-3 : ℤ) + [Atom.aStr "a"].length else (-3 : ℤ)) ∧
        (if (-3 : ℤ) < 0 then (-3 : ℤ) + [Atom.aStr "a"].length else (-3 : ℤ)) <
          ([Atom.aStr "a"].length : ℤ))) ∧
    (List_delitem dsListExample "t1" "r1" "x" (-3) = Except.error Err.indexError ↔
      ¬(0 ≤ (if (-3 : ℤ) < 0 then (-3 : ℤ) + [Atom.aStr "a"].length else (-3 : ℤ)) ∧
        (if (-3 : ℤ) < 0 then (-3 : ℤ) + [Atom.aStr "a"].length else (-3 : ℤ)) <
          ([Atom.aStr "a"].length : ℤ))) ∧
    (∀ j : ℤ, List_move dsListExample "t1" "r1" "x" (-3) j = Except.error Err.indexError ↔
      (¬(0 ≤ (if (-3 : ℤ) < 0 then (-3 : ℤ) + [Atom.aStr "a"].length else (-3 : ℤ)) ∧
          (if (-3 : ℤ) < 0 then (-3 : ℤ) + [Atom.aStr "a"].length else (-3 : ℤ)) <
            ([Atom.aStr "a"].length : ℤ)) ∨
       ¬(0 ≤ (if j < 0 then j + [Atom.aStr "a"].length else j) ∧
          (if j < 0 then j + [Atom.aStr "a"].length else j) <
            ([Atom.aStr "a"].length : ℤ)))) ∧
    (List_insert dsListExample "t1" "r1" "x" (-3) (.aStr "b") ≠
      Except.error Err.indexError) ∧
    (List_insert dsListExample "t1" "r1" "x" (-3) (.aStr "b") =
      List_insert dsListExample "t1" "r1" "x"
        (max 0 (min (if (-3 : ℤ) < 0 then (-3 : ℤ) + [Atom.aStr "a"].length else (-3 : ℤ))
          ([Atom.aStr "a"].length : ℤ))) (.aStr "b")) ∧
    (List_append dsListExample "t1" "r1" "x" (.aStr "b") ≠
      Except.error Err.indexError)) :=
  ⟨by decide,
   C7_list_index_semantics dsListExample "t1" "r1" "x" [.aStr "a"] (-3) (.aStr "b")
     (by decide)⟩

/-! ## C2: the transaction retry loop -/

/-- A try is decisive when the loop does not continue past it: the
callback raises, or the commit does not conflict. -/
def decisive (tb : TryBehavior) : Bool := tb.callbackRaises || ¬commitConflict tb

/-- The first decisive try at or after `i`, within `fuel` tries. -/
def first_decisive (b : Nat → TryBehavior) : Nat → Nat → Option Nat
  | _, 0 => none
  | i, fuel + 1 => if decisive (b i) then some i else first_decisive b (i + 1) fuel

/-- The loop reaches try `i`: every earlier try had a non-raising
callback and a conflicting commit. -/
def reaches (b : Nat → TryBehavior) (i : Nat) : Prop :=
  ∀ j, j < i → (b j).callbackRaises = false ∧ commitConflict (b j) = true

/-- Executable check that every `load_deltas` in a trace is immediately
preceded by a `rollback` (refresh never happens before rollback). -/
def refresh_after_rollback : Option TxEvent → List TxEvent → Bool
  | _, [] => true
  | prev, e :: rest =>
    (e ≠ TxEvent.loadDeltasEv || prev = some TxEvent.rollbackEv) &&
      refresh_after_rollback (some e) rest

theorem first_decisive_ge (b : Nat → TryBehavior) :
    ∀ (fuel i k : Nat), first_decisive b i fuel = some k →
      i ≤ k ∧ k < i + fuel ∧ decisive (b k) = true ∧
      (∀ j, i ≤ j → j < k → decisive (b j) = false) := by
  intro fuel
  induction fuel with
  | zero => intro i k h; cases h
  | succ n ih =>
    intro i k h
    unfold first_decisive at h
    by_cases hd : decisive (b i) = true
    · rw [if_pos hd] at h
      cases h
      exact ⟨le_refl _, by omega, hd, fun j h1 h2 => by omega⟩
    · rw [if_neg hd] at h
      obtain ⟨h1, h2, h3, h4⟩ := ih (i + 1) k h
      refine ⟨by omega, by omega, h3, ?_⟩
      intro j hj1 hj2
      by_cases hj : j = i
      · subst hj
        simpa using hd
      · exact h4 j (by omega) hj2

theorem first_decisive_none (b : Nat → TryBehavior) :
    ∀ (fuel i : Nat), first_decisive b i fuel = none ↔
      ∀ j, i ≤ j → j < i + fuel → decisive (b j) = false := by
  intro fuel
  induction fuel with
  | zero =>
    intro i
    constructor
    · intro _ j h1 h2
      omega
    · intro _
      rfl
  | succ n ih =>
    intro i
    unfold first_decisive
    by_cases hd : decisive (b i) = true
    · rw [if_pos hd]
      constructor
      · intro h
        cases h
      · intro h
        have := h i (le_refl _) (by omega)
        simp_all
    · rw [if_neg hd]
      rw [ih (i + 1)]
      constructor
      · intro h j h1 h2
        by_cases hj : j = i
        · subst hj
          simpa using hd
        · exact h j (by omega) (by omega)
      · intro h j h1 h2
        exact h j (by omega) (by omega)

theorem transaction_loop_result (b : Nat → TryBehavior) :
    ∀ (fuel i : Nat),
    (transaction_loop b i fuel).2 =
      match first_decisive b i fuel with
      | none => none
      | some k => some (if (b k).callbackRaises then TxRes.callbackRaised
          else if commitError (b k) then TxRes.commitRaised
          else TxRes.value (b k).ret) := by
  intro fuel
  induction fuel with
  | zero => intro i; rfl
  | succ n ih =>
    intro i
    unfold transaction_loop first_decisive
    by_cases hr : (b i).callbackRaises = true
    · simp [hr, decisive]
    · by_cases hc : commitConflict (b i) = true
      · simp only [hr, Bool.false_eq_true, if_false]
        rw [if_pos hc]
        simp only [decisive, hr, hc, Bool.false_or, Bool.not_true, Bool.false_eq_true,
          if_false]
        exact ih (i + 1)
      · simp only [hr, Bool.false_eq_true, if_false]
        rw [if_neg hc]
        have hd : decisive (b i) = true := by
          simp [decisive, hr, hc]
        rw [if_pos hd]
        by_cases he : commitError (b i) = true
        · rw [if_pos he]
          simp [hr, he]
        · rw [if_neg he]
          simp [hr, he]

theorem transaction_loop_callback_count (b : Nat → TryBehavior) :
    ∀ (fuel i : Nat),
    (transaction_loop b i fuel).1.count TxEvent.callbackEv =
      match first_decisive b i fuel with
      | none => fuel
      | some k => k - i + 1 := by
  intro fuel
  induction fuel with
  | zero => intro i; rfl
  | succ n ih =>
    intro i
    unfold transaction_loop first_decisive
    by_cases hr : (b i).callbackRaises = true
    · have hd : decisive (b i) = true := by
        simp [decisive, hr]
      rw [if_pos hr, if_pos hd]
      simp [List.count_cons]
    · by_cases hc : commitConflict (b i) = true
      · simp only [hr, Bool.false_eq_true, if_false]
        rw [if_pos hc]
        have hd : decisive (b i) = false := by
          simp [decisive, hr, hc]
        rw [if_neg (by simp [hd] : ¬decisive (b i) = true)]
        have hcnt := ih (i + 1)
        have hseg : List.count TxEvent.callbackEv
            [TxEvent.callbackEv, TxEvent.commitEv, TxEvent.rollbackEv,
              TxEvent.loadDeltasEv] = 1 := by decide
        cases hfd : first_decisive b (i + 1) n with
        | none =>
          rw [hfd] at hcnt
          dsimp only at hcnt ⊢
          rw [List.count_append, hseg, hcnt]
          guard_target = 1 + n = n + 1
          exact Nat.add_comm 1 n
        | some k =>
          rw [hfd] at hcnt
          dsimp only at hcnt ⊢
          have hk : i + 1 ≤ k := (first_decisive_ge b n (i + 1) k hfd).1
          rw [List.count_append, hseg, hcnt]
          show 1 + (k - (i + 1) + 1) = k - i + 1
          omega
      · simp only [hr, Bool.false_eq_true, if_false]
        rw [if_neg hc]
        have hd : decisive (b i) = true := by
          simp [decisive, hr, hc]
        rw [if_pos hd]
        by_cases he : commitError (b i) = true
        · rw [if_pos he]
          simp [List.count_cons]
        · rw [if_neg he]
          simp [List.count_cons]

theorem transaction_loop_commit_count (b : Nat → TryBehavior) :
    ∀ (fuel i : Nat),
    (transaction_loop b i fuel).1.count TxEvent.commitEv =
      match first_decisive b i fuel with
      | none => fuel
      | some k => if (b k).callbackRaises then k - i else k - i + 1 := by
  intro fuel
  induction fuel with
  | zero => intro i; rfl
  | succ n ih =>
    intro i
    unfold transaction_loop first_decisive
    by_cases hr : (b i).callbackRaises = true
    · have hd : decisive (b i) = true := by
        simp [decisive, hr]
      rw [if_pos hr, if_pos hd]
      simp [List.count_cons, hr]
    · by_cases hc : commitConflict (b i) = true
      · simp only [hr, Bool.false_eq_true, if_false]
        rw [if_pos hc]
        have hd : decisive (b i) = false := by
          simp [decisive, hr, hc]
        rw [if_neg (by simp [hd] : ¬decisive (b i) = true)]
        have hcnt := ih (i + 1)
        have hseg : List.count TxEvent.commitEv
            [TxEvent.callbackEv, TxEvent.commitEv, TxEvent.rollbackEv,
              TxEvent.loadDeltasEv] = 1 := by decide
        cases hfd : first_decisive b (i + 1) n with
        | none =>
          rw [hfd] at hcnt
          dsimp only at hcnt ⊢
          rw [List.count_append, hseg, hcnt]
          exact Nat.add_comm 1 n
        | some k =>
          rw [hfd] at hcnt
          dsimp only at hcnt ⊢
          have hk : i + 1 ≤ k := (first_decisive_ge b n (i + 1) k hfd).1
          rw [List.count_append, hseg, hcnt]
          by_cases hkr : (b k).callbackRaises = true
          · rw [if_pos hkr, if_pos hkr]
            show 1 + (k - (i + 1)) = k - i
            omega
          · rw [if_neg hkr, if_neg hkr]
            show 1 + (k - (i + 1) + 1) = k - i + 1
            omega
      · simp only [hr, Bool.false_eq_true, if_false]
        rw [if_neg hc]
        have hd : decisive (b i) = true := by
          simp [decisive, hr, hc]
        rw [if_pos hd]
        by_cases he : commitError (b i) = true
        · rw [if_pos he]
          simp [List.count_cons, hr]
        · rw [if_neg he]
          simp [List.count_cons, hr]

theorem transaction_loop_refresh (b : Nat → TryBehavior) :
    ∀ (fuel i : Nat) (prev : Option TxEvent),
    refresh_after_rollback prev (transaction_loop b i fuel).1 = true := by
  intro fuel
  induction fuel with
  | zero => intro i prev; rfl
  | succ n ih =>
    intro i prev
    unfold transaction_loop
    by_cases hr : (b i).callbackRaises = true
    · simp [hr, refresh_after_rollback]
    · by_cases hc : commitConflict (b i) = true
      · simp only [hr, Bool.false_eq_true, if_false]
        rw [if_pos hc]
        simp only [List.cons_append, List.nil_append]
        simp [refresh_after_rollback]
        exact ih (i + 1) (some TxEvent.loadDeltasEv)
      · simp only [hr, Bool.false_eq_true, if_false]
        rw [if_neg hc]
        by_cases he : commitError (b i) = true
        · rw [if_pos he]
          simp [refresh_after_rollback]
        · rw [if_neg he]
          simp [refresh_after_rollback]

theorem first_decisive_of_reaches (b : Nat → TryBehavior) (fuel i : Nat)
    (hlt : i < fuel) (hre : reaches b i) (hdec : decisive (b i) = true) :
    first_decisive b 0 fuel = some i := by
  have key : ∀ (m j : Nat), j + m = fuel → j ≤ i →
      (∀ j2, j ≤ j2 → j2 < i → decisive (b j2) = false) →
      first_decisive b j m = some i := by
    intro m
    induction m with
    | zero =>
      intro j h1 h2 h3
      omega
    | succ n ih =>
      intro j h1 h2 h3
      unfold first_decisive
      by_cases hj : j = i
      · subst hj
        rw [if_pos hdec]
      · rw [if_neg (by simp [h3 j (le_refl _) (by omega)])]
        exact ih (j + 1) (by omega) (by omega) (fun j2 hj2 hj2i => h3 j2 (by omega) hj2i)
  refine key fuel 0 (by omega) (by omega) ?_
  intro j2 _ hj2
  have := hre j2 hj2
  simp [decisive, this.1, this.2]

theorem decisive_eq_false_iff (tb : TryBehavior) :
    decisive tb = false ↔ tb.callbackRaises = false ∧ commitConflict tb = true := by
  unfold decisive
  cases hx : tb.callbackRaises <;> cases hy : commitConflict tb <;> simp [hx, hy]

theorem reaches_of_nondecisive (b : Nat → TryBehavior) (k : Nat)
    (h : ∀ j, j < k → decisive (b j) = false) : reaches b k := by
  intro j hj
  exact (decisive_eq_false_iff (b j)).mp (h j hj)

theorem reaches_index_unique (b : Nat → TryBehavior) (k i : Nat)
    (hk : ∀ j, j < k → decisive (b j) = false) (hdk : decisive (b k) = true)
    (hre : reaches b i) (hdi : decisive (b i) = true) : i = k := by
  rcases Nat.lt_trichotomy i k with h | h | h
  · rw [hk i h] at hdi
    cases hdi
  · exact h
  · have := hre k h
    rw [(decisive_eq_false_iff (b k)).mpr this] at hdk
    cases hdk

theorem out_of_tries_msg_distinct (n : ℕ) (h : 2 ≤ n) :
    out_of_tries_msg n ≠ out_of_tries_msg 1 := by
  unfold out_of_tries_msg
  rw [if_neg (by omega), if_pos rfl]
  intro he
  have hdata := congrArg String.data he
  have hL : ("Failed to commit " ++ toString n ++ " times in a row").data.get? 16 =
      some ' ' := by
    show (("Failed to commit ".data ++ (toString n).data) ++
        " times in a row".data).get? 16 = some ' '
    rw [List.get?_append, List.get?_append]
    · decide
    · decide
    · rw [List.length_append]
      have : "Failed to commit ".data.length = 17 := by decide
      omega
  have hR : ("Failed to commit; set max_tries to a value > 1 to retry").data.get? 16 =
      some ';' := by decide
  rw [hdata] at hL
  rw [hR] at hL
  cases hL

/-- C2: starting from a datastore with no pending changes and
`max_tries >= 1`, the transaction loop runs the callback at most
`max_tries` times; a refresh (`load_deltas`) only ever happens right
after a rollback; the callback raising at the first reached decisive try
re-raises immediately (after a rollback, with no commit attempt on that
try and no further tries); a non-conflict commit failure re-raises; a
commit success returns the callback's value; and exhausting all tries in
conflicts raises the out-of-retries `DatastoreError`, whose message in
the `max_tries = 1` case is the distinct hint to raise the limit. -/
theorem C2_transaction_retry (max_tries : ℕ) (b : ℕ → TryBehavior)
    (h1 : 1 ≤ max_tries) (tr : List TxEvent) (res : TxRes)
    (htx : transaction max_tries false b = Except.ok (tr, res)) :
    tr.count TxEvent.callbackEv ≤ max_tries ∧
    refresh_after_rollback none tr = true ∧
    (res = TxRes.callbackRaised ↔
      ∃ i, i < max_tries ∧ reaches b i ∧ (b i).callbackRaises = true) ∧
    (∀ v, res = TxRes.value v ↔
      ∃ i, i < max_tries ∧ reaches b i ∧ (b i).callbackRaises = false ∧
        commitConflict (b i) = false ∧ commitError (b i) = false ∧ v = (b i).ret) ∧
    (res = TxRes.commitRaised ↔
      ∃ i, i < max_tries ∧ reaches b i ∧ (b i).callbackRaises = false ∧
        commitConflict (b i) = false ∧ commitError (b i) = true) ∧
    (∀ msg, res = TxRes.gaveUp msg ↔
      (reaches b max_tries ∧ msg = out_of_tries_msg max_tries)) ∧
    (∀ i, i < max_tries → reaches b i → (b i).callbackRaises = true →
      tr.count TxEvent.callbackEv = i + 1 ∧ tr.count TxEvent.commitEv = i) ∧
    (max_tries = 1 → out_of_tries_msg max_tries =
      "Failed to commit; set max_tries to a value > 1 to retry") ∧
    (2 ≤ max_tries → out_of_tries_msg max_tries ≠ out_of_tries_msg 1) := by
  have hout : transaction max_tries false b =
      Except.ok ((transaction_loop b 0 max_tries).1,
        match (transaction_loop b 0 max_tries).2 with
        | some r => r
        | none => TxRes.gaveUp (out_of_tries_msg max_tries)) := by
    unfold transaction
    rw [if_neg (by omega)]
    rw [if_neg (by simp)]
    rcases hl : transaction_loop b 0 max_tries with ⟨tr2, r2⟩
    cases r2 <;> rfl
  rw [hout] at htx
  injection htx with htx2
  have htr : tr = (transaction_loop b 0 max_tries).1 := by
    have := congrArg Prod.fst htx2
    simpa using this.symm
  have hres : res =
      match (transaction_loop b 0 max_tries).2 with
      | some r => r
      | none => TxRes.gaveUp (out_of_tries_msg max_tries) := by
    have := congrArg Prod.snd htx2
    simpa using this.symm
  have hloopres := transaction_loop_result b max_tries 0
  have hcbcount := transaction_loop_callback_count b max_tries 0
  have hcmcount := transaction_loop_commit_count b max_tries 0
  refine ⟨?_, ?_, ?_, ?_, ?_, ?_, ?_, ?_, ?_⟩
  · rw [htr, hcbcount]
    cases hfd : first_decisive b 0 max_tries with
    | none => exact le_refl _
    | some k =>
      have := first_decisive_ge b max_tries 0 k hfd
      dsimp only
      show k - 0 + 1 ≤ max_tries
      omega
  · rw [htr]
    exact transaction_loop_refresh b max_tries 0 none
  · rw [hres, hloopres]
    cases hfd : first_decisive b 0 max_tries with
    | none =>
      dsimp only
      constructor
      · intro h
        cases h
      · rintro ⟨i, hi, hre, hra⟩
        have := (first_decisive_none b max_tries 0).mp hfd i (by omega) (by omega)
        rw [decisive_eq_false_iff] at this
        rw [this.1] at hra
        cases hra
    | some k =>
      obtain ⟨_, hklt, hdk, hmin⟩ := first_decisive_ge b max_tries 0 k hfd
      dsimp only
      constructor
      · intro h
        by_cases hkr : (b k).callbackRaises = true
        · exact ⟨k, by omega, reaches_of_nondecisive b k
            (fun j hj => hmin j (by omega) hj), hkr⟩
        · rw [if_neg hkr] at h
          split at h <;> cases h
      · rintro ⟨i, hi, hre, hra⟩
        have hik : i = k := reaches_index_unique b k i
          (fun j hj => hmin j (by omega) hj) hdk hre (by simp [decisive, hra])
        subst hik
        rw [if_pos hra]
  · intro v
    rw [hres, hloopres]
    cases hfd : first_decisive b 0 max_tries with
    | none =>
      dsimp only
      constructor
      · intro h
        cases h
      · rintro ⟨i, hi, hre, hra, hcc, hce, hv⟩
        have := (first_decisive_none b max_tries 0).mp hfd i (by omega) (by omega)
        rw [decisive_eq_false_iff] at this
        rw [this.2] at hcc
        cases hcc
    | some k =>
      obtain ⟨_, hklt, hdk, hmin⟩ := first_decisive_ge b max_tries 0 k hfd
      dsimp only
      constructor
      · intro h
        by_cases hkr : (b k).callbackRaises = true
        · rw [if_pos hkr] at h
          cases h
        · rw [if_neg hkr] at h
          by_cases hke : commitError (b k) = true
          · rw [if_pos hke] at h
            cases h
          · rw [if_neg hke] at h
            have hkc : commitConflict (b k) = false := by
              rcases hx : commitConflict (b k) with _ | _
              · rfl
              · have : decisive (b k) = false := by
                  simp [decisive, hx]
                  simp at hkr
                  exact hkr
                rw [this] at hdk
                cases hdk
            injection h with hv
            exact ⟨k, by omega, reaches_of_nondecisive b k
              (fun j hj => hmin j (by omega) hj),
              by simpa using hkr, hkc, by simpa using hke, hv.symm⟩
      · rintro ⟨i, hi, hre, hra, hcc, hce, hv⟩
        have hik : i = k := reaches_index_unique b k i
          (fun j hj => hmin j (by omega) hj) hdk hre (by simp [decisive, hcc])
        subst hik
        rw [if_neg (by simp [hra]), if_neg (by simp [hce]), hv]
  · rw [hres, hloopres]
    cases hfd : first_decisive b 0 max_tries with
    | none =>
      dsimp only
      constructor
      · intro h
        cases h
      · rintro ⟨i, hi, hre, hra, hcc, hce⟩
        have := (first_decisive_none b max_tries 0).mp hfd i (by omega) (by omega)
        rw [decisive_eq_false_iff] at this
        rw [this.2] at hcc
        cases hcc
    | some k =>
      obtain ⟨_, hklt, hdk, hmin⟩ := first_decisive_ge b max_tries 0 k hfd
      dsimp only
      constructor
      · intro h
        by_cases hkr : (b k).callbackRaises = true
        · rw [if_pos hkr] at h
          cases h
        · rw [if_neg hkr] at h
          by_cases hke : commitError (b k) = true
          · have hkc : commitConflict (b k) = false := by
              unfold commitError at hke
              rcases hx : commitConflict (b k) with _ | _
              · rfl
              · unfold commitConflict at hx
                rw [hx] at hke
                simp at hke
            exact ⟨k, by omega, reaches_of_nondecisive b k
              (fun j hj => hmin j (by omega) hj),
              by simpa using hkr, hkc, hke⟩
          · rw [if_neg hke] at h
            cases h
      · rintro ⟨i, hi, hre, hra, hcc, hce⟩
        have hik : i = k := reaches_index_unique b k i
          (fun j hj => hmin j (by omega) hj) hdk hre (by simp [decisive, hcc])
        subst hik
        rw [if_neg (by simp [hra]), if_pos hce]
  · intro msg
    rw [hres, hloopres]
    cases hfd : first_decisive b 0 max_tries with
    | none =>
      dsimp only
      constructor
      · intro h
        injection h with h2
        refine ⟨reaches_of_nondecisive b max_tries ?_, h2.symm⟩
        intro j hj
        exact (first_decisive_none b max_tries 0).mp hfd j (by omega) (by omega)
      · rintro ⟨hre, hmsg⟩
        rw [hmsg]
    | some k =>
      obtain ⟨_, hklt, hdk, hmin⟩ := first_decisive_ge b max_tries 0 k hfd
      dsimp only
      constructor
      · intro h
        by_cases hkr : (b k).callbackRaises = true
        · rw [if_pos hkr] at h
          cases h
        · rw [if_neg hkr] at h
          by_cases hke : commitError (b k) = true
          · rw [if_pos hke] at h
            cases h
          · rw [if_neg hke] at h
            cases h
      · rintro ⟨hre, hmsg⟩
        have := hre k (by omega)
        rw [(decisive_eq_false_iff (b k)).mpr this] at hdk
        cases hdk
  · intro i hi hre hra
    have hdi : decisive (b i) = true := by
      simp [decisive, hra]
    have hfd := first_decisive_of_reaches b max_tries i hi hre hdi
    constructor
    · rw [htr, hcbcount, hfd]
      dsimp only
      show i - 0 + 1 = i + 1
      omega
    · rw [htr, hcmcount, hfd]
      dsimp only
      rw [if_pos hra]
      show i - 0 = i
      omega
  · intro h
    rw [h]
    rfl
  · exact out_of_tries_msg_distinct max_tries

/-- A concrete behavior: the first try commits with a conflict, the
second try succeeds returning 7. -/
def txExampleBehavior : ℕ → TryBehavior := fun i =>
  if i = 0 then ⟨false, (true, false), 7⟩ else ⟨false, (false, false), 7⟩

/-- The trace of `txExampleBehavior` under two tries. -/
def txExampleTrace : List TxEvent :=
  [.callbackEv, .commitEv, .rollbackEv, .loadDeltasEv, .callbackEv, .commitEv]

/-- Witness for C2: a conflict-then-success run with `max_tries = 2`
invokes the callback twice, rolls back then refreshes between the tries,
and returns the second try's value. -/
theorem C2_witness :
    1 ≤ 2 ∧
    transaction 2 false txExampleBehavior = Except.ok (txExampleTrace, TxRes.value 7) ∧
    (txExampleTrace.count TxEvent.callbackEv ≤ 2 ∧
    refresh_after_rollback none txExampleTrace = true ∧
    (TxRes.value 7 = TxRes.callbackRaised ↔
      ∃ i, i < 2 ∧ reaches txExampleBehavior i ∧
        (txExampleBehavior i).callbackRaises = true) ∧
    (∀ v, TxRes.value 7 = TxRes.value v ↔
      ∃ i, i < 2 ∧ reaches txExampleBehavior i ∧
        (txExampleBehavior i).callbackRaises = false ∧
        commitConflict (txExampleBehavior i) = false ∧
        commitError (txExampleBehavior i) = false ∧ v = (txExampleBehavior i).ret) ∧
    (TxRes.value 7 = TxRes.commitRaised ↔
      ∃ i, i < 2 ∧ reaches txExampleBehavior i ∧
        (txExampleBehavior i).callbackRaises = false ∧
        commitConflict (txExampleBehavior i) = false ∧
        commitError (txExampleBehavior i) = true) ∧
    (∀ msg, TxRes.value 7 = TxRes.gaveUp msg ↔
      (reaches txExampleBehavior 2 ∧ msg = out_of_tries_msg 2)) ∧
    (∀ i, i < 2 → reaches txExampleBehavior i →
      (txExampleBehavior i).callbackRaises = true →
      txExampleTrace.count TxEvent.callbackEv = i + 1 ∧
      txExampleTrace.count TxEvent.commitEv = i) ∧
    (2 = 1 → out_of_tries_msg 2 =
      "Failed to commit; set max_tries to a value > 1 to retry") ∧
    (2 ≤ 2 → out_of_tries_msg 2 ≠ out_of_tries_msg 1)) :=
  ⟨by omega, rfl,
   C2_transaction_retry 2 txExampleBehavior (by omega) txExampleTrace (TxRes.value 7) rfl⟩

/-! ## C6: query semantics -/

/-- The record map of a table, empty when the table does not exist. -/
def table_records (ds : DS) (tid : String) : List (String × Fields) :=
  match alookup ds.tables tid with
  | some t => t.records
  | none => []

theorem validate_query_kwds_id :
    ∀ {kwds f : List (String × Value)}, validate_query_kwds kwds = Except.ok f →
      f = kwds := by
  intro kwds
  induction kwds with
  | nil =>
    intro f h
    unfold validate_query_kwds at h
    cases h
    rfl
  | cons p rest ih =>
    intro f h
    obtain ⟨field, value⟩ := p
    unfold validate_query_kwds at h
    split at h
    · cases h
    · split at h
      · cases h
      · cases hv : validate_query_kwds rest with
        | error e => rw [hv] at h; cases h
        | ok f2 =>
          rw [hv] at h
          simp only [except_bind_ok] at h
          cases h
          rw [ih hv]

theorem query_ok_res {ds : DS} {tid : String} {kwds : List (String × Value)}
    {res : List String} (h : query ds tid kwds = Except.ok res) :
    res = ((table_records ds tid).filter fun p => query_filter_ok p.2 kwds).map
      Prod.fst := by
  unfold query at h
  cases hg : get_table ds tid with
  | error e => rw [hg] at h; cases h
  | ok p =>
    obtain ⟨ds1, t⟩ := p
    rw [hg] at h
    simp only [except_bind_ok] at h
    cases hv : validate_query_kwds kwds with
    | error e => rw [hv] at h; cases h
    | ok f =>
      rw [hv] at h
      simp only [except_bind_ok] at h
      cases h
      have hf := validate_query_kwds_id hv
      subst hf
      unfold get_table at hg
      unfold table_records
      cases hl : alookup ds.tables tid with
      | some t2 =>
        rw [hl] at hg
        cases hg
        rfl
      | none =>
        rw [hl] at hg
        by_cases hv2 : is_valid_id tid = true
        · rw [if_pos hv2] at hg
          cases hg
          rfl
        · rw [if_neg hv2] at hg
          cases hg

theorem mem_query_map_iff (l : List (String × Fields)) (kwds : List (String × Value))
    (rid : String) :
    rid ∈ (l.filter fun p => query_filter_ok p.2 kwds).map Prod.fst ↔
      ∃ f, (rid, f) ∈ l ∧ query_filter_ok f kwds = true := by
  rw [List.mem_map]
  constructor
  · rintro ⟨⟨a, b⟩, hmem, hfst⟩
    rw [List.mem_filter] at hmem
    simp only at hfst
    subst hfst
    exact ⟨b, hmem.1, hmem.2⟩
  · rintro ⟨f, hmem, hq⟩
    exact ⟨(rid, f), List.mem_filter.mpr ⟨hmem, hq⟩, rfl⟩

theorem query_filter_ok_iff (fields : Fields) (kwds : List (String × Value)) :
    query_filter_ok fields kwds = true ↔
      ∀ p ∈ kwds, ∃ s, alookup fields p.1 = some s ∧ pyEqValue s p.2 = true ∧
        (pyTypeOf s = pyTypeOf p.2 ∨
          (isNumericType (pyTypeOf s) = true ∧ isNumericType (pyTypeOf p.2) = true)) := by
  unfold query_filter_ok
  rw [List.all_eq_true]
  constructor
  · intro h p hp
    have hthis := h p hp
    cases hl : alookup fields p.1 with
    | none => rw [hl] at hthis; cases hthis
    | some s =>
      rw [hl] at hthis
      refine ⟨s, rfl, ?_⟩
      simp only [Bool.and_eq_true, Bool.or_eq_true, decide_eq_true_eq] at hthis
      rcases hthis with ⟨h1, h2 | h2⟩
      · exact ⟨h1, Or.inl h2⟩
      · exact ⟨h1, Or.inr h2⟩
  · intro h p hp
    obtain ⟨s, hl, h1, h2⟩ := h p hp
    rw [hl]
    simp only [Bool.and_eq_true, Bool.or_eq_true, decide_eq_true_eq]
    rcases h2 with h2 | h2
    · exact ⟨h1, Or.inl h2⟩
    · exact ⟨h1, Or.inr (by simp [h2.1, h2.2])⟩

theorem mem_eq_of_nodupKeys {α : Type} {l : List (String × α)} (h : nodupKeys l)
    {k : String} {a b : α} (ha : (k, a) ∈ l) (hb : (k, b) ∈ l) : a = b := by
  induction l with
  | nil => cases ha
  | cons p rest ih =>
    obtain ⟨k2, v2⟩ := p
    simp only [nodupKeys, akeys, List.map_cons, List.nodup_cons] at h
    rcases List.mem_cons.mp ha with ha2 | ha2 <;>
      rcases List.mem_cons.mp hb with hb2 | hb2
    · injection ha2 with e1 e2
      injection hb2 with e3 e4
      rw [e2, e4]
    · injection ha2 with e1 e2
      subst e1
      exact absurd (by simpa [akeys] using List.mem_map_of_mem Prod.fst hb2) h.1
    · injection hb2 with e1 e2
      subst e1
      exact absurd (by simpa [akeys] using List.mem_map_of_mem Prod.fst ha2) h.1
    · exact ih h.2 ha2 hb2

/-- C6: `query(x=False)` never returns a record whose `x` is stored as
the integer 0 or the float 0.0; `query(x=0)` returns every record whose
`x` is stored as integer 0 or float 0.0; and in general a record matches
iff, for every keyword (logical AND), the stored value compares equal
under Python `==` and the runtime types are identical or both numeric.
(The record map of a table, being a Python dict, has unique keys.) -/
theorem C6_query_semantics (ds : DS) (tid : String)
    (hnd : nodupKeys (table_records ds tid)) :
    (∀ res2 : List String,
      query ds tid [("x", .atom (.aBool false))] = Except.ok res2 →
      ∀ (rid : String) (fields : Fields), (rid, fields) ∈ table_records ds tid →
        (alookup fields "x" = some (.atom (.aInt 0)) ∨
         alookup fields "x" = some (.atom (.aFloat (.fin 0)))) →
        rid ∉ res2) ∧
    (∀ res2 : List String,
      query ds tid [("x", .atom (.aInt 0))] = Except.ok res2 →
      ∀ (rid : String) (fields : Fields), (rid, fields) ∈ table_records ds tid →
        (alookup fields "x" = some (.atom (.aInt 0)) ∨
         alookup fields "x" = some (.atom (.aFloat (.fin 0)))) →
        rid ∈ res2) ∧
    (∀ (kwds : List (String × Value)) (res2 : List String) (rid : String),
      query ds tid kwds = Except.ok res2 →
      (rid ∈ res2 ↔ ∃ fields, (rid, fields) ∈ table_records ds tid ∧
        ∀ p ∈ kwds, ∃ s, alookup fields p.1 = some s ∧ pyEqValue s p.2 = true ∧
          (pyTypeOf s = pyTypeOf p.2 ∨
            (isNumericType (pyTypeOf s) = true ∧
             isNumericType (pyTypeOf p.2) = true)))) := by
  have hkey : ∀ (kwds : List (String × Value)) (res2 : List String) (rid : String),
      query ds tid kwds = Except.ok res2 →
      (rid ∈ res2 ↔ ∃ fields, (rid, fields) ∈ table_records ds tid ∧
        ∀ p ∈ kwds, ∃ s, alookup fields p.1 = some s ∧ pyEqValue s p.2 = true ∧
          (pyTypeOf s = pyTypeOf p.2 ∨
            (isNumericType (pyTypeOf s) = true ∧
             isNumericType (pyTypeOf p.2) = true))) := by
    intro kwds res2 rid hq
    rw [query_ok_res hq, mem_query_map_iff]
    constructor
    · rintro ⟨f, hmem, hok⟩
      exact ⟨f, hmem, (query_filter_ok_iff f kwds).mp hok⟩
    · rintro ⟨f, hmem, hok⟩
      exact ⟨f, hmem, (query_filter_ok_iff f kwds).mpr hok⟩
  refine ⟨?_, ?_, hkey⟩
  · intro res2 hq rid fields hmem hx hin
    rw [hkey _ _ _ hq] at hin
    obtain ⟨f2, hmem2, hok⟩ := hin
    have hf2 : f2 = fields := mem_eq_of_nodupKeys hnd hmem2 hmem
    subst hf2
    obtain ⟨s, hl, heq, hty⟩ := hok ("x", .atom (.aBool false)) (by simp)
    rcases hx with hx | hx <;>
      (rw [hx] at hl
       injection hl with hs
       subst hs
       simp [pyTypeOf, isNumericType] at hty)
  · intro res2 hq rid fields hmem hx
    rw [hkey _ _ _ hq]
    refine ⟨fields, hmem, ?_⟩
    intro p hp
    simp only [List.mem_singleton] at hp
    subst hp
    rcases hx with hx | hx
    · exact ⟨.atom (.aInt 0), hx, by simp [pyEqValue, pyEqAtom, numView, pyEqFloat],
        Or.inl rfl⟩
    · refine ⟨.atom (.aFloat (.fin 0)), hx,
        by simp [pyEqValue, pyEqAtom, numView, pyEqFloat], Or.inr ?_⟩
      simp [pyTypeOf, isNumericType]

/-- A concrete datastore with records storing `x = 0`, `x = 0.0` and
`x = False`. -/
def dsQueryExample : DS :=
  { id := "q", role := OWNER, rev := 0,
    tables := [("t1", ⟨[("r1", [("x", .atom (.aInt 0))]),
                        ("r2", [("x", .atom (.aFloat (.fin 0)))]),
                        ("r3", [("x", .atom (.aBool false))])],
                       [("r1", 200), ("r2", 200), ("r3", 200)]⟩)],
    changes := [], record_count := 3, size := 1600, pending_changes_size := 0 }

/-- Witness for C6 at the concrete datastore. -/
theorem C6_witness :
    nodupKeys (table_records dsQueryExample "t1") ∧
    ((∀ res2 : List String,
      query dsQueryExample "t1" [("x", .atom (.aBool false))] = Except.ok res2 →
      ∀ (rid : String) (fields : Fields),
        (rid, fields) ∈ table_records dsQueryExample "t1" →
        (alookup fields "x" = some (.atom (.aInt 0)) ∨
         alookup fields "x" = some (.atom (.aFloat (.fin 0)))) →
        rid ∉ res2) ∧
    (∀ res2 : List String,
      query dsQueryExample "t1" [("x", .atom (.aInt 0))] = Except.ok res2 →
      ∀ (rid : String) (fields : Fields),
        (rid, fields) ∈ table_records dsQueryExample "t1" →
        (alookup fields "x" = some (.atom (.aInt 0)) ∨
         alookup fields "x" = some (.atom (.aFloat (.fin 0)))) →
        rid ∈ res2) ∧
    (∀ (kwds : List (String × Value)) (res2 : List String) (rid : String),
      query dsQueryExample "t1" kwds = Except.ok res2 →
      (rid ∈ res2 ↔ ∃ fields, (rid, fields) ∈ table_records dsQueryExample "t1" ∧
        ∀ p ∈ kwds, ∃ s, alookup fields p.1 = some s ∧ pyEqValue s p.2 = true ∧
          (pyTypeOf s = pyTypeOf p.2 ∨
            (isNumericType (pyTypeOf s) = true ∧
             isNumericType (pyTypeOf p.2) = true))))) :=
  ⟨by decide, C6_query_semantics dsQueryExample "t1" (by decide)⟩

/-! ## C5: `Record.update` and `None`-deletion — a truthiness bug

`Record.update` guards the delete-this-field branch with
`if old_value:` instead of a presence test, so a supplied `None` for a
field whose current value is falsy (here the integer 0) neither removes
the field nor stages any op — contradicting the method's own docstring
("if the value is None, the field is deleted"). -/

/-- The datastore after `get_or_insert('r1', foo=0)` on a fresh private
datastore. -/
def dsC5 : DS :=
  match table_get_or_insert (initDS "x" OWNER) "t1" "r1" [("foo", .atom (.aInt 0))] with
  | .ok d => d
  | .error _ => initDS "x" OWNER

/-- C5, evaluated at the failing input: updating `foo` (currently the
falsy value 0) with `None` succeeds but leaves the datastore completely
unchanged — the field is still present with value 0 and no delete op was
staged (the pending queue still holds only the original insert). -/
theorem C5_code_bug_eval :
    dsC5.changes.length = 1 ∧
    record_update dsC5 "t1" "r1" [("foo", Value.vnone)] = Except.ok dsC5 ∧
    get_field_value dsC5 "t1" "r1" "foo" = some (.atom (.aInt 0)) := by
  refine ⟨by decide, by decide, by decide⟩

/-! ## C9: `apply_snapshot` does not re-derive the bookkeeping

`apply_snapshot` resets `_rev`, `_tables` and `_changes` but not
`_record_count`, `_size` or `_pending_changes_size`, contradicting the
docstrings of `get_record_count` ("the number of records in this
datastore") and `get_size` (base size plus the size of all records)
after a snapshot is applied over prior content. -/

/-- The datastore after `apply_snapshot(5, [])` over `dsC5`. -/
def dsC9 : DS :=
  match apply_snapshot dsC5 5 [] with
  | .ok d => d
  | .error _ => dsC5

/-- C9, evaluated at the failing input: applying the empty snapshot at
revision 5 over a datastore holding one record (count 1, size 1200)
yields revision 5, an empty pending queue (`get_pending_changes_size`
0) and no records — but `get_record_count` still returns 1 and
`get_size` still returns 1200 instead of the base size 1000, because
the prior content's bookkeeping is never discarded. -/
theorem C9_code_bug_eval :
    apply_snapshot dsC5 5 [] = Except.ok dsC9 ∧
    dsC9.rev = 5 ∧ dsC9.changes = [] ∧ get_pending_changes_size dsC9 = 0 ∧
    table_records dsC9 "t1" = [] ∧
    get_record_count dsC9 = 1 ∧ get_size dsC9 = 1200 := by
  refine ⟨by decide, by decide, by decide, by decide, by decide, by decide, by decide⟩

/-! ## C8: which ACL entry points check the Editor requirement

`get_role` and `list_roles` call only `_check_shareable`: they read the
ACL with no role check at all, so a viewer can call them.  `set_role`
(with a non-`'none'` role) reaches `_check_edit_permission` through
`Table.get_or_insert` / `Record.update` and therefore does raise the
permission error for a viewer before staging anything.  `delete_role`
reaches the check only through `Record.delete_record`, which runs only
when the principal actually has an ACL record: deleting an absent role
is a silent no-op even for a viewer. -/

theorem alookup_append_singleton {α : Type} (l : List (String × α)) (k : String) (v : α)
    (h : alookup l k = none) : alookup (l ++ [(k, v)]) k = some v := by
  induction l with
  | nil => simp [alookup]
  | cons p t ih =>
    obtain ⟨k0, v0⟩ := p
    simp only [List.cons_append, alookup] at h ⊢
    by_cases hk : k0 = k
    · rw [if_pos hk] at h
      cases h
    · rw [if_neg hk] at h ⊢
      exact ih h

theorem check_edit_permission_viewer {ds : DS} (hsh : is_shareable ds = true)
    (hv : ds.role = VIEWER) :
    check_edit_permission ds =
      Except.error (Err.datastorePermissionError "This datastore is read-only") := by
  unfold check_edit_permission
  rw [hsh, hv]
  decide

/-- C8 counterexample: on a shareable datastore opened with the Viewer
role, `get_role` and `list_roles` succeed without any permission check,
and `delete_role` of a principal that has no ACL entry is a silent
success — a role write performed by a viewer that raises nothing. -/
theorem C8_counterexample :
    get_role (initDS ".c8" VIEWER) Principal.team = Except.ok NONE ∧
    list_roles (initDS ".c8" VIEWER) = Except.ok [] ∧
    (delete_role (initDS ".c8" VIEWER) Principal.team).2 = none := by
  refine ⟨by decide, by decide, by decide⟩

/-- C8 (amended): on a shareable datastore only the paths that stage a
change enforce the Editor requirement.  `get_role` and `list_roles` are
entirely independent of the calling user's role.  For a viewer,
`set_role` with role `'editor'` or `'viewer'` returns the permission
error before staging anything (pending queue, pending size and ACL
records unchanged); `delete_role` returns that error only when the
principal actually has an ACL record (again staging nothing), and is a
silent no-op when the principal has none. -/
theorem C8_acl_permission_semantics (ds : DS) (p : Principal) (role : String)
    (hsh : is_shareable ds = true) (hv : ds.role = VIEWER)
    (hk : is_valid_id p.key = true) (hr : role = EDITOR ∨ role = VIEWER) :
    (∀ r, get_role { ds with role := r } p = get_role ds p) ∧
    (∀ r, list_roles { ds with role := r } = list_roles ds) ∧
    ((set_role ds p role).2 =
        some (Err.datastorePermissionError "This datastore is read-only") ∧
      (set_role ds p role).1.changes = ds.changes ∧
      get_pending_changes_size (set_role ds p role).1 = get_pending_changes_size ds ∧
      table_records (set_role ds p role).1 ":acl" = table_records ds ":acl") ∧
    ((alookup (table_records ds ":acl") p.key).isSome = true →
      (delete_role ds p).2 =
        some (Err.datastorePermissionError "This datastore is read-only") ∧
      (delete_role ds p).1.changes = ds.changes ∧
      table_records (delete_role ds p).1 ":acl" = table_records ds ":acl") ∧
    (alookup (table_records ds ":acl") p.key = none →
      (delete_role ds p).2 = none) := by
  have hperm := check_edit_permission_viewer hsh hv
  refine ⟨?_, ?_, ?_, ?_, ?_⟩
  · intro r
    obtain ⟨i, ro, rv, tb, ch, rc, sz, pc⟩ := ds
    cases halk : alookup tb ":acl" with
    | some t =>
      simp only [get_role, get_table, halk, except_bind_ok]
      rfl
    | none =>
      simp only [get_role, get_table, halk, except_bind_ok]
      rfl
  · intro r
    obtain ⟨i, ro, rv, tb, ch, rc, sz, pc⟩ := ds
    cases halk : alookup tb ":acl" with
    | some t =>
      simp only [list_roles, get_table, halk, except_bind_ok]
      rfl
    | none =>
      simp only [list_roles, get_table, halk, except_bind_ok]
      rfl
  · have hrn : ¬(role = NONE) := by
      obtain hr | hr := hr <;> subst hr <;> decide
    obtain ⟨ir, hpr⟩ : ∃ ir, parse_role role false = Except.ok ir := by
      obtain hr | hr := hr <;> subst hr
      · exact ⟨ROLE_EDITOR, by decide⟩
      · exact ⟨ROLE_VIEWER, by decide⟩
    unfold set_role
    rw [if_neg hrn, if_neg (not_not_intro hsh), hpr]
    dsimp only
    cases halk : alookup ds.tables ":acl" with
    | some t =>
      have hg : get_table ds ":acl" = Except.ok (ds, t) := by
        unfold get_table
        rw [halk]
      rw [hg]
      dsimp only
      cases hrec : alookup t.records p.key with
      | some f =>
        dsimp only
        have hru : record_update ds ":acl" p.key [("role", .atom (.aInt ir))] =
            Except.error (Err.datastorePermissionError "This datastore is read-only") := by
          unfold record_update
          rw [hperm]
          rfl
        rw [hru]
        exact ⟨rfl, rfl, rfl, rfl⟩
      | none =>
        dsimp only
        have htg : table_get_or_insert ds ":acl" p.key [("role", .atom (.aInt ir))] =
            Except.error (Err.datastorePermissionError "This datastore is read-only") := by
          unfold table_get_or_insert
          rw [hg]
          simp only [except_bind_ok]
          rw [hrec]
          rw [if_neg (by decide : ¬((none : Option Fields).isSome = true)),
              if_neg (not_not_intro hk)]
          unfold insert_with_id
          rw [hperm]
          rfl
        rw [htg]
        exact ⟨rfl, rfl, rfl, rfl⟩
    | none =>
      have hval : is_valid_id ":acl" = true := by decide
      have hg : get_table ds ":acl" =
          Except.ok ({ ds with tables := ds.tables ++ [(":acl", (⟨[], []⟩ : TableM))] },
                     (⟨[], []⟩ : TableM)) := by
        unfold get_table
        rw [halk, if_pos hval]
      rw [hg]
      dsimp only
      simp only [alookup]
      have hg2 : get_table
          ({ ds with tables := ds.tables ++ [(":acl", (⟨[], []⟩ : TableM))] } : DS) ":acl" =
          Except.ok ({ ds with tables := ds.tables ++ [(":acl", (⟨[], []⟩ : TableM))] },
                     (⟨[], []⟩ : TableM)) := by
        unfold get_table
        rw [show alookup
            ({ ds with tables := ds.tables ++ [(":acl", (⟨[], []⟩ : TableM))] } : DS).tables
            ":acl" = some (⟨[], []⟩ : TableM) from alookup_append_singleton _ _ _ halk]
      have htg : table_get_or_insert
          ({ ds with tables := ds.tables ++ [(":acl", (⟨[], []⟩ : TableM))] } : DS)
          ":acl" p.key [("role", .atom (.aInt ir))] =
          Except.error (Err.datastorePermissionError "This datastore is read-only") := by
        unfold table_get_or_insert
        rw [hg2]
        simp only [except_bind_ok]
        rw [if_neg (by simp [alookup] : ¬((alookup ([] : List (String × Fields)) p.key).isSome = true)),
            if_neg (not_not_intro hk)]
        unfold insert_with_id
        rw [show check_edit_permission
            ({ ds with tables := ds.tables ++ [(":acl", (⟨[], []⟩ : TableM))] } : DS) =
            Except.error (Err.datastorePermissionError "This datastore is read-only") from
          check_edit_permission_viewer hsh hv]
        rfl
      rw [htg]
      refine ⟨rfl, rfl, rfl, ?_⟩
      unfold table_records
      dsimp only
      rw [show alookup
          ({ ds with tables := ds.tables ++ [(":acl", (⟨[], []⟩ : TableM))] } : DS).tables
          ":acl" = some (⟨[], []⟩ : TableM) from alookup_append_singleton _ _ _ halk, halk]
  · intro hpres
    cases halk : alookup ds.tables ":acl" with
    | none =>
      exfalso
      unfold table_records at hpres
      rw [halk] at hpres
      simp [alookup] at hpres
    | some t =>
      unfold table_records at hpres
      rw [halk] at hpres
      dsimp only at hpres
      cases hrec : alookup t.records p.key with
      | none =>
        rw [hrec] at hpres
        simp at hpres
      | some f =>
        have hg : get_table ds ":acl" = Except.ok (ds, t) := by
          unfold get_table
          rw [halk]
        unfold delete_role
        rw [if_neg (not_not_intro hsh), hg]
        dsimp only
        rw [hrec]
        dsimp only
        have hdr : delete_record ds ":acl" p.key =
            Except.error (Err.datastorePermissionError "This datastore is read-only") := by
          unfold delete_record
          rw [hperm]
          rfl
        rw [hdr]
        exact ⟨rfl, rfl, rfl⟩
  · intro hab
    cases halk : alookup ds.tables ":acl" with
    | some t =>
      unfold table_records at hab
      rw [halk] at hab
      dsimp only at hab
      have hg : get_table ds ":acl" = Except.ok (ds, t) := by
        unfold get_table
        rw [halk]
      unfold delete_role
      rw [if_neg (not_not_intro hsh), hg]
      dsimp only
      rw [hab, if_neg (not_not_intro hk)]
    | none =>
      have hval : is_valid_id ":acl" = true := by decide
      have hg : get_table ds ":acl" =
          Except.ok ({ ds with tables := ds.tables ++ [(":acl", (⟨[], []⟩ : TableM))] },
                     (⟨[], []⟩ : TableM)) := by
        unfold get_table
        rw [halk, if_pos hval]
      unfold delete_role
      rw [if_neg (not_not_intro hsh), hg]
      dsimp only
      rw [show alookup ([] : List (String × Fields)) p.key = none from rfl,
          if_neg (not_not_intro hk)]

/-- Witness for C8 at a concrete shareable datastore opened as viewer. -/
theorem C8_witness :
    (is_shareable (initDS ".c8w" VIEWER) = true ∧
     (initDS ".c8w" VIEWER).role = VIEWER ∧
     is_valid_id (Principal.public.key) = true ∧
     (EDITOR = EDITOR ∨ EDITOR = VIEWER)) ∧
    ((∀ r, get_role { initDS ".c8w" VIEWER with role := r } Principal.public =
        get_role (initDS ".c8w" VIEWER) Principal.public) ∧
     (∀ r, list_roles { initDS ".c8w" VIEWER with role := r } =
        list_roles (initDS ".c8w" VIEWER)) ∧
     ((set_role (initDS ".c8w" VIEWER) Principal.public EDITOR).2 =
         some (Err.datastorePermissionError "This datastore is read-only") ∧
       (set_role (initDS ".c8w" VIEWER) Principal.public EDITOR).1.changes =
         (initDS ".c8w" VIEWER).changes ∧
       get_pending_changes_size (set_role (initDS ".c8w" VIEWER) Principal.public EDITOR).1 =
         get_pending_changes_size (initDS ".c8w" VIEWER) ∧
       table_records (set_role (initDS ".c8w" VIEWER) Principal.public EDITOR).1 ":acl" =
         table_records (initDS ".c8w" VIEWER) ":acl") ∧
     ((alookup (table_records (initDS ".c8w" VIEWER) ":acl") Principal.public.key).isSome =
         true →
       (delete_role (initDS ".c8w" VIEWER) Principal.public).2 =
         some (Err.datastorePermissionError "This datastore is read-only") ∧
       (delete_role (initDS ".c8w" VIEWER) Principal.public).1.changes =
         (initDS ".c8w" VIEWER).changes ∧
       table_records (delete_role (initDS ".c8w" VIEWER) Principal.public).1 ":acl" =
         table_records (initDS ".c8w" VIEWER) ":acl") ∧
     (alookup (table_records (initDS ".c8w" VIEWER) ":acl") Principal.public.key = none →
       (delete_role (initDS ".c8w" VIEWER) Principal.public).2 = none)) :=
  ⟨⟨by decide, by decide, by decide, Or.inl rfl⟩,
   C8_acl_permission_semantics (initDS ".c8w" VIEWER) Principal.public EDITOR
     (by decide) (by decide) (by decide) (Or.inl rfl)⟩

/-! ## C4: the size invariant

The invariant checked here says the caches maintained incrementally by
`_update_record_fields` — each table's `_record_sizes`, the datastore's
`_record_count` and `_size` — always equal the values recomputed from
scratch with `_compute_record_size_for_fields`. -/

/-- The size of the value stored under `k`, 0 when `k` is absent. -/
def msize {α : Type} (g : α → ℤ) (l : List (String × α)) (k : String) : ℤ :=
  match alookup l k with
  | some w => g w
  | none => 0

/-- The size cache a table should hold: every present record mapped to
`_compute_record_size_for_fields` of its fields. -/
def sizes_of (r : List (String × Fields)) : List (String × ℤ) :=
  r.map fun p => (p.1, compute_record_size_for_fields p.2)

/-- The recomputed size of one record of a table (0 when absent). -/
def cached_size (t : TableM) (rid : String) : ℤ :=
  msize compute_record_size_for_fields t.records rid

/-- Recomputed total size of a table: the sum of its record sizes. -/
def table_total (t : TableM) : ℤ := asum t.records compute_record_size_for_fields

/-- The record count of a table, as an integer. -/
def table_count (t : TableM) : ℤ := (t.records.length : ℤ)

/-- The per-table invariant: distinct record IDs, each record's fields
a dict (distinct keys), and the size cache exactly the recomputed one. -/
def tableInv (t : TableM) : Bool :=
  decide (nodupKeys t.records) &&
  t.records.all (fun p => decide (nodupKeys p.2)) &&
  decide (t.record_sizes = sizes_of t.records)

/-- The datastore invariant: distinct table IDs, every table coherent,
and the cached record count and datastore size equal to the values
recomputed from scratch. -/
def dsInv (ds : DS) : Bool :=
  decide (nodupKeys ds.tables) &&
  ds.tables.all (fun p => tableInv p.2) &&
  decide (ds.record_count = asum ds.tables table_count) &&
  decide (ds.size = BASE_DATASTORE_SIZE + asum ds.tables table_total)

/-- One public mutation: `Table.get_or_insert` (which is `insert` with a
chosen record ID), `Record.update`, or `Record.delete_record`. -/
inductive Op where
  | insert (tid recordid : String) (fields : Fields)
  | update (tid recordid : String) (kwds : Fields)
  | delete (tid recordid : String)
  deriving Repr

/-- Run one mutation; a raised exception leaves the state unchanged
(none of the three entry points mutates the caches before raising). -/
def runOp (ds : DS) : Op → DS
  | .insert tid rid fields => (table_get_or_insert ds tid rid fields).toOption.getD ds
  | .update tid rid kwds => (record_update ds tid rid kwds).toOption.getD ds
  | .delete tid rid => (delete_record ds tid rid).toOption.getD ds

/-- Run a sequence of mutations. -/
def runOps (ds : DS) : List Op → DS
  | [] => ds
  | op :: rest => runOps (runOp ds op) rest

theorem compute_atom_size_nonneg (a : Atom) : 0 ≤ compute_atom_size a := by
  cases a <;> simp [compute_atom_size]

theorem compute_list_size_nonneg (l : List Atom) : 0 ≤ compute_list_size l := by
  have h2 : (0 : ℤ) ≤ (l.map compute_atom_size).sum := by
    refine List.sum_nonneg ?_
    intro x hx
    obtain ⟨a, _, rfl⟩ := List.mem_map.mp hx
    exact compute_atom_size_nonneg a
  simp only [compute_list_size, BASE_ITEM_SIZE]
  omega

theorem compute_value_size_nonneg (v : Value) : 0 ≤ compute_value_size v := by
  cases v with
  | vnone => simp [compute_value_size]
  | atom a => exact compute_atom_size_nonneg a
  | vlist l => exact compute_list_size_nonneg l

theorem compute_field_size_nonneg (v : Value) : 0 ≤ compute_field_size v := by
  cases v with
  | vnone => simp [compute_field_size]
  | atom a =>
    have := compute_value_size_nonneg (Value.atom a)
    simp only [compute_field_size, BASE_FIELD_SIZE]
    omega
  | vlist l =>
    have := compute_value_size_nonneg (Value.vlist l)
    simp only [compute_field_size, BASE_FIELD_SIZE]
    omega

theorem asum_nonneg {α : Type} (l : List (String × α)) (g : α → ℤ)
    (h : ∀ v, 0 ≤ g v) : 0 ≤ asum l g := by
  refine List.sum_nonneg ?_
  intro x hx
  obtain ⟨p, _, rfl⟩ := List.mem_map.mp hx
  exact h p.2

theorem compute_record_size_pos (f : Fields) : 0 < compute_record_size_for_fields f := by
  have := asum_nonneg f compute_field_size compute_field_size_nonneg
  simp only [compute_record_size_for_fields, BASE_RECORD_SIZE]
  omega

theorem table_total_nonneg (t : TableM) : 0 ≤ table_total t :=
  asum_nonneg t.records compute_record_size_for_fields
    (fun f => le_of_lt (compute_record_size_pos f))

theorem alookup_mem {α : Type} (k : String) (v : α) :
    ∀ l : List (String × α), alookup l k = some v → (k, v) ∈ l := by
  intro l
  induction l with
  | nil => intro h; cases h
  | cons p t ih =>
    obtain ⟨k0, v0⟩ := p
    intro h
    simp only [alookup] at h
    by_cases hk : k0 = k
    · rw [if_pos hk] at h
      cases h
      subst hk
      exact List.mem_cons_self _ _
    · rw [if_neg hk] at h
      exact List.mem_cons_of_mem _ (ih h)

theorem mem_aset {α : Type} (k : String) (v : α) :
    ∀ (l : List (String × α)) (x : String × α),
      x ∈ aset l k v → x = (k, v) ∨ x ∈ l := by
  intro l
  induction l with
  | nil =>
    intro x hx
    simp only [aset, List.mem_singleton] at hx
    exact Or.inl hx
  | cons p t ih =>
    obtain ⟨k0, v0⟩ := p
    intro x hx
    simp only [aset] at hx
    by_cases hk : k0 = k
    · rw [if_pos hk] at hx
      rcases List.mem_cons.mp hx with h1 | h2
      · subst hk
        exact Or.inl h1
      · exact Or.inr (List.mem_cons_of_mem _ h2)
    · rw [if_neg hk] at hx
      rcases List.mem_cons.mp hx with h1 | h2
      · exact Or.inr (h1 ▸ List.mem_cons_self _ _)
      · rcases ih x h2 with h3 | h4
        · exact Or.inl h3
        · exact Or.inr (List.mem_cons_of_mem _ h4)

theorem mem_adel {α : Type} (k : String) :
    ∀ (l : List (String × α)) (x : String × α), x ∈ adel l k → x ∈ l := by
  intro l
  induction l with
  | nil => intro x hx; cases hx
  | cons p t ih =>
    obtain ⟨k0, v0⟩ := p
    intro x hx
    simp only [adel] at hx
    by_cases hk : k0 = k
    · rw [if_pos hk] at hx
      exact List.mem_cons_of_mem _ hx
    · rw [if_neg hk] at hx
      rcases List.mem_cons.mp hx with h1 | h2
      · exact h1 ▸ List.mem_cons_self _ _
      · exact List.mem_cons_of_mem _ (ih x h2)

theorem asum_aset {α : Type} (k : String) (v : α) (g : α → ℤ) :
    ∀ l : List (String × α), nodupKeys l →
      asum (aset l k v) g = asum l g - msize g l k + g v := by
  intro l
  induction l with
  | nil =>
    intro _
    simp [aset, asum, msize, alookup]
  | cons p t ih =>
    obtain ⟨k0, v0⟩ := p
    intro hnd
    simp only [nodupKeys, akeys, List.map_cons, List.nodup_cons] at hnd
    by_cases hk : k0 = k
    · subst hk
      simp [aset, asum, msize, alookup]
      ring
    · have ht := ih hnd.2
      simp only [aset, if_neg hk, asum, List.map_cons, List.sum_cons, msize, alookup] at ht ⊢
      rw [ht]
      ring

theorem asum_adel {α : Type} (k : String) (g : α → ℤ) :
    ∀ l : List (String × α),
      asum (adel l k) g = asum l g - msize g l k := by
  intro l
  induction l with
  | nil => simp [adel, asum, msize, alookup]
  | cons p t ih =>
    obtain ⟨k0, v0⟩ := p
    by_cases hk : k0 = k
    · simp only [adel, if_pos hk, asum, List.map_cons, List.sum_cons, msize, alookup,
        if_pos hk]
      ring
    · simp only [adel, if_neg hk, asum, List.map_cons, List.sum_cons, msize, alookup,
        if_neg hk]
      simp only [asum, msize] at ih
      rw [ih]
      ring

theorem length_aset_present {α : Type} (k : String) (v : α) :
    ∀ (l : List (String × α)) (w : α), alookup l k = some w →
      (aset l k v).length = l.length := by
  intro l
  induction l with
  | nil => intro w h; cases h
  | cons p t ih =>
    obtain ⟨k0, v0⟩ := p
    intro w h
    simp only [alookup] at h
    by_cases hk : k0 = k
    · simp [aset, if_pos hk]
    · rw [if_neg hk] at h
      simp only [aset, if_neg hk, List.length_cons]
      rw [ih w h]

theorem length_aset_absent {α : Type} (k : String) (v : α) :
    ∀ l : List (String × α), alookup l k = none →
      (aset l k v).length = l.length + 1 := by
  intro l
  induction l with
  | nil => intro _; simp [aset]
  | cons p t ih =>
    obtain ⟨k0, v0⟩ := p
    intro h
    simp only [alookup] at h
    by_cases hk : k0 = k
    · rw [if_pos hk] at h
      cases h
    · rw [if_neg hk] at h
      simp only [aset, if_neg hk, List.length_cons]
      rw [ih h]

theorem length_adel_present {α : Type} (k : String) :
    ∀ (l : List (String × α)) (w : α), alookup l k = some w →
      l.length = (adel l k).length + 1 := by
  intro l
  induction l with
  | nil => intro w h; cases h
  | cons p t ih =>
    obtain ⟨k0, v0⟩ := p
    intro w h
    simp only [alookup] at h
    by_cases hk : k0 = k
    · simp [adel, if_pos hk]
    · rw [if_neg hk] at h
      simp only [adel, if_neg hk, List.length_cons]
      rw [ih w h]

theorem alookup_sizes_of_none (r : List (String × Fields)) (k : String)
    (h : alookup r k = none) : alookup (sizes_of r) k = none := by
  induction r with
  | nil => rfl
  | cons p t ih =>
    obtain ⟨k0, f0⟩ := p
    simp only [alookup] at h
    by_cases hk : k0 = k
    · rw [if_pos hk] at h
      cases h
    · rw [if_neg hk] at h
      simp only [sizes_of, List.map_cons, alookup, if_neg hk]
      exact ih h

theorem alookup_sizes_of_some (r : List (String × Fields)) (k : String) (f : Fields)
    (h : alookup r k = some f) :
    alookup (sizes_of r) k = some (compute_record_size_for_fields f) := by
  induction r with
  | nil => cases h
  | cons p t ih =>
    obtain ⟨k0, f0⟩ := p
    simp only [alookup] at h
    by_cases hk : k0 = k
    · rw [if_pos hk] at h
      cases h
      simp only [sizes_of, List.map_cons, alookup, if_pos hk]
    · rw [if_neg hk] at h
      simp only [sizes_of, List.map_cons, alookup, if_neg hk]
      exact ih h

theorem sizes_of_aset (r : List (String × Fields)) (k : String) (f : Fields) :
    sizes_of (aset r k f) = aset (sizes_of r) k (compute_record_size_for_fields f) := by
  induction r with
  | nil => rfl
  | cons p t ih =>
    obtain ⟨k0, f0⟩ := p
    by_cases hk : k0 = k
    · simp [sizes_of, aset, if_pos hk]
    · simp only [sizes_of, List.map_cons, aset, if_neg hk, List.cons.injEq, true_and]
      exact ih

theorem sizes_of_adel (r : List (String × Fields)) (k : String) :
    sizes_of (adel r k) = adel (sizes_of r) k := by
  induction r with
  | nil => rfl
  | cons p t ih =>
    obtain ⟨k0, f0⟩ := p
    by_cases hk : k0 = k
    · simp [sizes_of, adel, if_pos hk]
    · simp only [sizes_of, List.map_cons, adel, if_neg hk, List.cons.injEq, true_and]
      exact ih

theorem tableInv_spec {t : TableM} (h : tableInv t = true) :
    nodupKeys t.records ∧ (∀ p ∈ t.records, nodupKeys p.2) ∧
      t.record_sizes = sizes_of t.records := by
  unfold tableInv at h
  simp only [Bool.and_eq_true, decide_eq_true_eq, List.all_eq_true] at h
  exact ⟨h.1.1, h.1.2, h.2⟩

theorem tableInv_mk (t : TableM) (h1 : nodupKeys t.records)
    (h2 : ∀ p ∈ t.records, nodupKeys p.2)
    (h3 : t.record_sizes = sizes_of t.records) : tableInv t = true := by
  unfold tableInv
  simp only [Bool.and_eq_true, decide_eq_true_eq, List.all_eq_true]
  exact ⟨⟨h1, h2⟩, h3⟩

theorem dsInv_spec {ds : DS} (h : dsInv ds = true) :
    nodupKeys ds.tables ∧ (∀ p ∈ ds.tables, tableInv p.2 = true) ∧
      ds.record_count = asum ds.tables table_count ∧
      ds.size = BASE_DATASTORE_SIZE + asum ds.tables table_total := by
  unfold dsInv at h
  simp only [Bool.and_eq_true, decide_eq_true_eq, List.all_eq_true] at h
  exact ⟨h.1.1.1, h.1.1.2, h.1.2, h.2⟩

theorem dsInv_mk (ds : DS) (h1 : nodupKeys ds.tables)
    (h2 : ∀ p ∈ ds.tables, tableInv p.2 = true)
    (h3 : ds.record_count = asum ds.tables table_count)
    (h4 : ds.size = BASE_DATASTORE_SIZE + asum ds.tables table_total) :
    dsInv ds = true := by
  unfold dsInv
  simp only [Bool.and_eq_true, decide_eq_true_eq, List.all_eq_true]
  exact ⟨⟨⟨h1, h2⟩, h3⟩, h4⟩

theorem get_record_size_inv {t : TableM} (ht : tableInv t = true) (rid : String) :
    get_record_size t rid = Except.ok (cached_size t rid) := by
  obtain ⟨hndr, hfall, hszeq⟩ := tableInv_spec ht
  cases hrec : alookup t.records rid with
  | none =>
    have h1 : alookup t.record_sizes rid = none := by
      rw [hszeq]
      exact alookup_sizes_of_none _ _ hrec
    unfold get_record_size
    rw [h1, hrec]
    simp [cached_size, msize, hrec]
  | some f =>
    have h1 : alookup t.record_sizes rid =
        some (compute_record_size_for_fields f) := by
      rw [hszeq]
      exact alookup_sizes_of_some _ _ _ hrec
    unfold get_record_size
    rw [h1]
    dsimp only
    rw [if_neg (by have := compute_record_size_pos f; omega :
        ¬compute_record_size_for_fields f = 0)]
    simp [cached_size, msize, hrec]

theorem update_record_fields_inv {ds : DS} {tid rid : String} {fopt : Option Fields}
    {d : ℤ} {ds1 : DS}
    (hinv : dsInv ds = true)
    (hcoh : ∀ t, alookup ds.tables tid = some t →
      match fopt with
      | some nf => nodupKeys nf ∧
          cached_size t rid + d = compute_record_size_for_fields nf
      | none => cached_size t rid + d = 0)
    (h : update_record_fields ds tid rid fopt d = Except.ok ds1) :
    dsInv ds1 = true := by
  unfold update_record_fields at h
  cases halk : alookup ds.tables tid with
  | none =>
    rw [halk] at h
    simp at h
  | some t =>
    rw [halk] at h
    simp only [except_bind_ok] at h
    obtain ⟨hndt, hall, hcount, hsize⟩ := dsInv_spec hinv
    have htInv : tableInv t = true := hall _ (alookup_mem _ _ _ halk)
    obtain ⟨hndr, hfall, hszeq⟩ := tableInv_spec htInv
    rw [get_record_size_inv htInv] at h
    simp only [except_bind_ok] at h
    cases fopt with
    | some nf =>
      obtain ⟨hndnf, hceq⟩ := hcoh t halk
      have hpos : 0 < cached_size t rid + d := by
        rw [hceq]
        exact compute_record_size_pos nf
      rw [if_neg (by omega : ¬cached_size t rid + d < 0)] at h
      by_cases hsz2 : ds.size + d < BASE_DATASTORE_SIZE
      · rw [if_pos hsz2] at h
        cases h
      · rw [if_neg hsz2] at h
        rw [if_pos (by omega : cached_size t rid + d ≠ 0)] at h
        cases h
        refine dsInv_mk _ (nodupKeys_aset _ _ _ hndt) ?_ ?_ ?_
        · intro p hp
          rcases mem_aset _ _ _ p hp with rfl | hm
          · refine tableInv_mk _ (nodupKeys_aset _ _ _ hndr) ?_ ?_
            · intro q hq
              rcases mem_aset _ _ _ q hq with rfl | hq2
              · exact hndnf
              · exact hfall q hq2
            · show aset t.record_sizes rid (cached_size t rid + d) =
                sizes_of (aset t.records rid nf)
              rw [hszeq, sizes_of_aset, hceq]
          · exact hall p hm
        · show ds.record_count + (if cached_size t rid = 0 then 1 else 0) =
            asum (aset ds.tables tid
              ⟨aset t.records rid nf, aset t.record_sizes rid (cached_size t rid + d)⟩)
              table_count
          rw [asum_aset _ _ _ _ hndt]
          have hms : msize table_count ds.tables tid = table_count t := by
            unfold msize
            rw [halk]
          rw [hms, hcount]
          show _ = asum ds.tables table_count - table_count t +
            ((aset t.records rid nf).length : ℤ)
          cases hrec : alookup t.records rid with
          | none =>
            have hcz : cached_size t rid = 0 := by
              unfold cached_size msize
              rw [hrec]
            rw [if_pos hcz, length_aset_absent _ _ _ hrec]
            unfold table_count
            push_cast
            ring
          | some f0 =>
            have hcz : cached_size t rid = compute_record_size_for_fields f0 := by
              unfold cached_size msize
              rw [hrec]
            have hf0 := compute_record_size_pos f0
            rw [if_neg (by omega : ¬cached_size t rid = 0),
                length_aset_present _ _ _ _ hrec]
            unfold table_count
            ring
        · show ds.size + d = BASE_DATASTORE_SIZE +
            asum (aset ds.tables tid
              ⟨aset t.records rid nf, aset t.record_sizes rid (cached_size t rid + d)⟩)
              table_total
          rw [asum_aset _ _ _ _ hndt]
          have hms : msize table_total ds.tables tid = table_total t := by
            unfold msize
            rw [halk]
          rw [hms]
          have hnt : table_total
              (⟨aset t.records rid nf, aset t.record_sizes rid (cached_size t rid + d)⟩ :
                TableM) = table_total t + d := by
            show asum (aset t.records rid nf) compute_record_size_for_fields = _
            rw [asum_aset _ _ _ _ hndr]
            have : msize compute_record_size_for_fields t.records rid =
                cached_size t rid := rfl
            rw [this, ← hceq]
            unfold table_total
            ring
          rw [hnt, hsize]
          ring
    | none =>
      have hceq := hcoh t halk
      rw [if_neg (by omega : ¬cached_size t rid + d < 0)] at h
      by_cases hsz2 : ds.size + d < BASE_DATASTORE_SIZE
      · rw [if_pos hsz2] at h
        cases h
      · rw [if_neg hsz2] at h
        rw [if_neg (by omega : ¬cached_size t rid + d ≠ 0)] at h
        by_cases hk1 : alookup t.record_sizes rid = none
        · rw [if_pos hk1] at h
          cases h
        · rw [if_neg hk1] at h
          by_cases hk2 : alookup t.records rid = none
          · rw [if_pos hk2] at h
            cases h
          · rw [if_neg hk2] at h
            cases h
            obtain ⟨f0, hrec⟩ : ∃ f0, alookup t.records rid = some f0 := by
              cases hx : alookup t.records rid with
              | none => exact absurd hx hk2
              | some f0 => exact ⟨f0, rfl⟩
            have hcz : cached_size t rid = compute_record_size_for_fields f0 := by
              unfold cached_size msize
              rw [hrec]
            refine dsInv_mk _ (nodupKeys_aset _ _ _ hndt) ?_ ?_ ?_
            · intro p hp
              rcases mem_aset _ _ _ p hp with rfl | hm
              · refine tableInv_mk _ (nodupKeys_adel _ _ hndr) ?_ ?_
                · intro q hq
                  exact hfall q (mem_adel _ _ q hq)
                · show adel t.record_sizes rid = sizes_of (adel t.records rid)
                  rw [hszeq, sizes_of_adel]
              · exact hall p hm
            · show ds.record_count - 1 =
                asum (aset ds.tables tid
                  ⟨adel t.records rid, adel t.record_sizes rid⟩) table_count
              rw [asum_aset _ _ _ _ hndt]
              have hms : msize table_count ds.tables tid = table_count t := by
                unfold msize
                rw [halk]
              rw [hms, hcount]
              have hlen := length_adel_present _ _ _ hrec
              show _ = asum ds.tables table_count - table_count t +
                ((adel t.records rid).length : ℤ)
              unfold table_count
              omega
            · show ds.size + d = BASE_DATASTORE_SIZE +
                asum (aset ds.tables tid
                  ⟨adel t.records rid, adel t.record_sizes rid⟩) table_total
              rw [asum_aset _ _ _ _ hndt]
              have hms : msize table_total ds.tables tid = table_total t := by
                unfold msize
                rw [halk]
              rw [hms]
              have hnt : table_total
                  (⟨adel t.records rid, adel t.record_sizes rid⟩ : TableM) =
                  table_total t - cached_size t rid := by
                show asum (adel t.records rid) compute_record_size_for_fields = _
                rw [asum_adel]
                rfl
              rw [hnt, hsize]
              have : cached_size t rid + d = 0 := hceq
              omega

theorem dsInv_add_pending (ds : DS) (c : Change) :
    dsInv (add_pending_change ds c) = dsInv ds := rfl

theorem aset_eq_append {α : Type} (l : List (String × α)) (k : String) (v : α)
    (h : alookup l k = none) : aset l k v = l ++ [(k, v)] := by
  induction l with
  | nil => rfl
  | cons p t ih =>
    obtain ⟨k0, v0⟩ := p
    simp only [alookup] at h
    by_cases hk : k0 = k
    · rw [if_pos hk] at h
      cases h
    · rw [if_neg hk] at h
      simp only [aset, if_neg hk, List.cons_append]
      rw [ih h]

theorem dsInv_get_table {ds : DS} {tid : String} {ds1 : DS} {t : TableM}
    (hinv : dsInv ds = true) (h : get_table ds tid = Except.ok (ds1, t)) :
    dsInv ds1 = true ∧ alookup ds1.tables tid = some t ∧ tableInv t = true := by
  obtain ⟨hndt, hall, hcount, hsize⟩ := dsInv_spec hinv
  unfold get_table at h
  cases halk : alookup ds.tables tid with
  | some u =>
    rw [halk] at h
    cases h
    exact ⟨hinv, halk, hall _ (alookup_mem _ _ _ halk)⟩
  | none =>
    rw [halk] at h
    by_cases hv : is_valid_id tid
    · rw [if_pos hv] at h
      cases h
      have heq : ds.tables ++ [(tid, (⟨[], []⟩ : TableM))] =
          aset ds.tables tid ⟨[], []⟩ := (aset_eq_append _ _ _ halk).symm
      refine ⟨?_, alookup_append_singleton _ _ _ halk, rfl⟩
      refine dsInv_mk _ ?_ ?_ ?_ ?_
      · show nodupKeys (ds.tables ++ [(tid, (⟨[], []⟩ : TableM))])
        rw [heq]
        exact nodupKeys_aset _ _ _ hndt
      · intro p hp
        rw [show (({ ds with tables := ds.tables ++ [(tid, (⟨[], []⟩ : TableM))] } : DS)).tables
            = ds.tables ++ [(tid, (⟨[], []⟩ : TableM))] from rfl, heq] at hp
        rcases mem_aset _ _ _ p hp with rfl | hm
        · rfl
        · exact hall p hm
      · show ds.record_count =
          asum (ds.tables ++ [(tid, (⟨[], []⟩ : TableM))]) table_count
        rw [heq, asum_aset _ _ _ _ hndt]
        have hms : msize table_count ds.tables tid = 0 := by
          unfold msize
          rw [halk]
        rw [hms, hcount]
        simp [table_count]
      · show ds.size = BASE_DATASTORE_SIZE +
          asum (ds.tables ++ [(tid, (⟨[], []⟩ : TableM))]) table_total
        rw [heq, asum_aset _ _ _ _ hndt]
        have hms : msize table_total ds.tables tid = 0 := by
          unfold msize
          rw [halk]
        rw [hms, hsize]
        simp [table_total, asum]
    · rw [if_neg hv] at h
      cases h

theorem validate_insert_fields_sum :
    ∀ {fields : Fields} {vs : ℤ}, validate_insert_fields fields = Except.ok vs →
      vs = asum fields compute_field_size := by
  intro fields
  induction fields with
  | nil =>
    intro vs h
    unfold validate_insert_fields at h
    cases h
    simp [asum]
  | cons p rest ih =>
    intro vs h
    obtain ⟨field, value⟩ := p
    unfold validate_insert_fields at h
    by_cases h1 : is_valid_id field
    · rw [if_neg (not_not_intro h1)] at h
      by_cases h2 : value = Value.vnone
      · rw [if_pos h2] at h
        cases h
      · rw [if_neg h2] at h
        cases hrest : validate_insert_fields rest with
        | error e =>
          rw [hrest] at h
          simp at h
        | ok s =>
          rw [hrest] at h
          simp only [except_bind_ok] at h
          cases h
          rw [ih hrest]
          simp [asum]
    · rw [if_pos h1] at h
      cases h

theorem dsInv_insert_with_id {ds : DS} {tid rid : String} {fields : Fields} {ds1 : DS}
    (hinv : dsInv ds = true)
    (habs : ∀ t, alookup ds.tables tid = some t → alookup t.records rid = none)
    (h : insert_with_id ds tid rid fields = Except.ok ds1) :
    dsInv ds1 = true := by
  unfold insert_with_id at h
  cases hce : check_edit_permission ds with
  | error e =>
    rw [hce] at h
    simp at h
  | ok u =>
    rw [hce] at h
    simp only [except_bind_ok] at h
    by_cases hnd : nodupKeys fields
    · rw [if_neg (not_not_intro hnd)] at h
      cases hval : validate_insert_fields fields with
      | error e =>
        rw [hval] at h
        simp at h
      | ok vs =>
        rw [hval] at h
        simp only [except_bind_ok] at h
        refine update_record_fields_inv ?_ ?_ h
        · rw [dsInv_add_pending]
          exact hinv
        · intro t halk2
          have halk3 : alookup ds.tables tid = some t := halk2
          refine ⟨hnd, ?_⟩
          have hc0 : cached_size t rid = 0 := by
            unfold cached_size msize
            rw [habs t halk3]
          rw [hc0, validate_insert_fields_sum hval]
          unfold compute_record_size_for_fields
          ring
    · rw [if_pos hnd] at h
      cases h

theorem dsInv_table_get_or_insert {ds : DS} {tid rid : String} {fields : Fields}
    {ds1 : DS} (hinv : dsInv ds = true)
    (h : table_get_or_insert ds tid rid fields = Except.ok ds1) :
    dsInv ds1 = true := by
  unfold table_get_or_insert at h
  cases hg : get_table ds tid with
  | error e =>
    rw [hg] at h
    simp at h
  | ok pr =>
    obtain ⟨dsa, t⟩ := pr
    rw [hg] at h
    simp only [except_bind_ok] at h
    obtain ⟨hinva, halka, htInva⟩ := dsInv_get_table hinv hg
    by_cases hs : (alookup t.records rid).isSome = true
    · rw [if_pos hs] at h
      cases h
      exact hinva
    · rw [if_neg hs] at h
      have habs : alookup t.records rid = none := by
        cases hx : alookup t.records rid with
        | none => rfl
        | some w =>
          rw [hx] at hs
          simp at hs
      by_cases hvr : is_valid_id rid
      · rw [if_neg (not_not_intro hvr)] at h
        refine dsInv_insert_with_id hinva ?_ h
        intro t2 halk2
        rw [halka] at halk2
        cases halk2
        exact habs
      · rw [if_pos hvr] at h
        cases h

theorem record_update_loop_spec :
    ∀ {kwds fields fields2 : Fields} {data : List (String × FieldOp)} {undo : Fields}
      {o n : ℤ},
      nodupKeys fields →
      record_update_loop fields kwds = Except.ok (fields2, data, undo, o, n) →
      nodupKeys fields2 ∧
        asum fields2 compute_field_size = asum fields compute_field_size - o + n := by
  intro kwds
  induction kwds with
  | nil =>
    intro fields fields2 data undo o n hnd h
    unfold record_update_loop at h
    cases h
    exact ⟨hnd, by ring⟩
  | cons p rest ih =>
    intro fields fields2 data undo o n hnd h
    obtain ⟨field, value⟩ := p
    simp only [record_update_loop] at h
    by_cases h1 : is_valid_id field
    · rw [if_neg (not_not_intro h1)] at h
      by_cases h2 : value = Value.vnone
      · rw [if_pos h2] at h
        by_cases h3 : pyTruthy (pyGet fields field) = true
        · rw [if_pos h3] at h
          cases hrec : record_update_loop (adel fields field) rest with
          | error e =>
            rw [hrec] at h
            simp at h
          | ok tup =>
            obtain ⟨f2, d2, u2, o2, n2⟩ := tup
            rw [hrec] at h
            simp only [except_bind_ok] at h
            cases h
            obtain ⟨hnd2, hsum⟩ := ih (nodupKeys_adel _ _ hnd) hrec
            refine ⟨hnd2, ?_⟩
            rw [hsum, asum_adel]
            have hms : msize compute_field_size fields field =
                compute_field_size (pyGet fields field) := by
              unfold msize pyGet
              cases hx : alookup fields field with
              | none => simp [compute_field_size]
              | some w => simp
            rw [hms]
            ring
        · rw [if_neg h3] at h
          exact ih hnd h
      · rw [if_neg h2] at h
        cases hrec : record_update_loop (aset fields field value) rest with
        | error e =>
          rw [hrec] at h
          simp at h
        | ok tup =>
          obtain ⟨f2, d2, u2, o2, n2⟩ := tup
          rw [hrec] at h
          simp only [except_bind_ok] at h
          cases h
          obtain ⟨hnd2, hsum⟩ := ih (nodupKeys_aset _ _ _ hnd) hrec
          refine ⟨hnd2, ?_⟩
          rw [hsum, asum_aset _ _ _ _ hnd]
          have hms : msize compute_field_size fields field =
              compute_field_size (pyGet fields field) := by
            unfold msize pyGet
            cases hx : alookup fields field with
            | none => simp [compute_field_size]
            | some w => simp
          rw [hms]
          ring
    · rw [if_pos h1] at h
      cases h

theorem dsInv_record_update {ds : DS} {tid rid : String} {kwds : Fields} {ds1 : DS}
    (hinv : dsInv ds = true) (h : record_update ds tid rid kwds = Except.ok ds1) :
    dsInv ds1 = true := by
  unfold record_update at h
  cases hce : check_edit_permission ds with
  | error e =>
    rw [hce] at h
    simp at h
  | ok u =>
    rw [hce] at h
    simp only [except_bind_ok] at h
    cases hg : get_table ds tid with
    | error e =>
      rw [hg] at h
      simp at h
    | ok pr =>
      obtain ⟨dsa, t⟩ := pr
      rw [hg] at h
      simp only [except_bind_ok] at h
      obtain ⟨hinva, halka, htInva⟩ := dsInv_get_table hinv hg
      obtain ⟨hndr, hfall, hszeq⟩ := tableInv_spec htInva
      cases hrec : alookup t.records rid with
      | none =>
        rw [hrec] at h
        simp at h
      | some fields0 =>
        rw [hrec] at h
        dsimp only at h
        by_cases hndk : nodupKeys kwds
        · rw [if_neg (not_not_intro hndk)] at h
          cases hloop : record_update_loop fields0 kwds with
          | error e =>
            rw [hloop] at h
            simp at h
          | ok tup =>
            obtain ⟨fields, data, undo, o, n⟩ := tup
            rw [hloop] at h
            simp only [except_bind_ok] at h
            have hnd0 : nodupKeys fields0 := hfall _ (alookup_mem _ _ _ hrec)
            obtain ⟨hndf, hsum⟩ := record_update_loop_spec hnd0 hloop
            by_cases hde : data.isEmpty = true
            · rw [if_pos hde] at h
              cases h
              exact hinva
            · rw [if_neg hde] at h
              refine update_record_fields_inv ?_ ?_ h
              · rw [dsInv_add_pending]
                exact hinva
              · intro t2 halk2
                have halk3 : alookup dsa.tables tid = some t2 := halk2
                rw [halka] at halk3
                cases halk3
                refine ⟨hndf, ?_⟩
                have hcz : cached_size t rid =
                    compute_record_size_for_fields fields0 := by
                  unfold cached_size msize
                  rw [hrec]
                rw [hcz]
                unfold compute_record_size_for_fields
                omega
        · rw [if_pos hndk] at h
          cases h

theorem dsInv_delete_record {ds : DS} {tid rid : String} {ds1 : DS}
    (hinv : dsInv ds = true) (h : delete_record ds tid rid = Except.ok ds1) :
    dsInv ds1 = true := by
  unfold delete_record at h
  cases hce : check_edit_permission ds with
  | error e =>
    rw [hce] at h
    simp at h
  | ok u =>
    rw [hce] at h
    simp only [except_bind_ok] at h
    cases hg : get_table ds tid with
    | error e =>
      rw [hg] at h
      simp at h
    | ok pr =>
      obtain ⟨dsa, t⟩ := pr
      rw [hg] at h
      simp only [except_bind_ok] at h
      obtain ⟨hinva, halka, htInva⟩ := dsInv_get_table hinv hg
      cases hrec : alookup t.records rid with
      | none =>
        rw [hrec] at h
        cases h
        exact hinva
      | some fields =>
        rw [hrec] at h
        dsimp only at h
        rw [get_record_size_inv htInva] at h
        simp only [except_bind_ok] at h
        refine update_record_fields_inv ?_ ?_ h
        · rw [dsInv_add_pending]
          exact hinva
        · intro t2 halk2
          have halk3 : alookup dsa.tables tid = some t2 := halk2
          rw [halka] at halk3
          cases halk3
          show cached_size t rid + -cached_size t rid = 0
          ring

theorem dsInv_runOp (ds : DS) (op : Op) (hinv : dsInv ds = true) :
    dsInv (runOp ds op) = true := by
  cases op with
  | insert tid rid fields =>
    unfold runOp
    dsimp only
    cases h : table_get_or_insert ds tid rid fields with
    | ok d => simpa [Except.toOption] using dsInv_table_get_or_insert hinv h
    | error e => simpa [Except.toOption] using hinv
  | update tid rid kwds =>
    unfold runOp
    dsimp only
    cases h : record_update ds tid rid kwds with
    | ok d => simpa [Except.toOption] using dsInv_record_update hinv h
    | error e => simpa [Except.toOption] using hinv
  | delete tid rid =>
    unfold runOp
    dsimp only
    cases h : delete_record ds tid rid with
    | ok d => simpa [Except.toOption] using dsInv_delete_record hinv h
    | error e => simpa [Except.toOption] using hinv

theorem dsInv_runOps (ops : List Op) :
    ∀ ds : DS, dsInv ds = true → dsInv (runOps ds ops) = true := by
  induction ops with
  | nil =>
    intro ds h
    exact h
  | cons op rest ih =>
    intro ds h
    exact ih _ (dsInv_runOp ds op h)

theorem dsInv_initDS (id role : String) : dsInv (initDS id role) = true := rfl

/-- C4: for every state reachable from a fresh datastore by any
sequence of insert / update / delete operations, the incrementally
maintained bookkeeping equals the values recomputed from scratch: every
table's size cache holds `_compute_record_size_for_fields` of the
stored fields, the record count is the number of stored records, and
`get_size()` is `BASE_DATASTORE_SIZE` plus the sum of all record sizes
(each `BASE_RECORD_SIZE` plus per-field `BASE_FIELD_SIZE` plus the
value payload).  Moreover the datastore size never drops below the base
size and every cached record size is strictly positive. -/
theorem C4_size_invariant (id role : String) (ops : List Op) :
    dsInv (runOps (initDS id role) ops) = true ∧
    get_size (runOps (initDS id role) ops) =
      BASE_DATASTORE_SIZE + asum (runOps (initDS id role) ops).tables table_total ∧
    BASE_DATASTORE_SIZE ≤ get_size (runOps (initDS id role) ops) ∧
    (∀ tid t rid s,
      alookup (runOps (initDS id role) ops).tables tid = some t →
      alookup t.record_sizes rid = some s → 0 < s) := by
  have hinv := dsInv_runOps ops (initDS id role) (dsInv_initDS id role)
  obtain ⟨hndt, hall, hcount, hsize⟩ := dsInv_spec hinv
  refine ⟨hinv, hsize, ?_, ?_⟩
  · show BASE_DATASTORE_SIZE ≤ (runOps (initDS id role) ops).size
    rw [hsize]
    have := asum_nonneg (runOps (initDS id role) ops).tables table_total table_total_nonneg
    omega
  · intro tid t rid s h1 h2
    have htInv := hall _ (alookup_mem _ _ _ h1)
    obtain ⟨hndr, hfall, hszeq⟩ := tableInv_spec htInv
    rw [hszeq] at h2
    cases hrec : alookup t.records rid with
    | none =>
      rw [alookup_sizes_of_none _ _ hrec] at h2
      cases h2
    | some f =>
      rw [alookup_sizes_of_some _ _ _ hrec] at h2
      cases h2
      exact compute_record_size_pos f

/-- Witness for C4: the invariant holds after a concrete insert,
update and delete sequence. -/
theorem C4_witness :
    dsInv (runOps (initDS "w" OWNER)
      [Op.insert "t1" "r1" [("x", Value.atom (Atom.aInt 3))],
       Op.update "t1" "r1" [("x", Value.atom (Atom.aStr "hi"))],
       Op.delete "t1" "r1"]) = true :=
  (C4_size_invariant "w" OWNER
    [Op.insert "t1" "r1" [("x", Value.atom (Atom.aInt 3))],
     Op.update "t1" "r1" [("x", Value.atom (Atom.aStr "hi"))],
     Op.delete "t1" "r1"]).1

/-! ## C1: the inversion law

`invert` of the change staged by a legal single mutation, applied to
the post-state, restores the pre-state.  Records are compared
observationally (dict lookups), since association-list order is an
artifact of the embedding; every stored field value is restored
exactly, lists element-by-element. -/

theorem get_opt_drop_cons {α : Type} :
    ∀ (l : List α) (i : Nat) (a : α),
      l.get? i = some a → i < l.length ∧ l.drop i = a :: l.drop (i + 1) := by
  intro l
  induction l with
  | nil =>
    intro i a h
    cases i <;> cases h
  | cons x t ih =>
    intro i a h
    cases i with
    | zero =>
      cases h
      exact ⟨Nat.succ_pos _, rfl⟩
    | succ n =>
      obtain ⟨h1, h2⟩ := ih n a h
      exact ⟨Nat.succ_lt_succ h1, h2⟩

theorem take_seg {α : Type} (a : List α) (i : Nat) (rest : List α) (h : i ≤ a.length) :
    (a.take i ++ rest).take i = a.take i :=
  List.take_left' (List.length_take_of_le h)

theorem drop_seg {α : Type} (a : List α) (i : Nat) (rest : List α) (h : i ≤ a.length) :
    (a.take i ++ rest).drop i = rest :=
  List.drop_left' (List.length_take_of_le h)

theorem take_one_drop {α : Type} (a : List α) (i : Nat) (hi : i < a.length) :
    (a.drop i).take 1 = [a.get ⟨i, hi⟩] := by
  have hcons : a.get ⟨i, hi⟩ :: a.drop (i + 1) = a.drop i := by
    simpa using List.getElem_cons_drop a i hi
  rw [← hcons]
  rfl

theorem restore_put {α : Type} (a : List α) (i : Nat) (x old : α)
    (hget : a.get? i = some old) :
    (a.take i ++ [x] ++ a.drop (i + 1)).take i ++ [old] ++
      (a.take i ++ [x] ++ a.drop (i + 1)).drop (i + 1) = a := by
  obtain ⟨hi, hdrop⟩ := get_opt_drop_cons a i old hget
  have hle : i ≤ a.length := le_of_lt hi
  have h1 : (a.take i ++ [x] ++ a.drop (i + 1)).take i = a.take i := by
    rw [List.append_assoc]
    exact take_seg a i _ hle
  have h2 : (a.take i ++ [x] ++ a.drop (i + 1)).drop (i + 1) = a.drop (i + 1) := by
    have hlen : (a.take i ++ [x]).length = i + 1 := by
      simp [List.length_take_of_le hle]
    exact List.drop_left' hlen
  rw [h1, h2, List.append_assoc]
  rw [show ([old] ++ a.drop (i + 1) : List α) = a.drop i from hdrop.symm]
  exact List.take_append_drop i a

theorem restore_insert {α : Type} (a : List α) (i : Nat) (x : α) (h : i ≤ a.length) :
    (a.take i ++ [x] ++ a.drop i).take i ++
      (a.take i ++ [x] ++ a.drop i).drop (i + 1) = a := by
  have h1 : (a.take i ++ [x] ++ a.drop i).take i = a.take i := by
    rw [List.append_assoc]
    exact take_seg a i _ h
  have h2 : (a.take i ++ [x] ++ a.drop i).drop (i + 1) = a.drop i := by
    have hlen : (a.take i ++ [x]).length = i + 1 := by
      simp [List.length_take_of_le h]
    exact List.drop_left' hlen
  rw [h1, h2]
  exact List.take_append_drop i a

theorem restore_delete {α : Type} (a : List α) (i : Nat) (old : α)
    (hget : a.get? i = some old) :
    (a.take i ++ a.drop (i + 1)).take i ++ [old] ++
      (a.take i ++ a.drop (i + 1)).drop i = a := by
  obtain ⟨hi, hdrop⟩ := get_opt_drop_cons a i old hget
  have hle : i ≤ a.length := le_of_lt hi
  rw [take_seg a i _ hle, drop_seg a i _ hle, List.append_assoc]
  rw [show ([old] ++ a.drop (i + 1) : List α) = a.drop i from hdrop.symm]
  exact List.take_append_drop i a

theorem list_move_self {α : Type} (a : List α) (i : Nat) (hi : i < a.length) :
    list_move a i i = a := by
  unfold list_move
  rw [if_pos (Nat.le_refl i), Nat.sub_self, List.take_zero,
      take_one_drop a i hi]
  have hcons : a.get ⟨i, hi⟩ :: a.drop (i + 1) = a.drop i := by
    simpa using List.getElem_cons_drop a i hi
  rw [List.append_nil, List.append_assoc]
  rw [show ([a.get ⟨i, hi⟩] ++ a.drop (i + 1) : List α) = a.drop i from hcons]
  exact List.take_append_drop i a

theorem list_move_involution {α : Type} (a : List α) (i j : Nat)
    (hi : i < a.length) (hj : j < a.length) :
    list_move (list_move a i j) j i = a := by
  rcases Nat.lt_trichotomy i j with hij | hij | hij
  · have hle_i : i ≤ a.length := le_of_lt hi
    have hm : list_move a i j =
        a.take i ++ ((a.drop (i + 1)).take (j - i) ++
          ((a.drop i).take 1 ++ a.drop (j + 1))) := by
      unfold list_move
      rw [if_pos (le_of_lt hij)]
      simp [List.append_assoc]
    have hdropi : (list_move a i j).drop i =
        (a.drop (i + 1)).take (j - i) ++ ((a.drop i).take 1 ++ a.drop (j + 1)) := by
      rw [hm]
      exact drop_seg a i _ hle_i
    have hlen1 : ((a.drop (i + 1)).take (j - i)).length = j - i := by
      refine List.length_take_of_le ?_
      simp
      omega
    have hdropj : (list_move a i j).drop j =
        (a.drop i).take 1 ++ a.drop (j + 1) := by
      have : (list_move a i j).drop j = ((list_move a i j).drop i).drop (j - i) := by
        rw [List.drop_drop]
        congr 1
        omega
      rw [this, hdropi]
      exact List.drop_left' hlen1
    have htake1 : (a.drop i).take 1 = [a.get ⟨i, hi⟩] := take_one_drop a i hi
    have hrev : list_move (list_move a i j) j i =
        (list_move a i j).take i ++ ((list_move a i j).drop j).take 1 ++
          ((list_move a i j).drop i).take (j - i) ++ (list_move a i j).drop (j + 1) := by
      unfold list_move
      rw [if_neg (by omega : ¬j ≤ i)]
    have h1 : (list_move a i j).take i = a.take i := by
      rw [hm]
      exact take_seg a i _ hle_i
    have h2 : ((list_move a i j).drop j).take 1 = [a.get ⟨i, hi⟩] := by
      rw [hdropj, htake1]
      exact List.take_left' rfl
    have h3 : ((list_move a i j).drop i).take (j - i) =
        (a.drop (i + 1)).take (j - i) := by
      rw [hdropi]
      exact List.take_left' hlen1
    have h4 : (list_move a i j).drop (j + 1) = a.drop (j + 1) := by
      have : (list_move a i j).drop (j + 1) = ((list_move a i j).drop j).drop 1 := by
        rw [List.drop_drop]
      rw [this, hdropj, htake1]
      exact List.drop_left' rfl
    rw [hrev, h1, h2, h3, h4]
    have hta : a.take i ++ [a.get ⟨i, hi⟩] = a.take (i + 1) := by
      rw [List.take_add a i 1, take_one_drop a i hi]
    rw [List.append_assoc, List.append_assoc, ← List.append_assoc (a.take i),
        hta, ← List.append_assoc]
    rw [show (a.take (i + 1) ++ (a.drop (i + 1)).take (j - i) : List α) =
        a.take (j + 1) from by
      rw [← List.take_add]
      congr 1
      omega]
    rw [show ((a.drop (i + 1)).take (j - i) : List α) =
        (a.drop (i + 1)).take (j - i) from rfl] at *
    exact List.take_append_drop (j + 1) a
  · subst hij
    rw [list_move_self a i hi, list_move_self a i hi]
  · have hle_j : j ≤ a.length := le_of_lt hj
    have hm : list_move a i j =
        a.take j ++ ((a.drop i).take 1 ++
          ((a.drop j).take (i - j) ++ a.drop (i + 1))) := by
      unfold list_move
      rw [if_neg (by omega : ¬i ≤ j)]
      simp [List.append_assoc]
    have hdropj : (list_move a i j).drop j =
        (a.drop i).take 1 ++ ((a.drop j).take (i - j) ++ a.drop (i + 1)) := by
      rw [hm]
      exact drop_seg a j _ hle_j
    have htake1 : (a.drop i).take 1 = [a.get ⟨i, hi⟩] := take_one_drop a i hi
    have hlen2 : ((a.drop j).take (i - j)).length = i - j := by
      refine List.length_take_of_le ?_
      simp
      omega
    have hdropj1 : (list_move a i j).drop (j + 1) =
        (a.drop j).take (i - j) ++ a.drop (i + 1) := by
      have : (list_move a i j).drop (j + 1) = ((list_move a i j).drop j).drop 1 := by
        rw [List.drop_drop]
      rw [this, hdropj, htake1]
      exact List.drop_left' rfl
    have hrev : list_move (list_move a i j) j i =
        (list_move a i j).take j ++ ((list_move a i j).drop (j + 1)).take (i - j) ++
          ((list_move a i j).drop j).take 1 ++ (list_move a i j).drop (i + 1) := by
      unfold list_move
      rw [if_pos (by omega : j ≤ i)]
    have h1 : (list_move a i j).take j = a.take j := by
      rw [hm]
      exact take_seg a j _ hle_j
    have h2 : ((list_move a i j).drop (j + 1)).take (i - j) =
        (a.drop j).take (i - j) := by
      rw [hdropj1]
      exact List.take_left' hlen2
    have h3 : ((list_move a i j).drop j).take 1 = [a.get ⟨i, hi⟩] := by
      rw [hdropj, htake1]
      exact List.take_left' rfl
    have h4 : (list_move a i j).drop (i + 1) = a.drop (i + 1) := by
      have hstep : (list_move a i j).drop (i + 1) =
          ((list_move a i j).drop (j + 1)).drop (i - j) := by
        rw [List.drop_drop]
        congr 1
        omega
      rw [hstep, hdropj1]
      exact List.drop_left' hlen2
    rw [hrev, h1, h2, h3, h4]
    rw [show (a.take j ++ (a.drop j).take (i - j) : List α) = a.take i from by
      rw [← List.take_add]
      congr 1
      omega]
    rw [List.append_assoc]
    have hcons : a.get ⟨i, hi⟩ :: a.drop (i + 1) = a.drop i := by
      simpa using List.getElem_cons_drop a i hi
    rw [show ([a.get ⟨i, hi⟩] ++ a.drop (i + 1) : List α) = a.drop i from hcons]
    exact List.take_append_drop i a

theorem aset_aset {α : Type} (k : String) (v w : α) :
    ∀ l : List (String × α), aset (aset l k v) k w = aset l k w := by
  intro l
  induction l with
  | nil => simp [aset]
  | cons p t ih =>
    obtain ⟨k0, v0⟩ := p
    by_cases hk : k0 = k
    · subst hk
      simp [aset]
    · simp only [aset, if_neg hk]
      rw [ih]

theorem aset_lookup_self {α : Type} (k : String) :
    ∀ (l : List (String × α)) (w : α), alookup l k = some w → aset l k w = l := by
  intro l
  induction l with
  | nil =>
    intro w h
    cases h
  | cons p t ih =>
    obtain ⟨k0, v0⟩ := p
    intro w h
    simp only [alookup] at h
    by_cases hk : k0 = k
    · rw [if_pos hk] at h
      cases h
      subst hk
      simp [aset]
    · rw [if_neg hk] at h
      simp only [aset, if_neg hk]
      rw [ih w h]

theorem adel_aset_absent {α : Type} (k : String) (v : α) :
    ∀ l : List (String × α), alookup l k = none → adel (aset l k v) k = l := by
  intro l
  induction l with
  | nil =>
    intro _
    simp [aset, adel]
  | cons p t ih =>
    obtain ⟨k0, v0⟩ := p
    intro h
    simp only [alookup] at h
    by_cases hk : k0 = k
    · rw [if_pos hk] at h
      cases h
    · rw [if_neg hk] at h
      simp only [aset, if_neg hk, adel, if_neg hk]
      rw [ih h]

theorem alookup_append_ne {α : Type} (k u : String) (v : α) (hne : u ≠ k) :
    ∀ l : List (String × α), alookup (l ++ [(k, v)]) u = alookup l u := by
  intro l
  induction l with
  | nil =>
    simp only [List.nil_append, alookup]
    rw [if_neg (fun he => hne he.symm)]
  | cons p t ih =>
    obtain ⟨k0, v0⟩ := p
    simp only [List.cons_append, alookup]
    by_cases hk : k0 = u
    · rw [if_pos hk, if_pos hk]
    · rw [if_neg hk, if_neg hk]
      exact ih

/-- Observational equality of two optional records: both absent, or
both present with the same value under every field lookup. -/
def recEq : Option Fields → Option Fields → Prop
  | none, none => True
  | some f, some g => ∀ k, alookup f k = alookup g k
  | _, _ => False

/-- Observational equality of two datastores: every table and record
lookup agrees, field by field. -/
def obsEq (ds2 ds : DS) : Prop :=
  ∀ tid rid, recEq (alookup (table_records ds2 tid) rid)
    (alookup (table_records ds tid) rid)

theorem recEq_refl (o : Option Fields) : recEq o o := by
  cases o with
  | none => trivial
  | some f => intro k; rfl

theorem recEq_of_eq {o1 o2 : Option Fields} (h : o1 = o2) : recEq o1 o2 := by
  rw [h]
  exact recEq_refl o2

theorem obsEq_intro {ds2 ds : DS} (tid : String)
    (hother : ∀ u, u ≠ tid → alookup ds2.tables u = alookup ds.tables u)
    (hsame : ∀ rid, recEq (alookup (table_records ds2 tid) rid)
      (alookup (table_records ds tid) rid)) :
    obsEq ds2 ds := by
  intro u rid
  by_cases hu : u = tid
  · subst hu
    exact hsame rid
  · unfold table_records
    rw [hother u hu]
    exact recEq_refl _

/-- No stored field value is the Python `None` (true of every state the
engine can construct: inserts reject `None` values and updates delete
the field instead of storing `None`). -/
def noVnone (ds : DS) : Bool :=
  ds.tables.all fun p => p.2.records.all fun q => q.2.all fun r =>
    decide (r.2 ≠ Value.vnone)

theorem noVnone_lookup {ds : DS} {tid rid field : String} {t : TableM} {f : Fields}
    (hnn : noVnone ds = true) (halk : alookup ds.tables tid = some t)
    (hrec : alookup t.records rid = some f) (hv : pyGet f field = Value.vnone) :
    alookup f field = none := by
  cases hx : alookup f field with
  | none => rfl
  | some w =>
    have hw : w = Value.vnone := by
      unfold pyGet at hv
      rw [hx] at hv
      simpa using hv
    subst hw
    unfold noVnone at hnn
    simp only [List.all_eq_true, decide_eq_true_eq] at hnn
    exact absurd rfl
      (hnn _ (alookup_mem _ _ _ halk) _ (alookup_mem _ _ _ hrec) _
        (alookup_mem _ _ _ hx))

theorem osz_eq (v : Value) :
    (if v ≠ Value.vnone then compute_field_size v else 0) = compute_field_size v := by
  by_cases h : v = Value.vnone
  · subst h
    simp [compute_field_size]
  · rw [if_pos h]

theorem field_msize (fields : Fields) (field : String) :
    msize compute_field_size fields field = compute_field_size (pyGet fields field) := by
  unfold msize pyGet
  cases hx : alookup fields field with
  | none => simp [compute_field_size]
  | some w => simp

theorem apply_update_ops_spec :
    ∀ {ops : List (String × FieldOp)} {fields fields2 : Fields} {o n : ℤ},
      nodupKeys fields →
      apply_update_ops fields ops = Except.ok (fields2, o, n) →
      nodupKeys fields2 ∧
        asum fields2 compute_field_size = asum fields compute_field_size - o + n := by
  intro ops
  induction ops with
  | nil =>
    intro fields fields2 o n hnd h
    unfold apply_update_ops at h
    cases h
    exact ⟨hnd, by ring⟩
  | cons p rest ih =>
    intro fields fields2 o n hnd h
    obtain ⟨field, val⟩ := p
    simp only [apply_update_ops] at h
    cases val with
    | ValuePut v =>
      dsimp only at h
      cases hrec2 : apply_update_ops (aset fields field v) rest with
      | error e =>
        rw [hrec2] at h
        simp at h
      | ok tup =>
        obtain ⟨f2, o2, n2⟩ := tup
        rw [hrec2] at h
        simp only [except_bind_ok] at h
        cases h
        obtain ⟨hnd2, hsum⟩ := ih (nodupKeys_aset _ _ _ hnd) hrec2
        refine ⟨hnd2, ?_⟩
        rw [hsum, asum_aset _ _ _ _ hnd, osz_eq, field_msize]
        ring
    | ValueDelete =>
      dsimp only at h
      by_cases hpres : alookup fields field = none
      · rw [if_pos hpres] at h
        cases h
      · rw [if_neg hpres] at h
        cases hrec2 : apply_update_ops (adel fields field) rest with
        | error e =>
          rw [hrec2] at h
          simp at h
        | ok tup =>
          obtain ⟨f2, o2, n2⟩ := tup
          rw [hrec2] at h
          simp only [except_bind_ok] at h
          cases h
          obtain ⟨hnd2, hsum⟩ := ih (nodupKeys_adel _ _ hnd) hrec2
          refine ⟨hnd2, ?_⟩
          rw [hsum, asum_adel, osz_eq, field_msize]
          ring
    | ListCreate =>
      dsimp only at h
      cases hlo : apply_listop (pyGet fields field) FieldOp.ListCreate with
      | error e =>
        rw [hlo] at h
        simp at h
      | ok nl =>
        rw [hlo] at h
        simp only [except_bind_ok] at h
        cases hrec2 : apply_update_ops (aset fields field nl) rest with
        | error e =>
          rw [hrec2] at h
          simp at h
        | ok tup =>
          obtain ⟨f2, o2, n2⟩ := tup
          rw [hrec2] at h
          simp only [except_bind_ok] at h
          cases h
          obtain ⟨hnd2, hsum⟩ := ih (nodupKeys_aset _ _ _ hnd) hrec2
          refine ⟨hnd2, ?_⟩
          rw [hsum, asum_aset _ _ _ _ hnd, osz_eq, field_msize]
          ring
    | ListPut i v =>
      dsimp only at h
      cases hlo : apply_listop (pyGet fields field) (FieldOp.ListPut i v) with
      | error e =>
        rw [hlo] at h
        simp at h
      | ok nl =>
        rw [hlo] at h
        simp only [except_bind_ok] at h
        cases hrec2 : apply_update_ops (aset fields field nl) rest with
        | error e =>
          rw [hrec2] at h
          simp at h
        | ok tup =>
          obtain ⟨f2, o2, n2⟩ := tup
          rw [hrec2] at h
          simp only [except_bind_ok] at h
          cases h
          obtain ⟨hnd2, hsum⟩ := ih (nodupKeys_aset _ _ _ hnd) hrec2
          refine ⟨hnd2, ?_⟩
          rw [hsum, asum_aset _ _ _ _ hnd, osz_eq, field_msize]
          ring
    | ListInsert i v =>
      dsimp only at h
      cases hlo : apply_listop (pyGet fields field) (FieldOp.ListInsert i v) with
      | error e =>
        rw [hlo] at h
        simp at h
      | ok nl =>
        rw [hlo] at h
        simp only [except_bind_ok] at h
        cases hrec2 : apply_update_ops (aset fields field nl) rest with
        | error e =>
          rw [hrec2] at h
          simp at h
        | ok tup =>
          obtain ⟨f2, o2, n2⟩ := tup
          rw [hrec2] at h
          simp only [except_bind_ok] at h
          cases h
          obtain ⟨hnd2, hsum⟩ := ih (nodupKeys_aset _ _ _ hnd) hrec2
          refine ⟨hnd2, ?_⟩
          rw [hsum, asum_aset _ _ _ _ hnd, osz_eq, field_msize]
          ring
    | ListDelete i =>
      dsimp only at h
      cases hlo : apply_listop (pyGet fields field) (FieldOp.ListDelete i) with
      | error e =>
        rw [hlo] at h
        simp at h
      | ok nl =>
        rw [hlo] at h
        simp only [except_bind_ok] at h
        cases hrec2 : apply_update_ops (aset fields field nl) rest with
        | error e =>
          rw [hrec2] at h
          simp at h
        | ok tup =>
          obtain ⟨f2, o2, n2⟩ := tup
          rw [hrec2] at h
          simp only [except_bind_ok] at h
          cases h
          obtain ⟨hnd2, hsum⟩ := ih (nodupKeys_aset _ _ _ hnd) hrec2
          refine ⟨hnd2, ?_⟩
          rw [hsum, asum_aset _ _ _ _ hnd, osz_eq, field_msize]
          ring
    | ListMove i j =>
      dsimp only at h
      cases hlo : apply_listop (pyGet fields field) (FieldOp.ListMove i j) with
      | error e =>
        rw [hlo] at h
        simp at h
      | ok nl =>
        rw [hlo] at h
        simp only [except_bind_ok] at h
        cases hrec2 : apply_update_ops (aset fields field nl) rest with
        | error e =>
          rw [hrec2] at h
          simp at h
        | ok tup =>
          obtain ⟨f2, o2, n2⟩ := tup
          rw [hrec2] at h
          simp only [except_bind_ok] at h
          cases h
          obtain ⟨hnd2, hsum⟩ := ih (nodupKeys_aset _ _ _ hnd) hrec2
          refine ⟨hnd2, ?_⟩
          rw [hsum, asum_aset _ _ _ _ hnd, osz_eq, field_msize]
          ring

/-- The shape of every update-kind mutation's post-state: one record's
fields replaced and its cached size updated, one change appended. -/
def dsUpd (ds : DS) (tid rid : String) (t : TableM) (f1 : Fields) (c : Change)
    (d s : ℤ) : DS :=
  { ds with
    tables := aset ds.tables tid
      ⟨aset t.records rid f1, aset t.record_sizes rid s⟩,
    changes := ds.changes ++ [c],
    size := ds.size + d,
    pending_changes_size := ds.pending_changes_size + c.size }

theorem apply_change_inverse_update {ds : DS} {tid rid : String} {t : TableM}
    {fields0 f1 f2 : Fields} {c : Change} {ciops : List (String × FieldOp)}
    {ciundo : CSlot} {d s o2 n2 : ℤ}
    (hinv : dsInv ds = true)
    (halk : alookup ds.tables tid = some t)
    (hrec : alookup t.records rid = some fields0)
    (hnd1 : nodupKeys f1)
    (hs : s = compute_record_size_for_fields f1)
    (hd : compute_record_size_for_fields fields0 + d = compute_record_size_for_fields f1)
    (happ : apply_update_ops f1 ciops = Except.ok (f2, o2, n2))
    (hf2 : ∀ k, alookup f2 k = alookup fields0 k)
    (hcomp : compute_record_size_for_fields f2 = compute_record_size_for_fields fields0) :
    ∃ ds2, apply_change (dsUpd ds tid rid t f1 c d s)
        ⟨.UPDATE, tid, rid, .opsS ciops, ciundo⟩ = Except.ok (ds2, tid, rid) ∧
      obsEq ds2 ds := by
  obtain ⟨hndt, hall, hcount, hsize⟩ := dsInv_spec hinv
  obtain ⟨hnd2, hsum⟩ := apply_update_ops_spec hnd1 happ
  have hpos0 := compute_record_size_pos fields0
  have hpos1 := compute_record_size_pos f1
  have hdelta : n2 - o2 = -d := by
    have h2 := hcomp
    have h3 := hd
    unfold compute_record_size_for_fields at h2 h3
    omega
  have ht1 : alookup (dsUpd ds tid rid t f1 c d s).tables tid =
      some (⟨aset t.records rid f1, aset t.record_sizes rid s⟩ : TableM) := by
    show alookup (aset ds.tables tid
      ⟨aset t.records rid f1, aset t.record_sizes rid s⟩) tid = _
    rw [alookup_aset_self]
  have hgt : get_table (dsUpd ds tid rid t f1 c d s) tid =
      Except.ok (dsUpd ds tid rid t f1 c d s,
        (⟨aset t.records rid f1, aset t.record_sizes rid s⟩ : TableM)) := by
    unfold get_table
    rw [ht1]
  have hs0 : ¬s = 0 := by omega
  have hgrs : get_record_size
      (⟨aset t.records rid f1, aset t.record_sizes rid s⟩ : TableM) rid =
      Except.ok s := by
    unfold get_record_size
    simp only [alookup_aset_self]
    rw [if_neg hs0]
  have hcurr : s + (n2 - o2) = compute_record_size_for_fields fields0 := by
    rw [hdelta, hs]
    omega
  have hsz_ok : ¬((dsUpd ds tid rid t f1 c d s).size + (n2 - o2) <
      BASE_DATASTORE_SIZE) := by
    have h0 : (dsUpd ds tid rid t f1 c d s).size = ds.size + d := rfl
    have h1 : 0 ≤ asum ds.tables table_total := asum_nonneg _ _ table_total_nonneg
    rw [h0, hdelta]
    omega
  have hupd : update_record_fields (dsUpd ds tid rid t f1 c d s) tid rid (some f2)
      (n2 - o2) = Except.ok { dsUpd ds tid rid t f1 c d s with
        tables := aset (dsUpd ds tid rid t f1 c d s).tables tid
          ⟨aset (aset t.records rid f1) rid f2,
           aset (aset t.record_sizes rid s) rid (s + (n2 - o2))⟩,
        record_count := (dsUpd ds tid rid t f1 c d s).record_count +
          (if s = 0 then 1 else 0),
        size := (dsUpd ds tid rid t f1 c d s).size + (n2 - o2) } := by
    unfold update_record_fields
    rw [ht1]
    simp only [except_bind_ok]
    rw [hgrs]
    simp only [except_bind_ok]
    rw [if_neg (by omega : ¬s + (n2 - o2) < 0), if_neg hsz_ok,
        if_pos (by omega : s + (n2 - o2) ≠ 0)]
  have hmain : apply_change (dsUpd ds tid rid t f1 c d s)
      ⟨.UPDATE, tid, rid, .opsS ciops, ciundo⟩ =
      Except.ok ({ dsUpd ds tid rid t f1 c d s with
        tables := aset (dsUpd ds tid rid t f1 c d s).tables tid
          ⟨aset (aset t.records rid f1) rid f2,
           aset (aset t.record_sizes rid s) rid (s + (n2 - o2))⟩,
        record_count := (dsUpd ds tid rid t f1 c d s).record_count +
          (if s = 0 then 1 else 0),
        size := (dsUpd ds tid rid t f1 c d s).size + (n2 - o2) }, tid, rid) := by
    simp only [apply_change]
    rw [hgt]
    simp only [except_bind_ok, alookup_aset_self]
    rw [happ]
    simp only [except_bind_ok]
    rw [hupd]
    simp only [except_bind_ok]
  have hobs : ∀ ds2 : DS, ds2.tables = aset (aset ds.tables tid
      (⟨aset t.records rid f1, aset t.record_sizes rid s⟩ : TableM)) tid
      (⟨aset (aset t.records rid f1) rid f2,
        aset (aset t.record_sizes rid s) rid (s + (n2 - o2))⟩ : TableM) →
      obsEq ds2 ds := by
    intro ds2 htab
    refine obsEq_intro tid ?_ ?_
    · intro u hu
      rw [htab, alookup_aset_ne _ _ _ _ (fun he => hu he.symm),
          alookup_aset_ne _ _ _ _ (fun he => hu he.symm)]
    · intro rid2
      have h2t : table_records ds2 tid =
          aset (aset t.records rid f1) rid f2 := by
        unfold table_records
        rw [htab, alookup_aset_self]
      have hdt : table_records ds tid = t.records := by
        unfold table_records
        rw [halk]
      rw [h2t, hdt, aset_aset]
      by_cases hr2 : rid2 = rid
      · subst hr2
        rw [alookup_aset_self, hrec]
        exact hf2
      · rw [alookup_aset_ne _ _ _ _ (fun he => hr2 he.symm)]
        exact recEq_refl _
  exact ⟨_, hmain, hobs _ rfl⟩

theorem asum_ge_mem {α : Type} (g : α → ℤ) (k : String) (hg : ∀ w, 0 ≤ g w) :
    ∀ (l : List (String × α)) (v : α), alookup l k = some v → g v ≤ asum l g := by
  intro l
  induction l with
  | nil =>
    intro v h
    cases h
  | cons p t ih =>
    obtain ⟨k0, v0⟩ := p
    intro v h
    simp only [alookup] at h
    simp only [asum, List.map_cons, List.sum_cons]
    by_cases hk : k0 = k
    · rw [if_pos hk] at h
      cases h
      have : 0 ≤ asum t g := asum_nonneg t g hg
      simp only [asum] at this
      omega
    · rw [if_neg hk] at h
      have := ih v h
      simp only [asum] at this
      have h0 := hg v0
      omega

theorem size_ge_record {ds : DS} {tid rid : String} {t : TableM} {fields0 : Fields}
    (hinv : dsInv ds = true) (halk : alookup ds.tables tid = some t)
    (hrec : alookup t.records rid = some fields0) :
    BASE_DATASTORE_SIZE + compute_record_size_for_fields fields0 ≤ ds.size := by
  obtain ⟨hndt, hall, hcount, hsize⟩ := dsInv_spec hinv
  have h1 : table_total t ≤ asum ds.tables table_total :=
    asum_ge_mem table_total tid table_total_nonneg ds.tables t halk
  have h2 : compute_record_size_for_fields fields0 ≤ table_total t :=
    asum_ge_mem compute_record_size_for_fields rid
      (fun f => le_of_lt (compute_record_size_pos f)) t.records fields0 hrec
  omega

theorem change_eq_of_append {l : List Change} {a b : Change}
    (h : l ++ [a] = l ++ [b]) : a = b := by
  have h2 := List.append_cancel_left h
  simpa using h2

/-- `_update_record_fields` on a present record with a replacement
fields dict: the put branch. -/
theorem update_record_fields_put {ds : DS} {tid rid : String} {t : TableM}
    {fields0 f1 : Fields} {d : ℤ}
    (hinvT : tableInv t = true)
    (halk : alookup ds.tables tid = some t)
    (hrec : alookup t.records rid = some fields0)
    (hd : compute_record_size_for_fields fields0 + d = compute_record_size_for_fields f1)
    (hsz : ¬(ds.size + d < BASE_DATASTORE_SIZE)) :
    update_record_fields ds tid rid (some f1) d =
      Except.ok { ds with
        tables := aset ds.tables tid
          ⟨aset t.records rid f1,
           aset t.record_sizes rid (compute_record_size_for_fields f1)⟩,
        size := ds.size + d } := by
  have hgrs := get_record_size_inv hinvT rid
  have hcs : cached_size t rid = compute_record_size_for_fields fields0 := by
    unfold cached_size msize
    rw [hrec]
  rw [hcs] at hgrs
  have hp0 := compute_record_size_pos fields0
  have hp1 := compute_record_size_pos f1
  unfold update_record_fields
  rw [halk]
  simp only [except_bind_ok]
  rw [hgrs]
  simp only [except_bind_ok]
  rw [if_neg (by omega : ¬compute_record_size_for_fields fields0 + d < 0),
      if_neg hsz, if_pos (by omega : compute_record_size_for_fields fields0 + d ≠ 0)]
  rw [show compute_record_size_for_fields fields0 + d =
      compute_record_size_for_fields f1 from hd]
  rw [if_neg (by omega : ¬compute_record_size_for_fields fields0 = 0)]
  rw [add_zero]

/-- `_update_record_fields` deleting a present record. -/
theorem update_record_fields_del {ds : DS} {tid rid : String} {t : TableM}
    {fields0 : Fields}
    (hinvT : tableInv t = true)
    (halk : alookup ds.tables tid = some t)
    (hrec : alookup t.records rid = some fields0)
    (hsz : ¬(ds.size + -compute_record_size_for_fields fields0 < BASE_DATASTORE_SIZE)) :
    update_record_fields ds tid rid none (-compute_record_size_for_fields fields0) =
      Except.ok { ds with
        tables := aset ds.tables tid ⟨adel t.records rid, adel t.record_sizes rid⟩,
        record_count := ds.record_count - 1,
        size := ds.size + -compute_record_size_for_fields fields0 } := by
  obtain ⟨hndr, hfall, hszeq⟩ := tableInv_spec hinvT
  have hgrs := get_record_size_inv hinvT rid
  have hcs : cached_size t rid = compute_record_size_for_fields fields0 := by
    unfold cached_size msize
    rw [hrec]
  rw [hcs] at hgrs
  have hlks : alookup t.record_sizes rid =
      some (compute_record_size_for_fields fields0) := by
    rw [hszeq]
    exact alookup_sizes_of_some _ _ _ hrec
  unfold update_record_fields
  rw [halk]
  simp only [except_bind_ok]
  rw [hgrs]
  simp only [except_bind_ok]
  rw [if_neg (by omega :
        ¬compute_record_size_for_fields fields0 +
          -compute_record_size_for_fields fields0 < 0),
      if_neg hsz,
      if_neg (by omega :
        ¬compute_record_size_for_fields fields0 +
          -compute_record_size_for_fields fields0 ≠ 0),
      if_neg (by rw [hlks]; simp : ¬alookup t.record_sizes rid = none),
      if_neg (by rw [hrec]; simp : ¬alookup t.records rid = none)]

/-- `_update_record_fields` inserting a fresh record. -/
theorem update_record_fields_new {ds : DS} {tid rid : String} {t : TableM}
    {fields : Fields}
    (hinvT : tableInv t = true)
    (halk : alookup ds.tables tid = some t)
    (hrec : alookup t.records rid = none)
    (hsz : ¬(ds.size + compute_record_size_for_fields fields < BASE_DATASTORE_SIZE)) :
    update_record_fields ds tid rid (some fields)
        (compute_record_size_for_fields fields) =
      Except.ok { ds with
        tables := aset ds.tables tid
          ⟨aset t.records rid fields,
           aset t.record_sizes rid (compute_record_size_for_fields fields)⟩,
        record_count := ds.record_count + 1,
        size := ds.size + compute_record_size_for_fields fields } := by
  have hgrs := get_record_size_inv hinvT rid
  have hcs : cached_size t rid = 0 := by
    unfold cached_size msize
    rw [hrec]
  rw [hcs] at hgrs
  have hp := compute_record_size_pos fields
  unfold update_record_fields
  rw [halk]
  simp only [except_bind_ok]
  rw [hgrs]
  simp only [except_bind_ok]
  rw [if_neg (by omega : ¬(0 : ℤ) + compute_record_size_for_fields fields < 0),
      if_neg hsz,
      if_pos (by omega : (0 : ℤ) + compute_record_size_for_fields fields ≠ 0)]
  norm_num

theorem loop_single_put (fields0 : Fields) (field : String) (v : Value)
    (hvf : is_valid_id field = true) (hvn : ¬v = Value.vnone) :
    record_update_loop fields0 [(field, v)] =
      Except.ok (aset fields0 field v, [(field, FieldOp.ValuePut v)],
        [(field, pyGet fields0 field)],
        compute_field_size (pyGet fields0 field) + 0,
        compute_field_size v + 0) := by
  simp only [record_update_loop]
  rw [if_neg (not_not_intro hvf), if_neg hvn]
  rfl

theorem loop_single_del (fields0 : Fields) (field : String)
    (hvf : is_valid_id field = true)
    (htr : pyTruthy (pyGet fields0 field) = true) :
    record_update_loop fields0 [(field, Value.vnone)] =
      Except.ok (adel fields0 field, [(field, FieldOp.ValueDelete)],
        [(field, pyGet fields0 field)],
        compute_field_size (pyGet fields0 field) + 0, 0) := by
  simp only [record_update_loop]
  rw [if_neg (not_not_intro hvf), if_pos True.intro, if_pos htr]
  rfl

theorem apply_single_put (f1 : Fields) (field : String) (v : Value) :
    apply_update_ops f1 [(field, FieldOp.ValuePut v)] =
      Except.ok (aset f1 field v,
        (if pyGet f1 field ≠ Value.vnone then
          compute_field_size (pyGet f1 field) else 0) + 0,
        compute_field_size v + 0) := rfl

theorem apply_single_del (f1 : Fields) (field : String) (w : Value)
    (hlk : alookup f1 field = some w) :
    apply_update_ops f1 [(field, FieldOp.ValueDelete)] =
      Except.ok (adel f1 field,
        (if pyGet f1 field ≠ Value.vnone then
          compute_field_size (pyGet f1 field) else 0) + 0, 0) := by
  simp only [apply_update_ops]
  rw [if_neg (show ¬alookup f1 field = none from by rw [hlk]; simp)]
  rfl

theorem apply_single_listop (f1 : Fields) (field : String) (op : FieldOp) (nl : Value)
    (hop : is_listop op = true)
    (hlo : apply_listop (pyGet f1 field) op = Except.ok nl) :
    apply_update_ops f1 [(field, op)] =
      Except.ok (aset f1 field nl,
        (if pyGet f1 field ≠ Value.vnone then
          compute_field_size (pyGet f1 field) else 0) + 0,
        compute_field_size nl + 0) := by
  cases op with
  | ValuePut v => cases hop
  | ValueDelete => cases hop
  | ListCreate =>
    simp only [apply_update_ops]
    rw [hlo]
    rfl
  | ListPut i v =>
    simp only [apply_update_ops]
    rw [hlo]
    rfl
  | ListInsert i v =>
    simp only [apply_update_ops]
    rw [hlo]
    rfl
  | ListDelete i =>
    simp only [apply_update_ops]
    rw [hlo]
    rfl
  | ListMove i j =>
    simp only [apply_update_ops]
    rw [hlo]
    rfl

theorem invert_single_insert (tid rid : String) (f : Fields) :
    Change.invert ⟨.INSERT, tid, rid, .fieldsS f, .noneS⟩ =
      Except.ok ⟨.DELETE, tid, rid, .noneS, .fieldsS f⟩ := rfl

theorem invert_single_delete (tid rid : String) (f : Fields) :
    Change.invert ⟨.DELETE, tid, rid, .noneS, .fieldsS f⟩ =
      Except.ok ⟨.INSERT, tid, rid, .fieldsS f, .noneS⟩ := rfl

theorem invert_single_put_none (tid rid field : String) (v : Value) :
    Change.invert ⟨.UPDATE, tid, rid, .opsS [(field, .ValuePut v)],
        .fieldsS [(field, Value.vnone)]⟩ =
      Except.ok ⟨.UPDATE, tid, rid, .opsS [(field, .ValueDelete)],
        .fieldsS [(field, v)]⟩ := by
  simp [Change.invert, invert_update_ops, is_listop, pyGet, alookup]

theorem invert_single_put_some (tid rid field : String) (v before : Value)
    (hb : ¬before = Value.vnone) :
    Change.invert ⟨.UPDATE, tid, rid, .opsS [(field, .ValuePut v)],
        .fieldsS [(field, before)]⟩ =
      Except.ok ⟨.UPDATE, tid, rid, .opsS [(field, .ValuePut before)],
        .fieldsS [(field, v)]⟩ := by
  simp [Change.invert, invert_update_ops, is_listop, pyGet, alookup, hb]

theorem invert_single_value_delete (tid rid field : String) (before : Value) :
    Change.invert ⟨.UPDATE, tid, rid, .opsS [(field, .ValueDelete)],
        .fieldsS [(field, before)]⟩ =
      Except.ok ⟨.UPDATE, tid, rid, .opsS [(field, .ValuePut before)],
        .fieldsS [(field, Value.vnone)]⟩ := by
  simp [Change.invert, invert_update_ops, is_listop, pyGet, alookup]

theorem invert_single_list_create (tid rid field : String) (before : Value) :
    Change.invert ⟨.UPDATE, tid, rid, .opsS [(field, .ListCreate)],
        .fieldsS [(field, before)]⟩ =
      Except.ok ⟨.UPDATE, tid, rid, .opsS [(field, .ValueDelete)],
        .fieldsS [(field, .vlist [])]⟩ := by
  simp [Change.invert, invert_update_ops, invert_listop, is_listop, alookup]

theorem invert_single_list_put (tid rid field : String) (bl : List Atom) (i : Nat)
    (v old : Atom) (hget : bl.get? i = some old) :
    Change.invert ⟨.UPDATE, tid, rid, .opsS [(field, .ListPut i v)],
        .fieldsS [(field, .vlist bl)]⟩ =
      Except.ok ⟨.UPDATE, tid, rid, .opsS [(field, .ListPut i old)],
        .fieldsS [(field, .vlist (bl.take i ++ [v] ++ bl.drop (i + 1)))]⟩ := by
  have hget2 : bl[i]? = some old := by
    rw [← List.get?_eq_getElem?]
    exact hget
  simp [Change.invert, invert_update_ops, invert_listop, is_listop, alookup, hget2]

theorem invert_single_list_insert (tid rid field : String) (bl : List Atom) (i : Nat)
    (v : Atom) (hle : i ≤ bl.length) :
    Change.invert ⟨.UPDATE, tid, rid, .opsS [(field, .ListInsert i v)],
        .fieldsS [(field, .vlist bl)]⟩ =
      Except.ok ⟨.UPDATE, tid, rid, .opsS [(field, .ListDelete i)],
        .fieldsS [(field, .vlist (bl.take i ++ [v] ++ bl.drop i))]⟩ := by
  simp [Change.invert, invert_update_ops, invert_listop, is_listop, alookup, hle]

theorem invert_single_list_delete (tid rid field : String) (bl : List Atom) (i : Nat)
    (old : Atom) (hget : bl.get? i = some old) :
    Change.invert ⟨.UPDATE, tid, rid, .opsS [(field, .ListDelete i)],
        .fieldsS [(field, .vlist bl)]⟩ =
      Except.ok ⟨.UPDATE, tid, rid, .opsS [(field, .ListInsert i old)],
        .fieldsS [(field, .vlist (bl.take i ++ bl.drop (i + 1)))]⟩ := by
  have hget2 : bl[i]? = some old := by
    rw [← List.get?_eq_getElem?]
    exact hget
  simp [Change.invert, invert_update_ops, invert_listop, is_listop, alookup, hget2]

theorem invert_single_list_move (tid rid field : String) (bl : List Atom) (i j : Nat)
    (hi : i < bl.length) (hj : j < bl.length) :
    Change.invert ⟨.UPDATE, tid, rid, .opsS [(field, .ListMove i j)],
        .fieldsS [(field, .vlist bl)]⟩ =
      Except.ok ⟨.UPDATE, tid, rid, .opsS [(field, .ListMove j i)],
        .fieldsS [(field, .vlist (list_move bl i j))]⟩ := by
  simp [Change.invert, invert_update_ops, invert_listop, is_listop, alookup, hi, hj]

/-- The restoration property of C1: the staged change inverts, the
inverse applies cleanly to the post-state, and the result is
observationally the pre-state. -/
def C1Concl (ds ds1 : DS) (c : Change) : Prop :=
  ∃ ci, Change.invert c = Except.ok ci ∧
    ∃ ds2, apply_change ds1 ci = Except.ok (ds2, c.tid, c.recordid) ∧ obsEq ds2 ds

/-- A legal single mutation: record insert, record delete, scalar field
put or delete (`Record.set`), list create, and the four list ops. -/
inductive Mut where
  | insert (tid rid : String) (fields : Fields)
  | delete (tid rid : String)
  | set (tid rid field : String) (v : Value)
  | listCreate (tid rid field : String)
  | listPut (tid rid field : String) (i : ℤ) (v : Atom)
  | listInsert (tid rid field : String) (i : ℤ) (v : Atom)
  | listDelete (tid rid field : String) (i : ℤ)
  | listMove (tid rid field : String) (i j : ℤ)
  deriving Repr

/-- Run one mutation through the corresponding entry point. -/
def runMut (ds : DS) : Mut → Except Err DS
  | .insert tid rid fields => table_get_or_insert ds tid rid fields
  | .delete tid rid => delete_record ds tid rid
  | .set tid rid field v => record_set ds tid rid field v
  | .listCreate tid rid field => get_or_create_list ds tid rid field
  | .listPut tid rid field i v => List_setitem ds tid rid field i v
  | .listInsert tid rid field i v => List_insert ds tid rid field i v
  | .listDelete tid rid field i => List_delitem ds tid rid field i
  | .listMove tid rid field i j => List_move ds tid rid field i j

theorem C1_set {ds ds1 : DS} {tid rid field : String} {v : Value} {c : Change}
    (hinv : dsInv ds = true) (hnn : noVnone ds = true)
    (hrun : record_set ds tid rid field v = Except.ok ds1)
    (hc : ds1.changes = ds.changes ++ [c]) :
    C1Concl ds ds1 c := by
  unfold record_set record_update at hrun
  cases hce : check_edit_permission ds with
  | error e =>
    rw [hce] at hrun
    simp at hrun
  | ok u =>
    rw [hce] at hrun
    simp only [except_bind_ok] at hrun
    obtain ⟨hndt, hall, hcount, hsize⟩ := dsInv_spec hinv
    cases halk : alookup ds.tables tid with
    | none =>
      unfold get_table at hrun
      rw [halk] at hrun
      by_cases hv2 : is_valid_id tid
      · rw [if_pos hv2] at hrun
        simp only [except_bind_ok] at hrun
        simp [alookup] at hrun
      · rw [if_neg hv2] at hrun
        simp at hrun
    | some t =>
      have hgt : get_table ds tid = Except.ok (ds, t) := by
        unfold get_table
        rw [halk]
      rw [hgt] at hrun
      simp only [except_bind_ok] at hrun
      have htInv : tableInv t = true := hall _ (alookup_mem _ _ _ halk)
      obtain ⟨hndr, hfall, hszeq⟩ := tableInv_spec htInv
      cases hrec : alookup t.records rid with
      | none =>
        rw [hrec] at hrun
        simp at hrun
      | some fields0 =>
        rw [hrec] at hrun
        dsimp only at hrun
        have hnd0 : nodupKeys fields0 := hfall _ (alookup_mem _ _ _ hrec)
        rw [if_neg (not_not_intro (show nodupKeys [(field, v)] by
          simp [nodupKeys, akeys]))] at hrun
        by_cases hvf : is_valid_id field
        case neg =>
          rw [show record_update_loop fields0 [(field, v)] =
              Except.error (Err.valueError "Invalid field name") from by
            simp only [record_update_loop]
            rw [if_pos hvf]] at hrun
          simp at hrun
        case pos =>
        by_cases hvn : v = Value.vnone
        · subst hvn
          by_cases htr : pyTruthy (pyGet fields0 field) = true
          · -- scalar field delete
            rw [loop_single_del fields0 field hvf htr] at hrun
            simp only [except_bind_ok] at hrun
            rw [if_neg (by simp :
              ¬([(field, FieldOp.ValueDelete)] : List (String × FieldOp)).isEmpty
                = true)] at hrun
            have hone : ¬pyGet fields0 field = Value.vnone := by
              intro he
              rw [he] at htr
              cases htr
            obtain ⟨old, hlk0⟩ : ∃ old, alookup fields0 field = some old := by
              cases hx : alookup fields0 field with
              | none =>
                exfalso
                apply hone
                unfold pyGet
                rw [hx]
                rfl
              | some w => exact ⟨w, rfl⟩
            have hpg : pyGet fields0 field = old := by
              unfold pyGet
              rw [hlk0]
              rfl
            have hlk : alookup fields0 field = some (pyGet fields0 field) := by
              rw [hpg]
              exact hlk0
            have hd : compute_record_size_for_fields fields0 +
                (0 - (compute_field_size (pyGet fields0 field) + 0)) =
                compute_record_size_for_fields (adel fields0 field) := by
              unfold compute_record_size_for_fields
              rw [asum_adel, field_msize]
              ring
            have hszr := size_ge_record hinv halk hrec
            have hcmp1 := compute_record_size_pos (adel fields0 field)
            have hsz2 : ¬(ds.size +
                (0 - (compute_field_size (pyGet fields0 field) + 0)) <
                BASE_DATASTORE_SIZE) := by
              omega
            rw [@update_record_fields_put
              (add_pending_change ds
                (⟨.UPDATE, tid, rid, .opsS [(field, FieldOp.ValueDelete)],
                  .fieldsS [(field, pyGet fields0 field)]⟩ : Change))
              tid rid t fields0 (adel fields0 field)
              (0 - (compute_field_size (pyGet fields0 field) + 0))
              htInv halk hrec hd hsz2] at hrun
            cases hrun
            have hcc := change_eq_of_append
              (show ds.changes ++
                  [(⟨.UPDATE, tid, rid, .opsS [(field, FieldOp.ValueDelete)],
                    .fieldsS [(field, pyGet fields0 field)]⟩ : Change)] =
                ds.changes ++ [c] from hc)
            subst hcc
            refine ⟨_, invert_single_value_delete tid rid field (pyGet fields0 field),
              ?_⟩
            have happ := apply_single_put (adel fields0 field) field
              (pyGet fields0 field)
            have hf2 : ∀ k, alookup
                (aset (adel fields0 field) field (pyGet fields0 field)) k =
                alookup fields0 k := by
              intro k
              by_cases hk : k = field
              · subst hk
                rw [alookup_aset_self, hlk]
              · rw [alookup_aset_ne _ _ _ _ (fun he => hk he.symm),
                    alookup_adel_ne _ _ _ (fun he => hk he.symm)]
            have hcomp : compute_record_size_for_fields
                (aset (adel fields0 field) field (pyGet fields0 field)) =
                compute_record_size_for_fields fields0 := by
              unfold compute_record_size_for_fields
              rw [asum_aset _ _ _ _ (nodupKeys_adel _ _ hnd0), asum_adel, field_msize]
              rw [show msize compute_field_size (adel fields0 field) field = 0 from by
                unfold msize
                rw [alookup_adel_self _ _ hnd0]]
              ring
            exact apply_change_inverse_update hinv halk hrec
              (nodupKeys_adel _ _ hnd0) rfl hd happ hf2 hcomp
          · -- falsy current value: nothing staged, excluded by hc
            rw [show record_update_loop fields0 [(field, Value.vnone)] =
                Except.ok (fields0, [], [], 0, 0) from by
              simp only [record_update_loop]
              rw [if_neg (not_not_intro hvf), if_pos True.intro, if_neg htr]] at hrun
            simp only [except_bind_ok] at hrun
            rw [if_pos (by simp :
              (([] : List (String × FieldOp))).isEmpty = true)] at hrun
            cases hrun
            have hlen := congrArg List.length hc
            simp at hlen
        · -- scalar field put
          rw [loop_single_put fields0 field v hvf hvn] at hrun
          simp only [except_bind_ok] at hrun
          rw [if_neg (by simp :
            ¬([(field, FieldOp.ValuePut v)] : List (String × FieldOp)).isEmpty
              = true)] at hrun
          have hd : compute_record_size_for_fields fields0 +
              ((compute_field_size v + 0) -
                (compute_field_size (pyGet fields0 field) + 0)) =
              compute_record_size_for_fields (aset fields0 field v) := by
            unfold compute_record_size_for_fields
            rw [asum_aset _ _ _ _ hnd0, field_msize]
            ring
          have hszr := size_ge_record hinv halk hrec
          have hcmp1 := compute_record_size_pos (aset fields0 field v)
          have hsz2 : ¬(ds.size + ((compute_field_size v + 0) -
              (compute_field_size (pyGet fields0 field) + 0)) <
              BASE_DATASTORE_SIZE) := by
            omega
          rw [@update_record_fields_put
            (add_pending_change ds
              (⟨.UPDATE, tid, rid, .opsS [(field, FieldOp.ValuePut v)],
                .fieldsS [(field, pyGet fields0 field)]⟩ : Change))
            tid rid t fields0 (aset fields0 field v)
            (compute_field_size v + 0 - (compute_field_size (pyGet fields0 field) + 0))
            htInv halk hrec hd hsz2] at hrun
          cases hrun
          have hcc := change_eq_of_append
            (show ds.changes ++
                [(⟨.UPDATE, tid, rid, .opsS [(field, FieldOp.ValuePut v)],
                  .fieldsS [(field, pyGet fields0 field)]⟩ : Change)] =
              ds.changes ++ [c] from hc)
          subst hcc
          by_cases hold : pyGet fields0 field = Value.vnone
          · -- field was absent before the put
            have habs : alookup fields0 field = none :=
              noVnone_lookup hnn halk hrec hold
            rw [hold]
            refine ⟨_, invert_single_put_none tid rid field v, ?_⟩
            have happ := apply_single_del (aset fields0 field v) field v
              (alookup_aset_self _ _ _)
            have hdel : adel (aset fields0 field v) field = fields0 :=
              adel_aset_absent _ _ _ habs
            have hf2 : ∀ k, alookup (adel (aset fields0 field v) field) k =
                alookup fields0 k := by
              intro k
              rw [hdel]
            have hcomp : compute_record_size_for_fields
                (adel (aset fields0 field v) field) =
                compute_record_size_for_fields fields0 := by
              rw [hdel]
            exact apply_change_inverse_update hinv halk hrec
              (nodupKeys_aset _ _ _ hnd0) rfl (hold ▸ hd) happ hf2 hcomp
          · -- field was present before the put
            obtain ⟨old, hlk0⟩ : ∃ old, alookup fields0 field = some old := by
              cases hx : alookup fields0 field with
              | none =>
                exfalso
                apply hold
                unfold pyGet
                rw [hx]
                rfl
              | some w => exact ⟨w, rfl⟩
            have hlk : alookup fields0 field = some (pyGet fields0 field) := by
              unfold pyGet
              rw [hlk0]
              rfl
            refine ⟨_, invert_single_put_some tid rid field v
              (pyGet fields0 field) hold, ?_⟩
            have happ := apply_single_put (aset fields0 field v) field
              (pyGet fields0 field)
            have hf2eq : aset (aset fields0 field v) field (pyGet fields0 field) =
                fields0 := by
              rw [aset_aset]
              exact aset_lookup_self field fields0 (pyGet fields0 field) hlk
            have hf2 : ∀ k, alookup
                (aset (aset fields0 field v) field (pyGet fields0 field)) k =
                alookup fields0 k := by
              intro k
              rw [hf2eq]
            have hcomp : compute_record_size_for_fields
                (aset (aset fields0 field v) field (pyGet fields0 field)) =
                compute_record_size_for_fields fields0 := by
              rw [hf2eq]
            exact apply_change_inverse_update hinv halk hrec
              (nodupKeys_aset _ _ _ hnd0) rfl hd happ hf2 hcomp

theorem C1_list_update {ds ds1 : DS} {tid rid field : String} {t : TableM}
    {fields0 : Fields} {bl newv : List Atom} {op invop : FieldOp} {c : Change}
    (hinv : dsInv ds = true)
    (halk : alookup ds.tables tid = some t)
    (hrec : alookup t.records rid = some fields0)
    (hfv : pyGet fields0 field = Value.vlist bl)
    (hrun : list_update ds tid rid field newv op = Except.ok ds1)
    (hc : ds1.changes = ds.changes ++ [c])
    (hinvert : Change.invert ⟨.UPDATE, tid, rid, .opsS [(field, op)],
        .fieldsS [(field, Value.vlist bl)]⟩ =
      Except.ok ⟨.UPDATE, tid, rid, .opsS [(field, invop)],
        .fieldsS [(field, Value.vlist newv)]⟩)
    (hlistop : is_listop invop = true)
    (hback : apply_listop (Value.vlist newv) invop = Except.ok (Value.vlist bl)) :
    C1Concl ds ds1 c := by
  obtain ⟨hndt, hall, hcount, hsize⟩ := dsInv_spec hinv
  have htInv : tableInv t = true := hall _ (alookup_mem _ _ _ halk)
  obtain ⟨hndr, hfall, hszeq⟩ := tableInv_spec htInv
  have hnd0 : nodupKeys fields0 := hfall _ (alookup_mem _ _ _ hrec)
  have hlk : alookup fields0 field = some (Value.vlist bl) := by
    cases hx : alookup fields0 field with
    | none =>
      exfalso
      have : pyGet fields0 field = Value.vnone := by
        unfold pyGet
        rw [hx]
        rfl
      rw [hfv] at this
      cases this
    | some w =>
      have : w = Value.vlist bl := by
        have h2 : pyGet fields0 field = w := by
          unfold pyGet
          rw [hx]
          rfl
        rw [hfv] at h2
        exact h2.symm
      rw [this]
  have hgt : get_table ds tid = Except.ok (ds, t) := by
    unfold get_table
    rw [halk]
  unfold list_update at hrun
  cases hce : check_edit_permission ds with
  | error e =>
    rw [hce] at hrun
    simp at hrun
  | ok u =>
    rw [hce] at hrun
    simp only [except_bind_ok] at hrun
    rw [hgt] at hrun
    simp only [except_bind_ok] at hrun
    rw [hrec] at hrun
    dsimp only at hrun
    rw [hfv] at hrun
    have hd : compute_record_size_for_fields fields0 +
        (compute_value_size (Value.vlist newv) - compute_value_size (Value.vlist bl)) =
        compute_record_size_for_fields (aset fields0 field (Value.vlist newv)) := by
      unfold compute_record_size_for_fields
      rw [asum_aset _ _ _ _ hnd0, field_msize, hfv]
      rw [show compute_field_size (Value.vlist newv) =
            BASE_FIELD_SIZE + compute_value_size (Value.vlist newv) from rfl,
          show compute_field_size (Value.vlist bl) =
            BASE_FIELD_SIZE + compute_value_size (Value.vlist bl) from rfl]
      ring
    have hszr := size_ge_record hinv halk hrec
    have hcmp1 := compute_record_size_pos (aset fields0 field (Value.vlist newv))
    have hsz2 : ¬(ds.size +
        (compute_value_size (Value.vlist newv) - compute_value_size (Value.vlist bl)) <
        BASE_DATASTORE_SIZE) := by
      omega
    rw [@update_record_fields_put
      (add_pending_change ds
        (⟨.UPDATE, tid, rid, .opsS [(field, op)],
          .fieldsS [(field, Value.vlist bl)]⟩ : Change))
      tid rid t fields0 (aset fields0 field (Value.vlist newv))
      (compute_value_size (Value.vlist newv) - compute_value_size (Value.vlist bl))
      htInv halk hrec hd hsz2] at hrun
    cases hrun
    have hcc := change_eq_of_append
      (show ds.changes ++
          [(⟨.UPDATE, tid, rid, .opsS [(field, op)],
            .fieldsS [(field, Value.vlist bl)]⟩ : Change)] =
        ds.changes ++ [c] from hc)
    subst hcc
    refine ⟨_, hinvert, ?_⟩
    have hpg1 : pyGet (aset fields0 field (Value.vlist newv)) field =
        Value.vlist newv := by
      unfold pyGet
      rw [alookup_aset_self]
      rfl
    have hlo : apply_listop (pyGet (aset fields0 field (Value.vlist newv)) field)
        invop = Except.ok (Value.vlist bl) := by
      rw [hpg1]
      exact hback
    have happ := apply_single_listop (aset fields0 field (Value.vlist newv)) field
      invop (Value.vlist bl) hlistop hlo
    have hf2eq : aset (aset fields0 field (Value.vlist newv)) field
        (Value.vlist bl) = fields0 := by
      rw [aset_aset]
      exact aset_lookup_self field fields0 (Value.vlist bl) hlk
    have hf2 : ∀ k, alookup (aset (aset fields0 field (Value.vlist newv)) field
        (Value.vlist bl)) k = alookup fields0 k := by
      intro k
      rw [hf2eq]
    have hcomp : compute_record_size_for_fields
        (aset (aset fields0 field (Value.vlist newv)) field (Value.vlist bl)) =
        compute_record_size_for_fields fields0 := by
      rw [hf2eq]
    exact apply_change_inverse_update hinv halk hrec
      (nodupKeys_aset _ _ _ hnd0) rfl hd happ hf2 hcomp

theorem C1_listPut {ds ds1 : DS} {tid rid field : String} {index : ℤ} {value : Atom}
    {c : Change}
    (hinv : dsInv ds = true)
    (hrun : List_setitem ds tid rid field index value = Except.ok ds1)
    (hc : ds1.changes = ds.changes ++ [c]) :
    C1Concl ds ds1 c := by
  unfold List_setitem at hrun
  cases halk : alookup ds.tables tid with
  | none =>
    by_cases hv2 : is_valid_id tid
    · rw [show list_check ds tid rid field = Except.error
          (Err.typeError "Cannot use a List referring to a deleted record") from by
        unfold list_check get_table
        rw [halk, if_pos hv2]
        rfl] at hrun
      simp at hrun
    · rw [show list_check ds tid rid field = Except.error
          (Err.valueError "Invalid table ID") from by
        unfold list_check get_table
        rw [halk, if_neg hv2]
        rfl] at hrun
      simp at hrun
  | some t =>
    have hgt : get_table ds tid = Except.ok (ds, t) := by
      unfold get_table
      rw [halk]
    cases hrec : alookup t.records rid with
    | none =>
      rw [show list_check ds tid rid field = Except.error
          (Err.typeError "Cannot use a List referring to a deleted record") from by
        unfold list_check
        rw [hgt]
        simp only [except_bind_ok]
        rw [hrec]] at hrun
      simp at hrun
    | some fields0 =>
      cases hfv : pyGet fields0 field with
      | vnone =>
        rw [show list_check ds tid rid field = Except.error
            (Err.typeError "Cannot use a List referring to a non-list field") from by
          unfold list_check
          rw [hgt]
          simp only [except_bind_ok]
          rw [hrec]
          dsimp only
          rw [hfv]] at hrun
        simp at hrun
      | atom a =>
        rw [show list_check ds tid rid field = Except.error
            (Err.typeError "Cannot use a List referring to a non-list field") from by
          unfold list_check
          rw [hgt]
          simp only [except_bind_ok]
          rw [hrec]
          dsimp only
          rw [hfv]] at hrun
        simp at hrun
      | vlist bl =>
        rw [show list_check ds tid rid field = Except.ok bl from by
          unfold list_check
          rw [hgt]
          simp only [except_bind_ok]
          rw [hrec]
          dsimp only
          rw [hfv]] at hrun
        simp only [except_bind_ok] at hrun
        by_cases hb : 0 ≤ (if index < 0 then index + (bl.length : ℤ) else index) ∧
            (if index < 0 then index + (bl.length : ℤ) else index) < (bl.length : ℤ)
        case neg =>
          rw [if_pos hb] at hrun
          simp at hrun
        case pos =>
        rw [if_neg (not_not_intro hb)] at hrun
        generalize hgen : (if index < 0 then index + (bl.length : ℤ) else index) = r
          at hb hrun
        obtain ⟨hb1, hb2⟩ := hb
        have hi : r.toNat < bl.length := by omega
        have hget : bl.get? r.toNat = some (bl.get ⟨r.toNat, hi⟩) := by
          rw [List.get?_eq_getElem?]
          exact List.getElem?_eq_getElem hi
        have hrest := restore_put bl r.toNat value (bl.get ⟨r.toNat, hi⟩) hget
        refine C1_list_update hinv halk hrec hfv hrun hc
          (invert_single_list_put tid rid field bl r.toNat value
            (bl.get ⟨r.toNat, hi⟩) hget) rfl ?_
        show Except.ok (Value.vlist
          ((bl.take r.toNat ++ [value] ++ bl.drop (r.toNat + 1)).take r.toNat ++
            [bl.get ⟨r.toNat, hi⟩] ++
            (bl.take r.toNat ++ [value] ++ bl.drop (r.toNat + 1)).drop (r.toNat + 1))) =
          Except.ok (Value.vlist bl)
        rw [hrest]

theorem list_check_cases (ds : DS) (tid rid field : String) :
    (∃ e, list_check ds tid rid field = Except.error e) ∨
    (∃ t fields0 bl, alookup ds.tables tid = some t ∧
      alookup t.records rid = some fields0 ∧
      pyGet fields0 field = Value.vlist bl ∧
      list_check ds tid rid field = Except.ok bl) := by
  cases halk : alookup ds.tables tid with
  | none =>
    left
    by_cases hv2 : is_valid_id tid
    · refine ⟨Err.typeError "Cannot use a List referring to a deleted record", ?_⟩
      unfold list_check get_table
      rw [halk, if_pos hv2]
      rfl
    · refine ⟨Err.valueError "Invalid table ID", ?_⟩
      unfold list_check get_table
      rw [halk, if_neg hv2]
      rfl
  | some t =>
    have hgt : get_table ds tid = Except.ok (ds, t) := by
      unfold get_table
      rw [halk]
    cases hrec : alookup t.records rid with
    | none =>
      left
      refine ⟨Err.typeError "Cannot use a List referring to a deleted record", ?_⟩
      unfold list_check
      rw [hgt]
      simp only [except_bind_ok]
      rw [hrec]
    | some fields0 =>
      cases hfv : pyGet fields0 field with
      | vnone =>
        left
        refine ⟨Err.typeError "Cannot use a List referring to a non-list field", ?_⟩
        unfold list_check
        rw [hgt]
        simp only [except_bind_ok]
        rw [hrec]
        dsimp only
        rw [hfv]
      | atom a =>
        left
        refine ⟨Err.typeError "Cannot use a List referring to a non-list field", ?_⟩
        unfold list_check
        rw [hgt]
        simp only [except_bind_ok]
        rw [hrec]
        dsimp only
        rw [hfv]
      | vlist bl =>
        right
        refine ⟨t, fields0, bl, rfl, hrec, hfv, ?_⟩
        unfold list_check
        rw [hgt]
        simp only [except_bind_ok]
        rw [hrec]
        dsimp only
        rw [hfv]

theorem C1_listDelete {ds ds1 : DS} {tid rid field : String} {index : ℤ}
    {c : Change}
    (hinv : dsInv ds = true)
    (hrun : List_delitem ds tid rid field index = Except.ok ds1)
    (hc : ds1.changes = ds.changes ++ [c]) :
    C1Concl ds ds1 c := by
  unfold List_delitem at hrun
  rcases list_check_cases ds tid rid field with ⟨e, hlc⟩ | ⟨t, fields0, bl, halk, hrec, hfv, hlc⟩
  · rw [hlc] at hrun
    simp at hrun
  · rw [hlc] at hrun
    simp only [except_bind_ok] at hrun
    by_cases hb : 0 ≤ (if index < 0 then index + (bl.length : ℤ) else index) ∧
        (if index < 0 then index + (bl.length : ℤ) else index) < (bl.length : ℤ)
    case neg =>
      rw [if_pos hb] at hrun
      simp at hrun
    case pos =>
    rw [if_neg (not_not_intro hb)] at hrun
    generalize hgen : (if index < 0 then index + (bl.length : ℤ) else index) = r
      at hb hrun
    obtain ⟨hb1, hb2⟩ := hb
    have hi : r.toNat < bl.length := by omega
    have hget : bl.get? r.toNat = some (bl.get ⟨r.toNat, hi⟩) := by
      rw [List.get?_eq_getElem?]
      exact List.getElem?_eq_getElem hi
    have hrest := restore_delete bl r.toNat (bl.get ⟨r.toNat, hi⟩) hget
    refine C1_list_update hinv halk hrec hfv hrun hc
      (invert_single_list_delete tid rid field bl r.toNat
        (bl.get ⟨r.toNat, hi⟩) hget) rfl ?_
    show Except.ok (Value.vlist
      ((bl.take r.toNat ++ bl.drop (r.toNat + 1)).take r.toNat ++
        [bl.get ⟨r.toNat, hi⟩] ++
        (bl.take r.toNat ++ bl.drop (r.toNat + 1)).drop r.toNat)) =
      Except.ok (Value.vlist bl)
    rw [hrest]

theorem C1_listInsert {ds ds1 : DS} {tid rid field : String} {index : ℤ} {value : Atom}
    {c : Change}
    (hinv : dsInv ds = true)
    (hrun : List_insert ds tid rid field index value = Except.ok ds1)
    (hc : ds1.changes = ds.changes ++ [c]) :
    C1Concl ds ds1 c := by
  unfold List_insert at hrun
  rcases list_check_cases ds tid rid field with ⟨e, hlc⟩ | ⟨t, fields0, bl, halk, hrec, hfv, hlc⟩
  · rw [hlc] at hrun
    simp at hrun
  · rw [hlc] at hrun
    simp only [except_bind_ok] at hrun
    have hb : 0 ≤ (if index < 0 then (if index + (bl.length : ℤ) < 0 then 0
          else index + (bl.length : ℤ))
        else (if index > (bl.length : ℤ) then (bl.length : ℤ) else index)) ∧
        (if index < 0 then (if index + (bl.length : ℤ) < 0 then 0
          else index + (bl.length : ℤ))
        else (if index > (bl.length : ℤ) then (bl.length : ℤ) else index)) ≤
          (bl.length : ℤ) := by
      constructor <;> (split_ifs <;> omega)
    generalize hgen : (if index < 0 then (if index + (bl.length : ℤ) < 0 then 0
        else index + (bl.length : ℤ))
      else (if index > (bl.length : ℤ) then (bl.length : ℤ) else index)) = r
      at hb hrun
    obtain ⟨hb1, hb2⟩ := hb
    have hi : r.toNat ≤ bl.length := by omega
    have hrest := restore_insert bl r.toNat value hi
    refine C1_list_update hinv halk hrec hfv hrun hc
      (invert_single_list_insert tid rid field bl r.toNat value hi) rfl ?_
    show Except.ok (Value.vlist
      ((bl.take r.toNat ++ [value] ++ bl.drop r.toNat).take r.toNat ++
        (bl.take r.toNat ++ [value] ++ bl.drop r.toNat).drop (r.toNat + 1))) =
      Except.ok (Value.vlist bl)
    rw [hrest]

theorem C1_listMove {ds ds1 : DS} {tid rid field : String} {index newindex : ℤ}
    {c : Change}
    (hinv : dsInv ds = true)
    (hrun : List_move ds tid rid field index newindex = Except.ok ds1)
    (hc : ds1.changes = ds.changes ++ [c]) :
    C1Concl ds ds1 c := by
  unfold List_move at hrun
  rcases list_check_cases ds tid rid field with ⟨e, hlc⟩ | ⟨t, fields0, bl, halk, hrec, hfv, hlc⟩
  · rw [hlc] at hrun
    simp at hrun
  · rw [hlc] at hrun
    simp only [except_bind_ok] at hrun
    by_cases hb : 0 ≤ (if index < 0 then index + (bl.length : ℤ) else index) ∧
        (if index < 0 then index + (bl.length : ℤ) else index) < (bl.length : ℤ)
    case neg =>
      rw [if_pos hb] at hrun
      simp at hrun
    case pos =>
    rw [if_neg (not_not_intro hb)] at hrun
    by_cases hb2 : 0 ≤ (if newindex < 0 then newindex + (bl.length : ℤ) else newindex) ∧
        (if newindex < 0 then newindex + (bl.length : ℤ) else newindex) < (bl.length : ℤ)
    case neg =>
      rw [if_pos hb2] at hrun
      simp at hrun
    case pos =>
    rw [if_neg (not_not_intro hb2)] at hrun
    generalize hgen : (if index < 0 then index + (bl.length : ℤ) else index) = r
      at hb hrun
    generalize hgen2 : (if newindex < 0 then newindex + (bl.length : ℤ) else newindex)
      = r2 at hb2 hrun
    obtain ⟨hb1, hb1b⟩ := hb
    obtain ⟨hb2a, hb2b⟩ := hb2
    have hi : r.toNat < bl.length := by omega
    have hj : r2.toNat < bl.length := by omega
    refine C1_list_update hinv halk hrec hfv hrun hc
      (invert_single_list_move tid rid field bl r.toNat r2.toNat hi hj) rfl ?_
    show Except.ok (Value.vlist (list_move (list_move bl r.toNat r2.toNat)
        r2.toNat r.toNat)) = Except.ok (Value.vlist bl)
    rw [list_move_involution bl r.toNat r2.toNat hi hj]

theorem C1_listCreate {ds ds1 : DS} {tid rid field : String} {c : Change}
    (hinv : dsInv ds = true) (hnn : noVnone ds = true)
    (hrun : get_or_create_list ds tid rid field = Except.ok ds1)
    (hc : ds1.changes = ds.changes ++ [c]) :
    C1Concl ds ds1 c := by
  obtain ⟨hndt, hall, hcount, hsize⟩ := dsInv_spec hinv
  unfold get_or_create_list at hrun
  cases halk : alookup ds.tables tid with
  | none =>
    unfold get_table at hrun
    rw [halk] at hrun
    by_cases hv2 : is_valid_id tid
    · rw [if_pos hv2] at hrun
      simp only [except_bind_ok] at hrun
      simp [alookup] at hrun
    · rw [if_neg hv2] at hrun
      simp at hrun
  | some t =>
    have hgt : get_table ds tid = Except.ok (ds, t) := by
      unfold get_table
      rw [halk]
    rw [hgt] at hrun
    simp only [except_bind_ok] at hrun
    have htInv : tableInv t = true := hall _ (alookup_mem _ _ _ halk)
    obtain ⟨hndr, hfall, hszeq⟩ := tableInv_spec htInv
    cases hrec : alookup t.records rid with
    | none =>
      rw [hrec] at hrun
      simp at hrun
    | some fields0 =>
      rw [hrec] at hrun
      dsimp only at hrun
      have hnd0 : nodupKeys fields0 := hfall _ (alookup_mem _ _ _ hrec)
      cases hfv : pyGet fields0 field with
      | vlist l =>
        rw [hfv] at hrun
        cases hrun
        have hlen := congrArg List.length hc
        simp at hlen
      | atom a =>
        rw [hfv] at hrun
        simp at hrun
      | vnone =>
        rw [hfv] at hrun
        dsimp only at hrun
        by_cases hvf : is_valid_id field
        case neg =>
          rw [if_pos hvf] at hrun
          simp at hrun
        case pos =>
        rw [if_neg (not_not_intro hvf)] at hrun
        cases hce : check_edit_permission ds with
        | error e =>
          rw [hce] at hrun
          simp at hrun
        | ok u =>
          rw [hce] at hrun
          simp only [except_bind_ok] at hrun
          have habs : alookup fields0 field = none :=
            noVnone_lookup hnn halk hrec hfv
          have hcfse : compute_field_size (Value.vlist []) = BASE_FIELD_SIZE := by
            simp [compute_field_size, compute_value_size, compute_list_size]
          have hd : compute_record_size_for_fields fields0 + BASE_FIELD_SIZE =
              compute_record_size_for_fields
                (aset fields0 field (Value.vlist [])) := by
            unfold compute_record_size_for_fields
            rw [asum_aset _ _ _ _ hnd0, field_msize, hfv, hcfse]
            rw [show compute_field_size Value.vnone = 0 from rfl]
            ring
          have h1 := asum_nonneg ds.tables table_total table_total_nonneg
          have hsz2 : ¬(ds.size + BASE_FIELD_SIZE < BASE_DATASTORE_SIZE) := by
            simp only [BASE_FIELD_SIZE, BASE_DATASTORE_SIZE] at hsize ⊢
            omega
          rw [@update_record_fields_put
            (add_pending_change ds
              (⟨.UPDATE, tid, rid, .opsS [(field, FieldOp.ListCreate)],
                .fieldsS [(field, Value.vnone)]⟩ : Change))
            tid rid t fields0 (aset fields0 field (Value.vlist []))
            BASE_FIELD_SIZE htInv halk hrec hd hsz2] at hrun
          cases hrun
          have hcc := change_eq_of_append
            (show ds.changes ++
                [(⟨.UPDATE, tid, rid, .opsS [(field, FieldOp.ListCreate)],
                  .fieldsS [(field, Value.vnone)]⟩ : Change)] =
              ds.changes ++ [c] from hc)
          subst hcc
          refine ⟨_, invert_single_list_create tid rid field Value.vnone, ?_⟩
          have happ := apply_single_del (aset fields0 field (Value.vlist []))
            field (Value.vlist []) (alookup_aset_self _ _ _)
          have hdel : adel (aset fields0 field (Value.vlist [])) field = fields0 :=
            adel_aset_absent _ _ _ habs
          have hf2 : ∀ k, alookup
              (adel (aset fields0 field (Value.vlist [])) field) k =
              alookup fields0 k := by
            intro k
            rw [hdel]
          have hcomp : compute_record_size_for_fields
              (adel (aset fields0 field (Value.vlist [])) field) =
              compute_record_size_for_fields fields0 := by
            rw [hdel]
          exact apply_change_inverse_update hinv halk hrec
            (nodupKeys_aset _ _ _ hnd0) rfl hd happ hf2 hcomp

theorem apply_change_delete_eq {PS : DS} {tid rid : String} {t1 : TableM}
    {fields : Fields}
    (ht1 : alookup PS.tables tid = some t1)
    (hinvT1 : tableInv t1 = true)
    (hrec1 : alookup t1.records rid = some fields)
    (hsz : ¬(PS.size + -compute_record_size_for_fields fields <
      BASE_DATASTORE_SIZE)) :
    apply_change PS ⟨.DELETE, tid, rid, .noneS, .fieldsS fields⟩ =
      Except.ok ({ PS with
        tables := aset PS.tables tid ⟨adel t1.records rid, adel t1.record_sizes rid⟩,
        record_count := PS.record_count - 1,
        size := PS.size + -compute_record_size_for_fields fields }, tid, rid) := by
  have hgt : get_table PS tid = Except.ok (PS, t1) := by
    unfold get_table
    rw [ht1]
  simp only [apply_change]
  rw [hgt]
  simp only [except_bind_ok]
  rw [hrec1]
  dsimp only
  rw [update_record_fields_del hinvT1 ht1 hrec1 hsz]
  simp only [except_bind_ok]

theorem apply_change_insert_eq {PS : DS} {tid rid : String} {t1 : TableM}
    {fields : Fields}
    (ht1 : alookup PS.tables tid = some t1)
    (hinvT1 : tableInv t1 = true)
    (hrec1 : alookup t1.records rid = none)
    (hsz : ¬(PS.size + compute_record_size_for_fields fields <
      BASE_DATASTORE_SIZE)) :
    apply_change PS ⟨.INSERT, tid, rid, .fieldsS fields, .noneS⟩ =
      Except.ok ({ PS with
        tables := aset PS.tables tid
          ⟨aset t1.records rid fields,
           aset t1.record_sizes rid (compute_record_size_for_fields fields)⟩,
        record_count := PS.record_count + 1,
        size := PS.size + compute_record_size_for_fields fields }, tid, rid) := by
  have hgt : get_table PS tid = Except.ok (PS, t1) := by
    unfold get_table
    rw [ht1]
  simp only [apply_change]
  rw [hgt]
  simp only [except_bind_ok]
  rw [if_neg (by rw [hrec1]; simp : ¬(alookup t1.records rid).isSome = true)]
  rw [update_record_fields_new hinvT1 ht1 hrec1 hsz]
  simp only [except_bind_ok]

theorem C1_delete {ds ds1 : DS} {tid rid : String} {c : Change}
    (hinv : dsInv ds = true)
    (hrun : delete_record ds tid rid = Except.ok ds1)
    (hc : ds1.changes = ds.changes ++ [c]) :
    C1Concl ds ds1 c := by
  obtain ⟨hndt, hall, hcount, hsize⟩ := dsInv_spec hinv
  have h1 := asum_nonneg ds.tables table_total table_total_nonneg
  unfold delete_record at hrun
  cases hce : check_edit_permission ds with
  | error e =>
    rw [hce] at hrun
    simp at hrun
  | ok u =>
    rw [hce] at hrun
    simp only [except_bind_ok] at hrun
    cases halk : alookup ds.tables tid with
    | none =>
      unfold get_table at hrun
      rw [halk] at hrun
      by_cases hv2 : is_valid_id tid
      · rw [if_pos hv2] at hrun
        simp only [except_bind_ok] at hrun
        simp only [alookup] at hrun
        cases hrun
        have hlen := congrArg List.length hc
        simp at hlen
      · rw [if_neg hv2] at hrun
        simp at hrun
    | some t =>
      have hgt : get_table ds tid = Except.ok (ds, t) := by
        unfold get_table
        rw [halk]
      rw [hgt] at hrun
      simp only [except_bind_ok] at hrun
      have htInv : tableInv t = true := hall _ (alookup_mem _ _ _ halk)
      obtain ⟨hndr, hfall, hszeq⟩ := tableInv_spec htInv
      cases hrec : alookup t.records rid with
      | none =>
        rw [hrec] at hrun
        cases hrun
        have hlen := congrArg List.length hc
        simp at hlen
      | some fields0 =>
        rw [hrec] at hrun
        dsimp only at hrun
        rw [get_record_size_inv htInv] at hrun
        simp only [except_bind_ok] at hrun
        rw [show cached_size t rid = compute_record_size_for_fields fields0 from by
          unfold cached_size msize
          rw [hrec]] at hrun
        have hszr := size_ge_record hinv halk hrec
        have hsz2 : ¬(ds.size + -compute_record_size_for_fields fields0 <
            BASE_DATASTORE_SIZE) := by
          omega
        rw [@update_record_fields_del
          (add_pending_change ds
            (⟨.DELETE, tid, rid, .noneS, .fieldsS fields0⟩ : Change))
          tid rid t fields0 htInv halk hrec hsz2] at hrun
        cases hrun
        have hcc := change_eq_of_append
          (show ds.changes ++
              [(⟨.DELETE, tid, rid, .noneS, .fieldsS fields0⟩ : Change)] =
            ds.changes ++ [c] from hc)
        subst hcc
        refine ⟨_, invert_single_delete tid rid fields0, ?_⟩
        have hinvT1 : tableInv
            (⟨adel t.records rid, adel t.record_sizes rid⟩ : TableM) = true := by
          refine tableInv_mk _ (nodupKeys_adel _ _ hndr) ?_ ?_
          · intro q hq
            exact hfall q (mem_adel _ _ q hq)
          · show adel t.record_sizes rid = sizes_of (adel t.records rid)
            rw [hszeq, sizes_of_adel]
        have hrec1 : alookup
            ((⟨adel t.records rid, adel t.record_sizes rid⟩ : TableM)).records rid =
            none := alookup_adel_self t.records rid hndr
        have happly := @apply_change_insert_eq
          ({ add_pending_change ds
              (⟨.DELETE, tid, rid, .noneS, .fieldsS fields0⟩ : Change) with
            tables := aset ds.tables tid
              ⟨adel t.records rid, adel t.record_sizes rid⟩,
            record_count := ds.record_count - 1,
            size := ds.size + -compute_record_size_for_fields fields0 })
          tid rid (⟨adel t.records rid, adel t.record_sizes rid⟩ : TableM) fields0
          (show alookup (aset ds.tables tid
              (⟨adel t.records rid, adel t.record_sizes rid⟩ : TableM)) tid = _ from
            alookup_aset_self _ _ _)
          hinvT1 hrec1
          (show ¬(ds.size + -compute_record_size_for_fields fields0 +
              compute_record_size_for_fields fields0 < BASE_DATASTORE_SIZE) from by
            omega)
        have hobs : ∀ ds2 : DS, ds2.tables =
            aset (aset ds.tables tid
              (⟨adel t.records rid, adel t.record_sizes rid⟩ : TableM)) tid
              (⟨aset (adel t.records rid) rid fields0,
                aset (adel t.record_sizes rid) rid
                  (compute_record_size_for_fields fields0)⟩ : TableM) →
            obsEq ds2 ds := by
          intro ds2 htab
          refine obsEq_intro tid ?_ ?_
          · intro u2 hu
            rw [htab, alookup_aset_ne _ _ _ _ (fun he => hu he.symm),
                alookup_aset_ne _ _ _ _ (fun he => hu he.symm)]
          · intro rid2
            have h2t : table_records ds2 tid = aset (adel t.records rid) rid fields0 := by
              unfold table_records
              rw [htab, alookup_aset_self]
            have hdt : table_records ds tid = t.records := by
              unfold table_records
              rw [halk]
            rw [h2t, hdt]
            by_cases hr2 : rid2 = rid
            · subst hr2
              rw [alookup_aset_self, hrec]
              exact recEq_refl _
            · rw [alookup_aset_ne _ _ _ _ (fun he => hr2 he.symm),
                  alookup_adel_ne _ _ _ (fun he => hr2 he.symm)]
              exact recEq_refl _
        exact ⟨_, happly, hobs _ rfl⟩

theorem C1_insert {ds ds1 : DS} {tid rid : String} {fields : Fields} {c : Change}
    (hinv : dsInv ds = true)
    (hrun : table_get_or_insert ds tid rid fields = Except.ok ds1)
    (hc : ds1.changes = ds.changes ++ [c]) :
    C1Concl ds ds1 c := by
  obtain ⟨hndt, hall, hcount, hsize⟩ := dsInv_spec hinv
  have h1 := asum_nonneg ds.tables table_total table_total_nonneg
  have hp := compute_record_size_pos fields
  unfold table_get_or_insert at hrun
  cases halk : alookup ds.tables tid with
  | some t =>
    have hgt : get_table ds tid = Except.ok (ds, t) := by
      unfold get_table
      rw [halk]
    rw [hgt] at hrun
    simp only [except_bind_ok] at hrun
    have htInv : tableInv t = true := hall _ (alookup_mem _ _ _ halk)
    obtain ⟨hndr, hfall, hszeq⟩ := tableInv_spec htInv
    by_cases hsome : (alookup t.records rid).isSome = true
    · rw [if_pos hsome] at hrun
      cases hrun
      have hlen := congrArg List.length hc
      simp at hlen
    · rw [if_neg hsome] at hrun
      have habs : alookup t.records rid = none := by
        cases hx : alookup t.records rid with
        | none => rfl
        | some w =>
          rw [hx] at hsome
          simp at hsome
      by_cases hvr : is_valid_id rid
      case neg =>
        rw [if_pos hvr] at hrun
        simp at hrun
      case pos =>
      rw [if_neg (not_not_intro hvr)] at hrun
      unfold insert_with_id at hrun
      cases hce : check_edit_permission ds with
      | error e =>
        rw [hce] at hrun
        simp at hrun
      | ok u =>
        rw [hce] at hrun
        simp only [except_bind_ok] at hrun
        by_cases hndf : nodupKeys fields
        case neg =>
          rw [if_pos hndf] at hrun
          simp at hrun
        case pos =>
        rw [if_neg (not_not_intro hndf)] at hrun
        cases hval : validate_insert_fields fields with
        | error e =>
          rw [hval] at hrun
          simp at hrun
        | ok vs =>
          rw [hval] at hrun
          simp only [except_bind_ok] at hrun
          rw [show BASE_RECORD_SIZE + vs =
              compute_record_size_for_fields fields from by
            rw [validate_insert_fields_sum hval]
            rfl] at hrun
          have hsz2 : ¬(ds.size + compute_record_size_for_fields fields <
              BASE_DATASTORE_SIZE) := by
            omega
          rw [@update_record_fields_new
            (add_pending_change ds
              (⟨.INSERT, tid, rid, .fieldsS fields, .noneS⟩ : Change))
            tid rid t fields htInv halk habs hsz2] at hrun
          cases hrun
          have hcc := change_eq_of_append
            (show ds.changes ++
                [(⟨.INSERT, tid, rid, .fieldsS fields, .noneS⟩ : Change)] =
              ds.changes ++ [c] from hc)
          subst hcc
          refine ⟨_, invert_single_insert tid rid fields, ?_⟩
          have hinvT1 : tableInv
              (⟨aset t.records rid fields,
                aset t.record_sizes rid
                  (compute_record_size_for_fields fields)⟩ : TableM) = true := by
            refine tableInv_mk _ (nodupKeys_aset _ _ _ hndr) ?_ ?_
            · intro q hq
              rcases mem_aset _ _ _ q hq with rfl | hm
              · exact hndf
              · exact hfall q hm
            · show aset t.record_sizes rid (compute_record_size_for_fields fields) =
                sizes_of (aset t.records rid fields)
              rw [hszeq, sizes_of_aset]
          have happly := @apply_change_delete_eq
            ({ add_pending_change ds
                (⟨.INSERT, tid, rid, .fieldsS fields, .noneS⟩ : Change) with
              tables := aset ds.tables tid
                ⟨aset t.records rid fields,
                 aset t.record_sizes rid (compute_record_size_for_fields fields)⟩,
              record_count := ds.record_count + 1,
              size := ds.size + compute_record_size_for_fields fields })
            tid rid
            (⟨aset t.records rid fields,
              aset t.record_sizes rid
                (compute_record_size_for_fields fields)⟩ : TableM) fields
            (show alookup (aset ds.tables tid
                (⟨aset t.records rid fields,
                  aset t.record_sizes rid
                    (compute_record_size_for_fields fields)⟩ : TableM)) tid = _ from
              alookup_aset_self _ _ _)
            hinvT1
            (show alookup (aset t.records rid fields) rid = some fields from
              alookup_aset_self _ _ _)
            (show ¬(ds.size + compute_record_size_for_fields fields +
                -compute_record_size_for_fields fields < BASE_DATASTORE_SIZE) from by
              omega)
          have hobs : ∀ ds2 : DS, ds2.tables =
              aset (aset ds.tables tid
                (⟨aset t.records rid fields,
                  aset t.record_sizes rid
                    (compute_record_size_for_fields fields)⟩ : TableM)) tid
                (⟨adel (aset t.records rid fields) rid,
                  adel (aset t.record_sizes rid
                    (compute_record_size_for_fields fields)) rid⟩ : TableM) →
              obsEq ds2 ds := by
            intro ds2 htab
            refine obsEq_intro tid ?_ ?_
            · intro u2 hu
              rw [htab, alookup_aset_ne _ _ _ _ (fun he => hu he.symm),
                  alookup_aset_ne _ _ _ _ (fun he => hu he.symm)]
            · intro rid2
              have h2t : table_records ds2 tid =
                  adel (aset t.records rid fields) rid := by
                unfold table_records
                rw [htab, alookup_aset_self]
              have hdt : table_records ds tid = t.records := by
                unfold table_records
                rw [halk]
              rw [h2t, hdt, adel_aset_absent _ _ _ habs]
              exact recEq_refl _
          exact ⟨_, happly, hobs _ rfl⟩
  | none =>
    unfold get_table at hrun
    rw [halk] at hrun
    by_cases hv2 : is_valid_id tid
    case neg =>
      rw [if_neg hv2] at hrun
      simp at hrun
    case pos =>
    rw [if_pos hv2] at hrun
    simp only [except_bind_ok] at hrun
    rw [if_neg (by simp [alookup] :
      ¬(alookup (([] : List (String × Fields))) rid).isSome = true)] at hrun
    by_cases hvr : is_valid_id rid
    case neg =>
      rw [if_pos hvr] at hrun
      simp at hrun
    case pos =>
    rw [if_neg (not_not_intro hvr)] at hrun
    unfold insert_with_id at hrun
    cases hce : check_edit_permission
        ({ ds with tables := ds.tables ++ [(tid, (⟨[], []⟩ : TableM))] } : DS) with
    | error e =>
      rw [hce] at hrun
      simp at hrun
    | ok u =>
      rw [hce] at hrun
      simp only [except_bind_ok] at hrun
      by_cases hndf : nodupKeys fields
      case neg =>
        rw [if_pos hndf] at hrun
        simp at hrun
      case pos =>
      rw [if_neg (not_not_intro hndf)] at hrun
      cases hval : validate_insert_fields fields with
      | error e =>
        rw [hval] at hrun
        simp at hrun
      | ok vs =>
        rw [hval] at hrun
        simp only [except_bind_ok] at hrun
        rw [show BASE_RECORD_SIZE + vs =
            compute_record_size_for_fields fields from by
          rw [validate_insert_fields_sum hval]
          rfl] at hrun
        have halkX : alookup
            ({ ds with tables := ds.tables ++ [(tid, (⟨[], []⟩ : TableM))] } : DS).tables
            tid = some (⟨[], []⟩ : TableM) :=
          alookup_append_singleton _ _ _ halk
        have hsz2 : ¬(ds.size + compute_record_size_for_fields fields <
            BASE_DATASTORE_SIZE) := by
          omega
        rw [@update_record_fields_new
          (add_pending_change
            ({ ds with tables := ds.tables ++ [(tid, (⟨[], []⟩ : TableM))] } : DS)
            (⟨.INSERT, tid, rid, .fieldsS fields, .noneS⟩ : Change))
          tid rid (⟨[], []⟩ : TableM) fields rfl halkX rfl hsz2] at hrun
        cases hrun
        have hcc := change_eq_of_append
          (show ds.changes ++
              [(⟨.INSERT, tid, rid, .fieldsS fields, .noneS⟩ : Change)] =
            ds.changes ++ [c] from hc)
        subst hcc
        refine ⟨_, invert_single_insert tid rid fields, ?_⟩
        have hinvT1 : tableInv
            (⟨aset ([] : List (String × Fields)) rid fields,
              aset ([] : List (String × ℤ)) rid
                (compute_record_size_for_fields fields)⟩ : TableM) = true := by
          refine tableInv_mk _ ?_ ?_ ?_
          · simp [aset, nodupKeys, akeys]
          · intro q hq
            rcases mem_aset _ _ _ q hq with rfl | hm
            · exact hndf
            · cases hm
          · rfl
        have happly := @apply_change_delete_eq
          ({ add_pending_change
              ({ ds with tables := ds.tables ++ [(tid, (⟨[], []⟩ : TableM))] } : DS)
              (⟨.INSERT, tid, rid, .fieldsS fields, .noneS⟩ : Change) with
            tables := aset
              ({ ds with tables := ds.tables ++ [(tid, (⟨[], []⟩ : TableM))] } :
                DS).tables tid
              (⟨aset ([] : List (String × Fields)) rid fields,
                aset ([] : List (String × ℤ)) rid
                  (compute_record_size_for_fields fields)⟩ : TableM),
            record_count := ds.record_count + 1,
            size := ds.size + compute_record_size_for_fields fields })
          tid rid
          (⟨aset ([] : List (String × Fields)) rid fields,
            aset ([] : List (String × ℤ)) rid
              (compute_record_size_for_fields fields)⟩ : TableM) fields
          (show alookup (aset (ds.tables ++ [(tid, (⟨[], []⟩ : TableM))]) tid
              (⟨aset ([] : List (String × Fields)) rid fields,
                aset ([] : List (String × ℤ)) rid
                  (compute_record_size_for_fields fields)⟩ : TableM)) tid = _ from
            alookup_aset_self _ _ _)
          hinvT1
          (show alookup (aset ([] : List (String × Fields)) rid fields) rid =
              some fields from alookup_aset_self _ _ _)
          (show ¬(ds.size + compute_record_size_for_fields fields +
              -compute_record_size_for_fields fields < BASE_DATASTORE_SIZE) from by
            omega)
        have hobs : ∀ ds2 : DS, ds2.tables =
            aset (aset (ds.tables ++ [(tid, (⟨[], []⟩ : TableM))]) tid
              (⟨aset ([] : List (String × Fields)) rid fields,
                aset ([] : List (String × ℤ)) rid
                  (compute_record_size_for_fields fields)⟩ : TableM)) tid
              (⟨adel (aset ([] : List (String × Fields)) rid fields) rid,
                adel (aset ([] : List (String × ℤ)) rid
                  (compute_record_size_for_fields fields)) rid⟩ : TableM) →
            obsEq ds2 ds := by
          intro ds2 htab
          refine obsEq_intro tid ?_ ?_
          · intro u2 hu
            rw [htab, alookup_aset_ne _ _ _ _ (fun he => hu he.symm),
                alookup_aset_ne _ _ _ _ (fun he => hu he.symm),
                alookup_append_ne _ _ _ hu]
          · intro rid2
            have h2t : table_records ds2 tid =
                adel (aset ([] : List (String × Fields)) rid fields) rid := by
              unfold table_records
              rw [htab, alookup_aset_self]
            have hdt : table_records ds tid = [] := by
              unfold table_records
              rw [halk]
            rw [h2t, hdt,
              adel_aset_absent rid fields ([] : List (String × Fields)) rfl]
            exact recEq_refl _
        exact ⟨_, happly, hobs _ rfl⟩

/-- C1: for every legal single mutation (record insert, record delete,
scalar field put or delete, list create, list put / insert / delete /
move) that takes a coherent state `S` (size caches correct, no stored
`None` values) to a state `S'` while staging a change `c`, `invert(c)`
succeeds and applying it to `S'` restores `S` exactly: every table,
record and field value is observationally identical, lists
element-by-element.  Moreover `invert` maps Insert to Delete, Delete to
Insert carrying the undone fields, Put with no previous value to
Delete, Put over value X to Put(X), Delete to Put of the previous
value, ListCreate to a field Delete, ListPut(i, new) to ListPut(i, old
value at i), ListInsert(i, v) to ListDelete(i), ListDelete(i) to
ListInsert(i, removed value), and ListMove(i, j) to ListMove(j, i). -/
theorem C1_inversion_law (ds ds1 : DS) (m : Mut) (c : Change)
    (hinv : dsInv ds = true) (hnn : noVnone ds = true)
    (hrun : runMut ds m = Except.ok ds1)
    (hc : ds1.changes = ds.changes ++ [c]) :
    C1Concl ds ds1 c ∧
    (∀ tid rid f, Change.invert ⟨.INSERT, tid, rid, .fieldsS f, .noneS⟩ =
        Except.ok ⟨.DELETE, tid, rid, .noneS, .fieldsS f⟩) ∧
    (∀ tid rid f, Change.invert ⟨.DELETE, tid, rid, .noneS, .fieldsS f⟩ =
        Except.ok ⟨.INSERT, tid, rid, .fieldsS f, .noneS⟩) ∧
    (∀ tid rid field v,
      Change.invert ⟨.UPDATE, tid, rid, .opsS [(field, .ValuePut v)],
          .fieldsS [(field, Value.vnone)]⟩ =
        Except.ok ⟨.UPDATE, tid, rid, .opsS [(field, .ValueDelete)],
          .fieldsS [(field, v)]⟩) ∧
    (∀ tid rid field v before, ¬before = Value.vnone →
      Change.invert ⟨.UPDATE, tid, rid, .opsS [(field, .ValuePut v)],
          .fieldsS [(field, before)]⟩ =
        Except.ok ⟨.UPDATE, tid, rid, .opsS [(field, .ValuePut before)],
          .fieldsS [(field, v)]⟩) ∧
    (∀ tid rid field before,
      Change.invert ⟨.UPDATE, tid, rid, .opsS [(field, .ValueDelete)],
          .fieldsS [(field, before)]⟩ =
        Except.ok ⟨.UPDATE, tid, rid, .opsS [(field, .ValuePut before)],
          .fieldsS [(field, Value.vnone)]⟩) ∧
    (∀ tid rid field before,
      Change.invert ⟨.UPDATE, tid, rid, .opsS [(field, .ListCreate)],
          .fieldsS [(field, before)]⟩ =
        Except.ok ⟨.UPDATE, tid, rid, .opsS [(field, .ValueDelete)],
          .fieldsS [(field, .vlist [])]⟩) ∧
    (∀ tid rid field bl i v old, bl.get? i = some old →
      Change.invert ⟨.UPDATE, tid, rid, .opsS [(field, .ListPut i v)],
          .fieldsS [(field, .vlist bl)]⟩ =
        Except.ok ⟨.UPDATE, tid, rid, .opsS [(field, .ListPut i old)],
          .fieldsS [(field, .vlist (bl.take i ++ [v] ++ bl.drop (i + 1)))]⟩) ∧
    (∀ tid rid field bl i v, i ≤ List.length bl →
      Change.invert ⟨.UPDATE, tid, rid, .opsS [(field, .ListInsert i v)],
          .fieldsS [(field, .vlist bl)]⟩ =
        Except.ok ⟨.UPDATE, tid, rid, .opsS [(field, .ListDelete i)],
          .fieldsS [(field, .vlist (bl.take i ++ [v] ++ bl.drop i))]⟩) ∧
    (∀ tid rid field bl i old, bl.get? i = some old →
      Change.invert ⟨.UPDATE, tid, rid, .opsS [(field, .ListDelete i)],
          .fieldsS [(field, .vlist bl)]⟩ =
        Except.ok ⟨.UPDATE, tid, rid, .opsS [(field, .ListInsert i old)],
          .fieldsS [(field, .vlist (bl.take i ++ bl.drop (i + 1)))]⟩) ∧
    (∀ tid rid field bl i j, i < List.length bl → j < List.length bl →
      Change.invert ⟨.UPDATE, tid, rid, .opsS [(field, .ListMove i j)],
          .fieldsS [(field, .vlist bl)]⟩ =
        Except.ok ⟨.UPDATE, tid, rid, .opsS [(field, .ListMove j i)],
          .fieldsS [(field, .vlist (list_move bl i j))]⟩) := by
  refine ⟨?_, invert_single_insert, invert_single_delete, invert_single_put_none,
    invert_single_put_some, invert_single_value_delete, invert_single_list_create,
    invert_single_list_put, invert_single_list_insert, invert_single_list_delete,
    invert_single_list_move⟩
  cases m with
  | insert tid rid fields => exact C1_insert hinv hrun hc
  | delete tid rid => exact C1_delete hinv hrun hc
  | set tid rid field v => exact C1_set hinv hnn hrun hc
  | listCreate tid rid field => exact C1_listCreate hinv hnn hrun hc
  | listPut tid rid field i v => exact C1_listPut hinv hrun hc
  | listInsert tid rid field i v => exact C1_listInsert hinv hrun hc
  | listDelete tid rid field i => exact C1_listDelete hinv hrun hc
  | listMove tid rid field i j => exact C1_listMove hinv hrun hc

/-- A concrete pre-state for exercising the inversion law: a fresh
private datastore holding one record `t1/r1` with field `x = 7`. -/
def dsC1w : DS :=
  (table_get_or_insert (initDS "w1" OWNER) "t1" "r1"
    [("x", Value.atom (Atom.aInt 7))]).toOption.getD (initDS "w1" OWNER)

/-- The post-state after deleting that record. -/
def dsC1w1 : DS :=
  (runMut dsC1w (Mut.delete "t1" "r1")).toOption.getD dsC1w

/-- The change staged by that deletion. -/
def c1wChange : Change :=
  ⟨.DELETE, "t1", "r1", .noneS, .fieldsS [("x", Value.atom (Atom.aInt 7))]⟩

theorem C1_witness :
    dsInv dsC1w = true ∧ noVnone dsC1w = true ∧
    runMut dsC1w (Mut.delete "t1" "r1") = Except.ok dsC1w1 ∧
    dsC1w1.changes = dsC1w.changes ++ [c1wChange] ∧
    C1Concl dsC1w dsC1w1 c1wChange :=
  ⟨by decide, by decide, by decide, by decide,
   (C1_inversion_law dsC1w dsC1w1 (Mut.delete "t1" "r1") c1wChange
     (by decide) (by decide) (by decide) (by decide)).1⟩
